import Mathlib

/-! aistore: rebalance-metadata owner, job wait loops, resilver visitor

A shallow embedding of parts of the repository:

* `ais/rebmeta.go`   : `rebMD`, `rmdOwner`, `rmdModifier` (clone, mutate, persist, publish)
* `xact/bckjog.go`   : `BckJog.Wait`
* `res/resilver.go`  : `Res.wait`, `Res.RunResilver`, `_moveECMeta`, `joggerCtx.visitObj`
* `mirror/makencopies.go`, `xact/xs/lom_warmup.go` : the `Run` methods built on `BckJog`,
  `xactMNC.visitObj`
* `mirror/makencopies.go`, `xact/xs/election.go`, `xact/xs/lom_warmup.go` :
  `WhenPrevIsRunning` of the three factories
* `res/resilver.go`  : `_mvSlice`, `joggerCtx.visitCT`, `Res.IsActive`
* `cmn/cos/archive.go` : `Mime`, `byMime`
* `cmn/archive/read.go` : `namesEq`, `tarLR`, `zipLR`
* `api/authn/config.go` : `Config.ApplyUpdate`
* `cmd/cli/cli/show_hdlr.go` : the verbose loop of `xactList`

Pointers are addresses into an explicit heap, so that publishing a clone and
mutating an object in place are different things in the model.  Calls into
packages outside the sources (file system, mountpath joggers, object metadata)
are answered by an explicit collaborator record whose answers may depend on the
whole history of calls made so far.
-/

/-- Go `error` values, as far as the sources classify them: `os.IsNotExist`,
`cos.IsErrOOS`, and the aborted error built by `cmn.NewErrAborted(what, ctx, cause)`;
a nil `error` is `none : Option GoErr`. -/
inductive GoErr where
  | other (msg : String)
  | notExist (msg : String)
  | oos (msg : String)
  | aborted (what ctx : String) (cause : Option GoErr)
  deriving Repr

namespace GoErr

/-- Decidable equality of errors, by structural recursion through the cause. -/
def decEq : (a b : GoErr) → Decidable (a = b)
  | other a, other b =>
      if h : a = b then isTrue (by rw [h]) else isFalse (by intro e; cases e; exact h rfl)
  | notExist a, notExist b =>
      if h : a = b then isTrue (by rw [h]) else isFalse (by intro e; cases e; exact h rfl)
  | oos a, oos b =>
      if h : a = b then isTrue (by rw [h]) else isFalse (by intro e; cases e; exact h rfl)
  | aborted w c none, aborted w2 c2 none =>
      if h : w = w2 ∧ c = c2 then isTrue (by rw [h.1, h.2])
      else isFalse (by intro e; cases e; exact h ⟨rfl, rfl⟩)
  | aborted w c (some x), aborted w2 c2 (some y) =>
      match decEq x y with
      | isTrue hxy =>
        if h : w = w2 ∧ c = c2 then isTrue (by rw [h.1, h.2, hxy])
        else isFalse (by intro e; cases e; exact h ⟨rfl, rfl⟩)
      | isFalse hxy => isFalse (by intro e; cases e; exact hxy rfl)
  | aborted _ _ none, aborted _ _ (some _) => isFalse (by intro e; cases e)
  | aborted _ _ (some _), aborted _ _ none => isFalse (by intro e; cases e)
  | other _, notExist _ => isFalse (by intro e; cases e)
  | other _, oos _ => isFalse (by intro e; cases e)
  | other _, aborted _ _ _ => isFalse (by intro e; cases e)
  | notExist _, other _ => isFalse (by intro e; cases e)
  | notExist _, oos _ => isFalse (by intro e; cases e)
  | notExist _, aborted _ _ _ => isFalse (by intro e; cases e)
  | oos _, other _ => isFalse (by intro e; cases e)
  | oos _, notExist _ => isFalse (by intro e; cases e)
  | oos _, aborted _ _ _ => isFalse (by intro e; cases e)
  | aborted _ _ _, other _ => isFalse (by intro e; cases e)
  | aborted _ _ _, notExist _ => isFalse (by intro e; cases e)
  | aborted _ _ _, oos _ => isFalse (by intro e; cases e)
termination_by structural a => a

instance : DecidableEq GoErr := decEq

/-- Result of `os.IsNotExist(err)` on a possibly nil error. -/
def IsNotExist : Option GoErr → Bool
  | some (notExist _) => true
  | _ => false

/-- Result of `cos.IsErrOOS(err)` on a non-nil error. -/
def IsErrOOS : GoErr → Bool
  | oos _ => true
  | _ => false

/-- Whether the error is an `*cmn.ErrAborted`. -/
def IsErrAborted : Option GoErr → Bool
  | some (aborted _ _ _) => true
  | _ => false

/-- The cause carried by an aborted error. -/
def abortCause : Option GoErr → Option GoErr
  | some (aborted _ _ c) => c
  | _ => none

end GoErr

/-- Modelled from the spec: `cmn.NewErrAborted` is not part of the sources; an
aborted error "carries a cause", and the callers pass the job name, a context
tag and the cause. -/
def NewErrAborted (what ctx : String) (cause : Option GoErr) : Option GoErr :=
  some (GoErr.aborted what ctx cause)

/-- Two's-complement wrap-around of a Go `int64`. -/
def wrapInt64 (x : Int) : Int := (x + 2 ^ 63) % 2 ^ 64 - 2 ^ 63

namespace ais

/-- Addresses of heap-allocated `rebMD` objects. -/
abbrev Ptr := Nat

/-- Modelled from the spec: `meta.RMD` (embedded in `rebMD`) is declared outside
the sources; the fields are the ones `rebmeta.go` reads and writes: the `int64`
version, the IDs of the targets under migration (a nil slice is `[]`) and the
resilver tag. -/
structure rebMD where
  Version : Int
  TargetIDs : List String
  Resilver : String
  deriving DecidableEq, Repr

/-- The zero value `rebMD{}`. -/
def rebMD.zero : rebMD := { Version := 0, TargetIDs := [], Resilver := "" }

/-- Method `func (r *rebMD) version() int64`. -/
def rebMD.version (r : rebMD) : Int := r.Version

/-- Method `func (r *rebMD) inc() { r.Version++ }`. -/
def rebMD.inc (r : rebMD) : rebMD := { r with Version := wrapInt64 (r.Version + 1) }

/-- What happened during the calls, in program order. -/
inductive Event where
  | lock
  | unlock
  | pre (clone : Ptr)
  | persist (clone : Ptr) (ok : Bool)
  | put (p : Ptr)
  | final (clone : Ptr)
  | glogError
  deriving DecidableEq, Repr

/-- The memory one `rmdOwner` lives in: every `rebMD` allocated so far (address =
position), the owner's atomic pointer `rmd`, its two flags, and the event log. -/
structure rmdOwner where
  heap : List rebMD
  rmd : Ptr
  interrupted : Bool
  starting : Bool
  log : List Event

/-- The data fields of `rmdModifier` that callbacks receive (`prev`, `cur` are
pointers, nil before the first `do`). -/
structure rmdCtx where
  prev : Option Ptr
  cur : Option Ptr
  rebID : String
  wait : Bool

/-- The `pre` callback `func(ctx *rmdModifier, clone *rebMD)`: it may read the
heap, and it writes the context and the clone it is given (as `rmdInc` does). A
callback that writes through another pointer is outside this embedding. -/
abbrev PreFn := List rebMD → rmdCtx → rebMD → rmdCtx × rebMD

/-- The `final` callback `func(ctx *rmdModifier, clone *rebMD)`: it runs after
publication, for side effects outside the owner; it may update the context. -/
abbrev FinalFn := List rebMD → rmdCtx → Ptr → rmdCtx

/-- The struct `rmdModifier`: the two callbacks (`final` may be nil) and the data. -/
structure rmdModifier where
  pre : PreFn
  final : Option FinalFn
  ctx : rmdCtx

/-- Dereference; the zero value stands in only for an address never allocated. -/
def rmdOwner.deref (r : rmdOwner) (p : Ptr) : rebMD := r.heap.getD p rebMD.zero

/-- Allocation of a new object holding `v`; returns its address. -/
def rmdOwner.alloc (r : rmdOwner) (v : rebMD) : rmdOwner × Ptr :=
  ({ r with heap := r.heap ++ [v] }, r.heap.length)

/-- Write through a pointer: `*p = f(*p)`. -/
def rmdOwner.update (r : rmdOwner) (p : Ptr) (f : rebMD → rebMD) : rmdOwner :=
  { r with heap := r.heap.set p (f (r.deref p)) }

/-- Append to the event log. -/
def rmdOwner.emit (r : rmdOwner) (e : Event) : rmdOwner := { r with log := r.log ++ [e] }

/-- Method `func (r *rebMD) clone() *rebMD`: `dst := &rebMD{}`, then
`cos.CopyStruct(dst, r)` copies every field. -/
def rebMD.clone (r : rmdOwner) (src : Ptr) : rmdOwner × Ptr :=
  let (r1, dst) := r.alloc rebMD.zero
  (r1.update dst (fun _ => r1.deref src), dst)

/-- Method `func (r *rmdOwner) put(rmd *rebMD)`. -/
def rmdOwner.put (r : rmdOwner) (rmd : Ptr) : rmdOwner :=
  { r with rmd := rmd, log := r.log ++ [Event.put rmd] }

/-- Method `func (r *rmdOwner) get() *rebMD`. -/
def rmdOwner.get (r : rmdOwner) : Ptr := r.rmd

/-- The snapshot a reader sees: `*r.get()`. -/
def rmdOwner.snapshot (r : rmdOwner) : rebMD := r.deref r.get

/-- Function `newRMDOwner`: `rmdo := &rmdOwner{}; rmdo.put(&rebMD{})`. -/
def newRMDOwner : rmdOwner :=
  let r0 : rmdOwner := { heap := [], rmd := 0, interrupted := false, starting := false, log := [] }
  let (r1, p) := r0.alloc rebMD.zero
  r1.put p

/-- Method `rmdOwner.persist`; `perr` is what `jsp.SaveMeta` returns. -/
def rmdOwner.persist (r : rmdOwner) (clone : Ptr) (perr : Option GoErr) : rmdOwner × Option GoErr :=
  (r.emit (Event.persist clone perr.isNone), perr)

/-- Method `rmdOwner.load`; `res` is what `jsp.LoadMeta` returns for the file:
the decoded metadata, or the read error. -/
def rmdOwner.load (r : rmdOwner) (res : Except GoErr rebMD) : rmdOwner :=
  let (r1, rmd) := r.alloc rebMD.zero
  match res with
  | .ok v => (r1.update rmd (fun _ => v)).put rmd
  | .error e => if !GoErr.IsNotExist (some e) then r1.emit Event.glogError else r1

/-- Method `rmdOwner.do`; `RebID2S` is `xact.RebID2S` (outside the sources),
`perr` is the outcome of the durable write. -/
def rmdOwner.do (RebID2S : Int → String) (r : rmdOwner) (m : rmdModifier) (perr : Option GoErr) :
    rmdOwner × rmdModifier × Ptr × Option GoErr :=
  let prev := r.get
  let ctx1 := { m.ctx with prev := some prev }
  let (r1, clone) := rebMD.clone r prev
  let r2 := r1.update clone (fun c => { c with TargetIDs := [] })
  let r3 := r2.update clone (fun c => { c with Resilver := "" })
  let out := m.pre r3.heap ctx1 (r3.deref clone)
  let r4 := (r3.update clone (fun _ => out.2)).emit (Event.pre clone)
  let (r5, err) := r4.persist clone perr
  let r6 := if err.isNone then r5.put clone else r5
  let ctx2 := { out.1 with cur := some clone, rebID := RebID2S (r6.deref clone).Version }
  (r6, { m with ctx := ctx2 }, clone, err)

/-- Method `rmdOwner.modify`. -/
def rmdOwner.modify (RebID2S : Int → String) (r : rmdOwner) (m : rmdModifier) (perr : Option GoErr) :
    rmdOwner × rmdModifier × Ptr × Option GoErr :=
  let r0 := r.emit Event.lock
  let (r1, m1, clone, err) := rmdOwner.do RebID2S r0 m perr
  let r2 := r1.emit Event.unlock
  match err, m1.final with
  | none, some final => (r2.emit (Event.final clone), { m1 with ctx := final r2.heap m1.ctx clone }, clone, err)
  | _, _ => (r2, m1, clone, err)

/-- Function `rmdInc`: `clone.inc()`. -/
def rmdInc : PreFn := fun _ ctx clone => (ctx, clone.inc)

/-- Every pointer the owner publishes refers to an allocated object. -/
def rmdOwner.WF (r : rmdOwner) : Prop := r.rmd < r.heap.length

instance (r : rmdOwner) : Decidable r.WF := by unfold rmdOwner.WF; infer_instance

/-- The clone before `pre` runs: the previous snapshot with the transient fields reset. -/
def resetClone (r : rmdOwner) : rebMD :=
  { Version := r.snapshot.Version, TargetIDs := [], Resilver := "" }

/-- What `pre` returns inside `do`. -/
def preOut (r : rmdOwner) (m : rmdModifier) : rmdCtx × rebMD :=
  m.pre (r.heap ++ [resetClone r]) { m.ctx with prev := some r.get } (resetClone r)

/-- A modifier as callers build it: `&rmdModifier{pre: rmdInc}`. -/
def incModifier : rmdModifier :=
  { pre := rmdInc, final := none, ctx := { prev := none, cur := none, rebID := "", wait := false } }

/-- A modifier whose `pre` leaves the clone as it finds it. -/
def keepModifier : rmdModifier :=
  { pre := fun _ ctx clone => (ctx, clone), final := none,
    ctx := { prev := none, cur := none, rebID := "", wait := false } }

/-- A modifier whose `pre` fills in the transient fields and increments the version. -/
def fillModifier (ids : List String) (tag : String) : rmdModifier :=
  { pre := fun _ ctx clone => (ctx, { clone with TargetIDs := ids, Resilver := tag }.inc),
    final := some (fun _ ctx _ => ctx),
    ctx := { prev := none, cur := none, rebID := "", wait := true } }

/-- A rebalance ID printer standing in for `xact.RebID2S`. -/
def rebIDOf (v : Int) : String := "g" ++ toString v

/-- An owner that loaded version 5 with transient fields set. -/
def owner5 : rmdOwner :=
  newRMDOwner.load (.ok { Version := 5, TargetIDs := ["t1", "t2"], Resilver := "res-1" })

/-- The events appended to the log by a step from `r` to `r2`. -/
def newEvents (r r2 : rmdOwner) : List Event := r2.log.drop r.log.length

/-- The clones `final` was called with, in order. -/
def finalCalls : List Event → List Ptr
  | [] => []
  | Event.final c :: rest => c :: finalCalls rest
  | _ :: rest => finalCalls rest

/-- Successive `modify` calls with `pre = rmdInc`, one per persist outcome; returns
the final owner and the versions published, in order. -/
def modifySeq (f : Int → String) (r : rmdOwner) : List (Option GoErr) → rmdOwner × List Int
  | [] => (r, [])
  | perr :: rest =>
    let res := rmdOwner.modify f r incModifier perr
    let tl := modifySeq f res.1 rest
    (tl.1, if perr.isNone then res.1.snapshot.Version :: tl.2 else tl.2)

/-- Number of successful persists among the outcomes. -/
def successes (outcomes : List (Option GoErr)) : Nat := (outcomes.filter Option.isNone).length

end ais

namespace xact

/-- Modelled from the spec: the states of an extended action; `xact.Base` is outside
the sources. `Running → {Finished(success), Finished(error), Aborted}`, and an
aborted outcome carries its cause. -/
inductive XState where
  | running
  | finishedOk
  | finishedErr (err : GoErr)
  | aborted (cause : Option GoErr)
  deriving DecidableEq, Repr

/-- Modelled from the spec: the part of `xact.Base` the jobs use: the name, the
state, the object and byte counters, and the arguments `Finish` was called with. -/
structure Base where
  name : String
  state : XState
  objs : Int
  bytes : Int
  finishArgs : List (Option GoErr)
  deriving DecidableEq, Repr

/-- A running action with zeroed counters. -/
def Base.init (name : String) : Base :=
  { name := name, state := XState.running, objs := 0, bytes := 0, finishArgs := [] }

/-- Method `Name()`. -/
def Base.Name (b : Base) : String := b.name

/-- Modelled from the spec: `Base.Finish(err)` makes the one terminal transition
("terminal states are final; no re-entry"): success for a nil error, Aborted with
the carried cause for an aborted error, Finished(error) otherwise. -/
def Base.Finish (b : Base) (err : Option GoErr) : Base :=
  let st :=
    match b.state, err with
    | XState.running, none => XState.finishedOk
    | XState.running, some (GoErr.aborted _ _ cause) => XState.aborted cause
    | XState.running, some e => XState.finishedErr e
    | s, _ => s
  { b with state := st, finishArgs := b.finishArgs ++ [err] }

/-- Modelled from the spec: `Base.ObjsAdd(n, size)` adds to the counters. -/
def Base.ObjsAdd (b : Base) (n size : Int) : Base :=
  { b with objs := wrapInt64 (b.objs + n), bytes := wrapInt64 (b.bytes + size) }

/-- What the `select` in a wait loop receives: the abort signal with its cause, or
the jogger group's finished event. -/
inductive WaitEvent where
  | abort (errCause : Option GoErr)
  | finished
  deriving DecidableEq, Repr

/-- Modelled from the spec: `mpather.Jgroup` is outside the sources. The group has
a slot for the first worker error; `stop()` "returns the first worker error
encountered, if any". The counters record the calls made on the group. -/
structure Jgroup where
  firstErr : Option GoErr
  runs : Nat
  stops : Nat
  deriving DecidableEq, Repr

/-- Modelled from the spec: a new group, no worker has failed yet. -/
def Jgroup.new : Jgroup := { firstErr := none, runs := 0, stops := 0 }

/-- Modelled from the spec: `Run()` starts the workers. -/
def Jgroup.Run (jg : Jgroup) : Jgroup := { jg with runs := jg.runs + 1 }

/-- Modelled from the spec: `Stop()` signals the workers and returns the first
worker error, if any. -/
def Jgroup.Stop (jg : Jgroup) : Jgroup × Option GoErr :=
  ({ jg with stops := jg.stops + 1 }, jg.firstErr)

/-- Modelled from the spec: a worker stops at the first error its visit callback
returns ("any other error aborts just that worker and is surfaced to the group's
first error slot"); `results` are the errors the workers ended with. -/
def Jgroup.workersDone (jg : Jgroup) (results : List (Option GoErr)) : Jgroup :=
  { jg with firstErr := match jg.firstErr with
                        | some e => some e
                        | none => results.findSome? id }

/-- The struct `BckJog`. -/
structure BckJog where
  joggers : Jgroup
  base : Base
  deriving DecidableEq, Repr

/-- Method `BckJog.Run`. -/
def BckJog.Run (r : BckJog) : BckJog := { r with joggers := r.joggers.Run }

/-- Method `BckJog.Wait`; `ev` is what the `select` receives. -/
def BckJog.Wait (r : BckJog) (ev : WaitEvent) : BckJog × Option GoErr :=
  match ev with
  | WaitEvent.abort errCause =>
    let (jg, _) := r.joggers.Stop
    ({ r with joggers := jg }, NewErrAborted r.base.Name "x-bck-jog" errCause)
  | WaitEvent.finished =>
    let (jg, err) := r.joggers.Stop
    ({ r with joggers := jg }, err)

end xact

namespace xs

open xact

/-- Method `xactLLC.Run`: run the joggers, wait, finish with what `Wait` returned;
`results` are the errors the workers end with, `ev` what the wait loop receives. -/
def xactLLC.Run (r : BckJog) (results : List (Option GoErr)) (ev : WaitEvent) : BckJog :=
  let r1 := r.Run
  let r2 := { r1 with joggers := r1.joggers.workersDone results }
  let (r3, err) := r2.Wait ev
  { r3 with base := r3.base.Finish err }

end xs

namespace mirror

open xact

/-- Method `xactMNC.Run`; `validateErr` is what `fs.ValidateNCopies` returns. -/
def xactMNC.Run (r : BckJog) (validateErr : Option GoErr) (results : List (Option GoErr))
    (ev : WaitEvent) : BckJog :=
  match validateErr with
  | some e => { r with base := r.base.Finish (some e) }
  | none =>
    let r1 := r.Run
    let r2 := { r1 with joggers := r1.joggers.workersDone results }
    let (r3, err) := r2.Wait ev
    { r3 with base := r3.base.Finish err }

end mirror

namespace res

open xact

/-- Modelled from the spec: `fs.Mountpath` is outside the sources; the resilver
code reads its `Path`. -/
structure Mountpath where
  Path : String
  deriving DecidableEq, Repr

/-- Modelled from the spec: `cluster.LOM` is outside the sources; these are the
fields and getters `resilver.go` reads without a side effect. -/
structure LOM where
  FQN : String
  HrwFQN : String
  ObjName : String
  Bucket : String
  mpath : Mountpath
  deriving DecidableEq, Repr

/-- Modelled from the spec: `cluster.CT` is outside the sources; the fields are the
getters `resilver.go` calls. -/
structure CT where
  FQN : String
  ObjectName : String
  Bucket : String
  mpath : Mountpath
  ecEnabled : Bool
  deriving DecidableEq, Repr

/-- Content types `fs.ObjectType`, `fs.ECSliceType`, `fs.ECMetaType`. -/
inductive ContentType where
  | ObjectType
  | ECSliceType
  | ECMetaType
  deriving DecidableEq, Repr

/-- The two pauses of `visitObj`: `time.Second >> 1` after a busy lock, and
`cmn.Timeout.CplaneOperation() / 2` before jumping back to `redo`. -/
inductive Pause where
  | halfSecond
  | halfCplaneOperation
  deriving DecidableEq, Repr

/-- Every call that leaves the process or touches shared state, in program order,
with its arguments and its answer. -/
inductive Act where
  | tryLock (lom : LOM) (ok : Bool)
  | sleep (d : Pause)
  | unlock (lom : LOM)
  | objsAdd (n size : Int)
  | resolveFQN (fqn : String) (err : Option GoErr)
  | stat (path : String) (err : Option GoErr)
  | copyFile (src dst : String) (err : Option GoErr)
  | remove (path : String) (err : Option GoErr)
  | load (lom : LOM) (err : Option GoErr)
  | uncache (lom : LOM)
  | toMpath (lom : LOM) (mi : Option Mountpath) (isHrw : Bool)
  | copy (lom : LOM) (mi : Mountpath) (err : Option GoErr)
  | initFQN (fqn : String) (err : Option GoErr)
  | hrwMpath (uname : String) (err : Option GoErr)
  deriving DecidableEq, Repr

/-- The collaborators outside the sources (object locks, object metadata, the
placement oracle, the file system). Each answer may depend on the history of calls
made so far, which covers every behaviour of a stateful, concurrently changing
environment. -/
structure Sys where
  TryLock : List Act → LOM → Bool
  IsHRW : List Act → LOM → Bool
  ECEnabled : List Act → LOM → Bool
  ResolveFQN : List Act → String → Except GoErr Mountpath
  Stat : List Act → String → Option GoErr
  CopyFile : List Act → String → String → Option GoErr
  Remove : List Act → String → Option GoErr
  Load : List Act → LOM → Option GoErr
  SizeBytes : List Act → LOM → Int
  ToMpath : List Act → LOM → Option Mountpath × Bool
  Copy : List Act → LOM → Mountpath → Option GoErr
  InitFQN : List Act → String → String → LOM × Option GoErr
  HrwMpath : List Act → String → Except GoErr Mountpath
  MakePathFQN : Mountpath → String → ContentType → String → String
  MakeUname : String → String → String

/-- Modelled from the spec: `xs.Resilver` is outside the sources; it is an extended
action, with the base name and counters. -/
abbrev Resilver := Base

/-- The struct `joggerCtx` (the target handle `t` is not used by the visitors). -/
structure joggerCtx where
  xres : Resilver
  deriving DecidableEq, Repr

/-- The constant `maxRetries` of `visitObj`. -/
def maxRetries : Nat := 3

/-- Function `cluster.NewCTFromLOM(lom, fs.ObjectType)`, as far as `_moveECMeta`
reads the result: bucket and object name of the object. -/
def NewCTFromLOM (S : Sys) (tr : List Act) (lom : LOM) : CT :=
  { FQN := lom.FQN, ObjectName := lom.ObjName, Bucket := lom.Bucket, mpath := lom.mpath,
    ecEnabled := S.ECEnabled tr lom }

/-- Function `_moveECMeta(ct, srcMpath, dstMpath, buf)`: returns the source and
destination FQNs and the error, and the extended history. -/
def _moveECMeta (S : Sys) (tr : List Act) (ct : CT) (srcMpath dstMpath : Mountpath) :
    (String × String × Option GoErr) × List Act :=
  let src := S.MakePathFQN srcMpath ct.Bucket ContentType.ECMetaType ct.ObjectName
  let serr := S.Stat tr src
  let tr1 := tr ++ [Act.stat src serr]
  if GoErr.IsNotExist serr then (("", "", none), tr1)
  else
    let dst := S.MakePathFQN dstMpath ct.Bucket ContentType.ECMetaType ct.ObjectName
    let err := S.CopyFile tr1 src dst
    let tr2 := tr1 ++ [Act.copyFile src dst err]
    match err with
    | none => ((src, dst, none), tr2)
    | some e => (("", "", if GoErr.IsNotExist (some e) then none else some e), tr2)

/-- Method `joggerCtx.fixHrw(lom, mi, buf)`: returns `hlom` (nil when the copy
failed), the error, and the extended history. -/
def fixHrw (S : Sys) (tr : List Act) (lom : LOM) (mi : Mountpath) :
    (Option LOM × Option GoErr) × List Act :=
  let cerr := S.Copy tr lom mi
  let tr1 := tr ++ [Act.copy lom mi cerr]
  match cerr with
  | some e => ((none, some e), tr1)
  | none =>
    let hrwFQN := S.MakePathFQN mi lom.Bucket ContentType.ObjectType lom.ObjName
    let init := S.InitFQN tr1 hrwFQN lom.Bucket
    let tr2 := tr1 ++ [Act.initFQN hrwFQN init.2]
    match init.2 with
    | some e => ((some init.1, some e), tr2)
    | none =>
      let lerr := S.Load tr2 init.1
      ((some init.1, lerr), tr2 ++ [Act.load init.1 lerr])

/-- What the body of `visitObj` leaves for the deferred cleanup: the named result
`errHrw` and the local `copied`. -/
structure BodyRet where
  errHrw : Option GoErr
  copied : Bool
  deriving DecidableEq, Repr

/-- The local variables of `visitObj` that change in the fix-up loop. -/
structure Locals where
  lom : LOM
  hlom : Option LOM
  copied : Bool
  retries : Nat
  deriving DecidableEq, Repr

/-- Label `ret` of `visitObj`: remove the old EC metafile, return nil. -/
def visitObj.ret (S : Sys) (tr : List Act) (metaOldPath : String) (copied : Bool) :
    BodyRet × List Act :=
  if metaOldPath ≠ "" then
    ({ errHrw := none, copied := copied },
      tr ++ [Act.remove metaOldPath (S.Remove tr metaOldPath)])
  else ({ errHrw := none, copied := copied }, tr)

/-- Label `redo` of `visitObj`, up to the start of the copy loop. It reads the
outer `mi` and `isHrw` (set once before the label; the loop declares its own).
Returns either the early return of the function or the updated locals. -/
def visitObj.redo (S : Sys) (tr : List Act) (mi : Mountpath) (isHrw : Bool)
    (metaNewPath : String) (st : Locals) : (BodyRet ⊕ Locals) × List Act :=
  if isHrw then
    let tr1 := tr ++ [Act.uncache st.lom]
    let fx := fixHrw S tr1 st.lom mi
    match fx.1.2, fx.1.1 with
    | none, some hlom => (Sum.inr { st with lom := hlom, hlom := some hlom, copied := true }, fx.2)
    | none, none => (Sum.inr { st with copied := true }, fx.2)
    | some e, _ =>
      if metaNewPath ≠ "" then
        let rerr := S.Remove fx.2 metaNewPath
        (Sum.inl { errHrw := rerr, copied := st.copied }, fx.2 ++ [Act.remove metaNewPath rerr])
      else (Sum.inl { errHrw := some e, copied := st.copied }, fx.2)
  else (Sum.inr st, tr)

/-- The error built when the retry bound is exceeded. -/
def errKeepChanging (xname : String) (orig : LOM) (mi : Mountpath) : GoErr :=
  GoErr.other (xname ++ ": hrw mountpaths keep changing (" ++ orig.FQN ++ " => " ++ mi.Path ++ " ...)")

/-- The copy loop of `visitObj` (step 3) together with its jumps back to `redo`;
one unit of fuel per loop iteration, `none` when the fuel runs out. -/
def visitObj.fixCopies (S : Sys) (xname : String) (orig : LOM) (mi0 : Mountpath) (isHrw0 : Bool)
    (metaOldPath metaNewPath : String) : Nat → Locals → List Act → Option (BodyRet × List Act)
  | 0, _, _ => none
  | fuel + 1, st, tr =>
    let ans := S.ToMpath tr st.lom
    let tr1 := tr ++ [Act.toMpath st.lom ans.1 ans.2]
    match ans.1 with
    | none => some (visitObj.ret S tr1 metaOldPath st.copied)
    | some mi =>
      if ans.2 then
        let retries := st.retries + 1
        if retries > maxRetries then
          some ({ errHrw := some (errKeepChanging xname orig mi), copied := st.copied }, tr1)
        else
          let st1 : Locals := { lom := orig, hlom := none, copied := false, retries := retries }
          let rd := visitObj.redo S (tr1 ++ [Act.sleep Pause.halfCplaneOperation]) mi0 isHrw0
            metaNewPath st1
          match rd.1 with
          | Sum.inl r => some (r, rd.2)
          | Sum.inr st2 =>
            visitObj.fixCopies S xname orig mi0 isHrw0 metaOldPath metaNewPath fuel st2 rd.2
      else
        let cerr := S.Copy tr1 st.lom mi
        let tr2 := tr1 ++ [Act.copy st.lom mi cerr]
        match cerr with
        | none =>
          visitObj.fixCopies S xname orig mi0 isHrw0 metaOldPath metaNewPath fuel
            { st with copied := true } tr2
        | some e =>
          let _err := if GoErr.IsErrOOS e then NewErrAborted xname "visit-obj" (some e) else some e
          some (visitObj.ret S tr2 metaOldPath st.copied)

/-- Step 1 of `visitObj` (fix EC metafile): either the early `return nil`, or the
pair `metaOldPath`, `metaNewPath`. -/
def visitObj.fixECMeta (S : Sys) (tr : List Act) (lom : LOM) :
    (Option (String × String)) × List Act :=
  if !S.IsHRW tr lom && S.ECEnabled tr lom then
    match S.ResolveFQN tr lom.HrwFQN with
    | .error e => (none, tr ++ [Act.resolveFQN lom.HrwFQN (some e)])
    | .ok newMpath =>
      let tr1 := tr ++ [Act.resolveFQN lom.HrwFQN none]
      let ct := NewCTFromLOM S tr1 lom
      let mv := _moveECMeta S tr1 ct lom.mpath newMpath
      match mv.1.2.2 with
      | some _ => (none, mv.2)
      | none => (some (mv.1.1, mv.1.2.1), mv.2)
  else (some ("", ""), tr)

/-- The body of `visitObj` after the lock was taken, up to its `return`. -/
def visitObj.body (S : Sys) (xname : String) (fuel : Nat) (orig : LOM) (tr : List Act) :
    Option ((BodyRet × Int) × List Act) :=
  let ec := visitObj.fixECMeta S tr orig
  match ec.1 with
  | none => some (({ errHrw := none, copied := false }, 0), ec.2)
  | some (metaOldPath, metaNewPath) =>
    let lerr := S.Load ec.2 orig
    let tr1 := ec.2 ++ [Act.load orig lerr]
    match lerr with
    | some _ => some (({ errHrw := none, copied := false }, 0), tr1)
    | none =>
      let size := S.SizeBytes tr1 orig
      let ans := S.ToMpath tr1 orig
      let tr2 := tr1 ++ [Act.toMpath orig ans.1 ans.2]
      match ans.1 with
      | none =>
        let r := visitObj.ret S tr2 metaOldPath false
        some ((r.1, size), r.2)
      | some mi =>
        let st0 : Locals := { lom := orig, hlom := none, copied := false, retries := 0 }
        let rd := visitObj.redo S tr2 mi ans.2 metaNewPath st0
        match rd.1 with
        | Sum.inl r => some ((r, size), rd.2)
        | Sum.inr st1 =>
          match visitObj.fixCopies S xname orig mi ans.2 metaOldPath metaNewPath fuel st1 rd.2 with
          | none => none
          | some r => some ((r.1, size), r.2)

/-- The part of `visitObj` that runs with the object locked: the body, then the
deferred cleanup (unlock the original object, count it if it was copied and no
error is returned). -/
def visitObj.locked (S : Sys) (jg : joggerCtx) (fuel : Nat) (orig : LOM) (tr : List Act) :
    Option (Option GoErr × joggerCtx × List Act) :=
  match visitObj.body S jg.xres.Name fuel orig tr with
  | none => none
  | some ((r, size), tr1) =>
    let tr2 := tr1 ++ [Act.unlock orig]
    if r.copied && r.errHrw.isNone then
      some (r.errHrw, { jg with xres := jg.xres.ObjsAdd 1 size }, tr2 ++ [Act.objsAdd 1 size])
    else some (r.errHrw, jg, tr2)

/-- Method `joggerCtx.visitObj(lom, buf)`: the result `errHrw`, the updated context
(the xaction counters) and the extended history; `none` when the fuel for the copy
loop runs out. -/
def visitObj (S : Sys) (jg : joggerCtx) (fuel : Nat) (lom : LOM) (tr : List Act) :
    Option (Option GoErr × joggerCtx × List Act) :=
  let ok1 := S.TryLock tr lom
  let tr1 := tr ++ [Act.tryLock lom ok1]
  if !ok1 then
    let tr2 := tr1 ++ [Act.sleep Pause.halfSecond]
    let ok2 := S.TryLock tr2 lom
    let tr3 := tr2 ++ [Act.tryLock lom ok2]
    if !ok2 then some (none, jg, tr3)
    else visitObj.locked S jg fuel lom tr3
  else visitObj.locked S jg fuel lom tr1

/-- The struct `Res`: begin and end of the last or current resilver (monotonic
nanoseconds, 0 when unset). -/
structure Res where
  begin_ : Int
  end_ : Int
  deriving DecidableEq, Repr

/-- Method `Res._begin`; `now` is `mono.NanoTime()`. -/
def Res._begin (_r : Res) (now : Int) : Res := { begin_ := now, end_ := 0 }

/-- Method `Res._end`; `now` is `mono.NanoTime()`. -/
def Res._end (r : Res) (now : Int) : Res := { r with end_ := now }

/-- What `RunResilver` and `wait` do to the world around them, in program order. -/
inductive ResEvent where
  | persistMarker (ok : Bool)
  | renewResilver
  | jgRun
  | jgStop
  | removeMarker (err : Option GoErr)
  | postDD (err : Option GoErr)
  | finish (err : Option GoErr)
  deriving DecidableEq, Repr

/-- The state `RunResilver` works on: the `Res` timestamps, whether the resilver
marker file exists, the jogger group, the xaction, and the event log. -/
structure ResState where
  res : Res
  marker : Bool
  jg : Jgroup
  xres : Resilver
  log : List ResEvent
  deriving DecidableEq, Repr

/-- Method `Res.wait(jg, xres)`; `ev` is what the `select` receives, `rmErr` what
`fs.RemoveMarker` returns (the marker is gone when it returns nil). -/
def Res.wait (s : ResState) (ev : WaitEvent) (rmErr : Option GoErr) : ResState × Option GoErr :=
  match ev with
  | WaitEvent.abort errCause =>
    let (jg, _) := s.jg.Stop
    ({ s with jg := jg, log := s.log ++ [ResEvent.jgStop] },
      NewErrAborted s.xres.Name "" errCause)
  | WaitEvent.finished =>
    ({ s with marker := if rmErr.isNone then false else s.marker,
              log := s.log ++ [ResEvent.removeMarker rmErr] }, rmErr)

/-- The inputs of one `RunResilver` call that come from outside the sources. -/
structure RunEnv where
  UUID : String
  nowBegin : Int
  nowEnd : Int
  persistFatalErr : Option GoErr
  persistWriteErr : Option GoErr
  availablePaths : Nat
  hasPostDD : Bool
  results : List (Option GoErr)
  ev : WaitEvent
  rmErr : Option GoErr
  deriving DecidableEq, Repr

/-- Method `Res.RunResilver(args)`: `results` are the errors the joggers' visit
callbacks end their workers with; the renewed xaction is named by `args.UUID`. -/
def Res.RunResilver (s : ResState) (env : RunEnv) : ResState :=
  let s1 := { s with res := s.res._begin env.nowBegin }
  let deferred (t : ResState) : ResState := { t with res := t.res._end env.nowEnd }
  if env.persistFatalErr.isSome || env.persistWriteErr.isSome then
    deferred { s1 with log := s1.log ++ [ResEvent.persistMarker false] }
  else
    let s2 := { s1 with marker := true, log := s1.log ++ [ResEvent.persistMarker true] }
    if env.availablePaths < 1 then deferred s2
    else
      let s3 := { s2 with xres := Base.init env.UUID, jg := Jgroup.new,
                          log := s2.log ++ [ResEvent.renewResilver] }
      let s4 := { s3 with res := { s3.res with end_ := 0 }, jg := s3.jg.Run,
                          log := s3.log ++ [ResEvent.jgRun] }
      let s5 := { s4 with jg := s4.jg.workersDone env.results }
      let (s6, err) := Res.wait s5 env.ev env.rmErr
      let s7 := if env.hasPostDD then { s6 with log := s6.log ++ [ResEvent.postDD err] } else s6
      deferred { s7 with xres := s7.xres.Finish err, log := s7.log ++ [ResEvent.finish err] }

/-- Two mountpaths. -/
def mpA : Mountpath := { Path := "/mnt/a" }

/-- The second mountpath. -/
def mpB : Mountpath := { Path := "/mnt/b" }

/-- An object stored on the first mountpath. -/
def lomA : LOM :=
  { FQN := "/mnt/a/bck/obj", HrwFQN := "/mnt/a/bck/obj", ObjName := "obj", Bucket := "bck",
    mpath := mpA }

/-- A quiet environment: locks are free, the object is where it belongs and needs
no copy, every file operation succeeds. -/
def sysQuiet : Sys :=
  { TryLock := fun _ _ => true
    IsHRW := fun _ _ => true
    ECEnabled := fun _ _ => false
    ResolveFQN := fun _ _ => .ok mpB
    Stat := fun _ _ => none
    CopyFile := fun _ _ _ => none
    Remove := fun _ _ => none
    Load := fun _ _ => none
    SizeBytes := fun _ _ => 1024
    ToMpath := fun _ _ => (none, false)
    Copy := fun _ _ _ => none
    InitFQN := fun _ fqn bck =>
      ({ FQN := fqn, HrwFQN := fqn, ObjName := "obj", Bucket := bck, mpath := mpB }, none)
    HrwMpath := fun _ _ => .ok mpB
    MakePathFQN := fun mp bck ct obj =>
      mp.Path ++ "/" ++ bck ++ (match ct with
        | ContentType.ObjectType => "/%ob/"
        | ContentType.ECSliceType => "/%ec/"
        | ContentType.ECMetaType => "/%mt/") ++ obj
    MakeUname := fun bck obj => bck ++ "/" ++ obj }

/-- The object is in place but one replica short, and the disk is full: every
`lom.Copy` fails with an out-of-space error. -/
def sysReplicaOOS : Sys :=
  { sysQuiet with
    ToMpath := fun _ _ => (some mpB, false)
    Copy := fun _ _ _ => some (GoErr.oos "no space left on device") }

/-- The object must move to its HRW mountpath, and the copy there fails with an
out-of-space error; the bucket is not erasure coded. -/
def sysHrwOOS : Sys :=
  { sysQuiet with
    IsHRW := fun _ _ => false
    ToMpath := fun _ _ => (some mpB, true)
    Copy := fun _ _ _ => some (GoErr.oos "no space left on device") }

/-- As `sysHrwOOS`, in an erasure-coded bucket whose metafile was copied first. -/
def sysHrwOOSEC : Sys := { sysHrwOOS with ECEnabled := fun _ _ => true }

/-- The placement oracle keeps answering that the object must move to an HRW
mountpath, while every copy succeeds. -/
def sysFlux : Sys :=
  { sysQuiet with
    IsHRW := fun _ _ => false
    ToMpath := fun _ _ => (some mpB, true) }

/-- A resilver xaction context with zeroed counters. -/
def jctx0 : joggerCtx := { xres := Base.init "resilver[r1]" }

/-- The error `visitObj` returns under `sysFlux`. -/
def errFlux : GoErr := errKeepChanging "resilver[r1]" lomA mpB

/-- The state before the first resilver. -/
def resState0 : ResState :=
  { res := { begin_ := 0, end_ := 0 }, marker := false, jg := Jgroup.new,
    xres := Base.init "", log := [] }

/-- A run whose joggers finish, one of them with the error `e`, while marker
removal succeeds and no abort is requested. -/
def envFinished (e : Option GoErr) : RunEnv :=
  { UUID := "r1", nowBegin := 1000, nowEnd := 2000, persistFatalErr := none,
    persistWriteErr := none, availablePaths := 2, hasPostDD := false,
    results := [none, e], ev := WaitEvent.finished, rmErr := none }

/-- A run that receives the abort signal with cause `c`, one worker having
failed with `e`. -/
def envAborted (c e : Option GoErr) : RunEnv :=
  { UUID := "r1", nowBegin := 1000, nowEnd := 2000, persistFatalErr := none,
    persistWriteErr := none, availablePaths := 2, hasPostDD := true,
    results := [e], ev := WaitEvent.abort c, rmErr := none }

/-- A bucket jogger with a running xaction. -/
def bckJog0 : BckJog := { joggers := Jgroup.new, base := Base.init "make-n-copies[m1]" }

end res

namespace mirror

open xact res

/-- The struct `xactMNC`: the embedded `BckJog`, the tag and the target number of
copies (Go `int`). -/
structure xactMNC where
  BckJog : xact.BckJog
  tag : String
  copies : Int
  deriving DecidableEq, Repr

/-- Method `xactMNC.Name`: the base name, the tag and the number of copies. -/
def xactMNC.Name (r : xactMNC) : String :=
  r.BckJog.base.Name ++ " tag=" ++ r.tag ++ ", copies=" ++ toString r.copies

/-- Method `ObjsAdd` of the embedded base. -/
def xactMNC.ObjsAdd (r : xactMNC) (n size : Int) : xactMNC :=
  { r with BckJog := { r.BckJog with base := r.BckJog.base.ObjsAdd n size } }

/-- Modelled from the spec: method `Objs()` of the embedded base, the object
counter that `ObjsAdd` adds to. -/
def xactMNC.Objs (r : xactMNC) : Int := r.BckJog.base.objs

/-- The calls `xactMNC.visitObj` makes, in program order. -/
inductive MncAct where
  | delCopies (lom : LOM) (copies : Int)
  | addCopies (lom : LOM) (copies : Int)
  | objsAdd (n size : Int)
  | cap
  deriving DecidableEq, Repr

/-- The collaborators of `xactMNC.visitObj` outside the sources: `lom.NumCopies()`,
the package functions `delCopies` and `addCopies` (each returns a size and an
error), and `fs.Cap().Err`. -/
structure MncSys where
  NumCopies : LOM → Int
  delCopies : LOM → Int → Int × Option GoErr
  addCopies : LOM → Int → Int × Option GoErr
  CapErr : Option GoErr

/-- The tail of `xactMNC.visitObj` after the error checks: count the object, and
at every hundredth object consult the capacity state. -/
def xactMNC.visitObj.count (E : MncSys) (r : xactMNC) (size : Int) (tr : List MncAct) :
    Option GoErr × xactMNC × List MncAct :=
  let r1 := r.ObjsAdd 1 size
  let tr1 := tr ++ [MncAct.objsAdd 1 size]
  if r1.Objs.tmod 100 = 0 then
    match E.CapErr with
    | some e => (NewErrAborted r1.Name "visit-obj" (some e), r1, tr1 ++ [MncAct.cap])
    | none => (none, r1, tr1 ++ [MncAct.cap])
  else (none, r1, tr1)

/-- Method `xactMNC.visitObj(lom, buf)`: the returned error, the xaction with its
counters, and the calls made. -/
def xactMNC.visitObj (E : MncSys) (r : xactMNC) (lom : LOM) :
    Option GoErr × xactMNC × List MncAct :=
  let n := E.NumCopies lom
  if n = r.copies then (none, r, [])
  else
    let out := if n > r.copies then E.delCopies lom r.copies else E.addCopies lom r.copies
    let tr := [if n > r.copies then MncAct.delCopies lom r.copies
               else MncAct.addCopies lom r.copies]
    if GoErr.IsNotExist out.2 then (none, r, tr)
    else
      match out.2 with
      | some e =>
        if GoErr.IsErrOOS e then (NewErrAborted r.Name "visit-obj" (some e), r, tr)
        else xactMNC.visitObj.count E r out.1 tr
      | none => xactMNC.visitObj.count E r out.1 tr

/-- The calls to `delCopies` and `addCopies` among the calls made. -/
def copyOps : List MncAct → List MncAct
  | [] => []
  | MncAct.delCopies l c :: rest => MncAct.delCopies l c :: copyOps rest
  | MncAct.addCopies l c :: rest => MncAct.addCopies l c :: copyOps rest
  | _ :: rest => copyOps rest

/-- Whether `visitObj` reaches `ObjsAdd`: the copy count differs from the target
and the operation did not fail with not-exist or out-of-space. -/
def processed (E : MncSys) (r : xactMNC) (lom : LOM) : Bool :=
  let n := E.NumCopies lom
  let out := if n > r.copies then E.delCopies lom r.copies else E.addCopies lom r.copies
  n ≠ r.copies && !GoErr.IsNotExist out.2 &&
    (match out.2 with
     | some e => !GoErr.IsErrOOS e
     | none => true)

/-- The size returned by the operation `visitObj` performs. -/
def opSize (E : MncSys) (r : xactMNC) (lom : LOM) : Int :=
  (if E.NumCopies lom > r.copies then E.delCopies lom r.copies
   else E.addCopies lom r.copies).1

/-- The error returned by the operation `visitObj` performs. -/
def opErr (E : MncSys) (r : xactMNC) (lom : LOM) : Option GoErr :=
  (if E.NumCopies lom > r.copies then E.delCopies lom r.copies
   else E.addCopies lom r.copies).2

/-- A replica-count job asking for 2 copies, with `objs` objects counted so far. -/
def mnc2 (objs : Int) : xactMNC :=
  { BckJog := { joggers := Jgroup.new,
                base := { name := "make-n-copies[m1]", state := XState.running, objs := objs,
                          bytes := 0, finishArgs := [] } },
    tag := "t", copies := 2 }

/-- An environment where the object has `n` copies, adding or deleting returns
size 10 with the error `e`, and the capacity state reports `c`. -/
def mncSys (n : Int) (e c : Option GoErr) : MncSys :=
  { NumCopies := fun _ => n
    delCopies := fun _ _ => (10, e)
    addCopies := fun _ _ => (10, e)
    CapErr := c }

end mirror

namespace res

open xact

/-! Trace shapes: what one call of `visitObj` can append to the history. -/

/-- The events `visitObj` appends since the history `tr`. -/
def newActs (tr tr2 : List Act) : List Act := tr2.drop tr.length

/-- Number of jumps back to label `redo` (each is preceded by its pause). -/
def redoJumps (ev : List Act) : Nat := ev.count (Act.sleep Pause.halfCplaneOperation)

/-- The path of the EC metafile of an object on a mountpath. -/
def metaFQN (S : Sys) (lom : LOM) (mp : Mountpath) : String :=
  S.MakePathFQN mp lom.Bucket ContentType.ECMetaType lom.ObjName

/-- Events of label `ret`: the old metafile is removed when there is one. -/
inductive RetTail (mo : String) : List Act → Prop where
  | nothing : mo = "" → RetTail mo []
  | removed (e : Option GoErr) : mo ≠ "" → RetTail mo [Act.remove mo e]

/-- Events of a failing `fixHrw(lom, mi)` and its error. -/
inductive FixFail (lom : LOM) (mi : Mountpath) : List Act → GoErr → Prop where
  | copy (e : GoErr) : FixFail lom mi [Act.copy lom mi (some e)] e
  | init (f : String) (e : GoErr) :
      FixFail lom mi [Act.copy lom mi none, Act.initFQN f (some e)] e
  | load (f : String) (h : LOM) (e : GoErr) :
      FixFail lom mi [Act.copy lom mi none, Act.initFQN f none, Act.load h (some e)] e

/-- Events of the rollback after a failing `fixHrw`, and the error returned: without
a copied metafile the error of `fixHrw`, else whatever removing the copy returned. -/
inductive Rollback (mn : String) (e : GoErr) : List Act → Option GoErr → Prop where
  | plain : mn = "" → Rollback mn e [] (some e)
  | removed (rerr : Option GoErr) : mn ≠ "" → Rollback mn e [Act.remove mn rerr] rerr

/-- One pass through label `redo` for the outer pair `(mi, isHrw)`: its events, and
the error it returns from `visitObj` with (`none` when it falls through to the
copy loop). -/
inductive RedoRun (lom : LOM) (mi : Mountpath) (mn : String) :
    Bool → List Act → Option (Option GoErr) → Prop where
  | skip : RedoRun lom mi mn false [] none
  | fixed (f : String) (h : LOM) :
      RedoRun lom mi mn true
        [Act.uncache lom, Act.copy lom mi none, Act.initFQN f none, Act.load h none] none
  | failed (fx : List Act) (e : GoErr) (rb : List Act) (r : Option GoErr) :
      FixFail lom mi fx e → Rollback mn e rb r →
      RedoRun lom mi mn true (Act.uncache lom :: fx ++ rb) (some r)

/-- The copy loop from a state with `retries` jumps behind it: its events and the
error `visitObj` returns. -/
inductive LoopRun (xname : String) (orig : LOM) (mi0 : Mountpath) (isHrw0 : Bool)
    (mo mn : String) : Nat → List Act → Option GoErr → Prop where
  | done (retries : Nat) (l : LOM) (b : Bool) (tail : List Act) :
      RetTail mo tail →
      LoopRun xname orig mi0 isHrw0 mo mn retries (Act.toMpath l none b :: tail) none
  | exceeded (retries : Nat) (l : LOM) (mi : Mountpath) :
      maxRetries ≤ retries →
      LoopRun xname orig mi0 isHrw0 mo mn retries [Act.toMpath l (some mi) true]
        (some (errKeepChanging xname orig mi))
  | redoFailed (retries : Nat) (l : LOM) (mi : Mountpath) (ev : List Act) (r : Option GoErr) :
      retries < maxRetries → RedoRun orig mi0 mn isHrw0 ev (some r) →
      LoopRun xname orig mi0 isHrw0 mo mn retries
        (Act.toMpath l (some mi) true :: Act.sleep Pause.halfCplaneOperation :: ev) r
  | redone (retries : Nat) (l : LOM) (mi : Mountpath) (ev suf : List Act) (r : Option GoErr) :
      retries < maxRetries → RedoRun orig mi0 mn isHrw0 ev none →
      LoopRun xname orig mi0 isHrw0 mo mn (retries + 1) suf r →
      LoopRun xname orig mi0 isHrw0 mo mn retries
        (Act.toMpath l (some mi) true :: Act.sleep Pause.halfCplaneOperation :: (ev ++ suf)) r
  | copied (retries : Nat) (l : LOM) (mi : Mountpath) (suf : List Act) (r : Option GoErr) :
      LoopRun xname orig mi0 isHrw0 mo mn retries suf r →
      LoopRun xname orig mi0 isHrw0 mo mn retries
        (Act.toMpath l (some mi) false :: Act.copy l mi none :: suf) r
  | copyFailed (retries : Nat) (l : LOM) (mi : Mountpath) (e : GoErr) (tail : List Act) :
      RetTail mo tail →
      LoopRun xname orig mi0 isHrw0 mo mn retries
        (Act.toMpath l (some mi) false :: Act.copy l mi (some e) :: tail) none

/-- Step 1 (fix EC metafile) from the history `tr`: its events, and the pair
`(metaOldPath, metaNewPath)` it leaves, `none` when it returns nil from `visitObj`. -/
inductive ECRun (S : Sys) (lom : LOM) (tr : List Act) :
    List Act → Option (String × String) → Prop where
  | skip : (!S.IsHRW tr lom && S.ECEnabled tr lom) = false → ECRun S lom tr [] (some ("", ""))
  | resolveFailed (e : GoErr) : (!S.IsHRW tr lom && S.ECEnabled tr lom) = true →
      ECRun S lom tr [Act.resolveFQN lom.HrwFQN (some e)] none
  | noMeta (serr : Option GoErr) : (!S.IsHRW tr lom && S.ECEnabled tr lom) = true →
      GoErr.IsNotExist serr = true →
      ECRun S lom tr [Act.resolveFQN lom.HrwFQN none, Act.stat (metaFQN S lom lom.mpath) serr]
        (some ("", ""))
  | vanished (serr : Option GoErr) (mp : Mountpath) (e : GoErr) :
      (!S.IsHRW tr lom && S.ECEnabled tr lom) = true →
      GoErr.IsNotExist (some e) = true →
      ECRun S lom tr
        [Act.resolveFQN lom.HrwFQN none, Act.stat (metaFQN S lom lom.mpath) serr,
         Act.copyFile (metaFQN S lom lom.mpath) (metaFQN S lom mp) (some e)]
        (some ("", ""))
  | copyFailed (serr : Option GoErr) (mp : Mountpath) (e : GoErr) :
      (!S.IsHRW tr lom && S.ECEnabled tr lom) = true →
      GoErr.IsNotExist (some e) = false →
      ECRun S lom tr
        [Act.resolveFQN lom.HrwFQN none, Act.stat (metaFQN S lom lom.mpath) serr,
         Act.copyFile (metaFQN S lom lom.mpath) (metaFQN S lom mp) (some e)]
        none
  | copied (serr : Option GoErr) (mp : Mountpath) :
      (!S.IsHRW tr lom && S.ECEnabled tr lom) = true →
      ECRun S lom tr
        [Act.resolveFQN lom.HrwFQN none, Act.stat (metaFQN S lom lom.mpath) serr,
         Act.copyFile (metaFQN S lom lom.mpath) (metaFQN S lom mp) none]
        (some (metaFQN S lom lom.mpath, metaFQN S lom mp))

/-- The body of `visitObj` from the history `tr`: its events and the error returned. -/
inductive BodyRun (S : Sys) (xname : String) (orig : LOM) (tr : List Act) :
    List Act → Option GoErr → Prop where
  | ecFailed (ev : List Act) : ECRun S orig tr ev none → BodyRun S xname orig tr ev none
  | loadFailed (ev : List Act) (mo mn : String) (e : GoErr) :
      ECRun S orig tr ev (some (mo, mn)) →
      BodyRun S xname orig tr (ev ++ [Act.load orig (some e)]) none
  | inPlace (ev : List Act) (mo mn : String) (b : Bool) (tail : List Act) :
      ECRun S orig tr ev (some (mo, mn)) → RetTail mo tail →
      BodyRun S xname orig tr (ev ++ Act.load orig none :: Act.toMpath orig none b :: tail) none
  | redoFailed (ev : List Act) (mo mn : String) (mi : Mountpath) (b : Bool) (rd : List Act)
      (r : Option GoErr) :
      ECRun S orig tr ev (some (mo, mn)) → RedoRun orig mi mn b rd (some r) →
      BodyRun S xname orig tr
        (ev ++ Act.load orig none :: Act.toMpath orig (some mi) b :: rd) r
  | looped (ev : List Act) (mo mn : String) (mi : Mountpath) (b : Bool) (rd suf : List Act)
      (r : Option GoErr) :
      ECRun S orig tr ev (some (mo, mn)) → RedoRun orig mi mn b rd none →
      LoopRun xname orig mi b mo mn 0 suf r →
      BodyRun S xname orig tr
        (ev ++ Act.load orig none :: Act.toMpath orig (some mi) b :: (rd ++ suf)) r

/-- The lock attempts with which `visitObj` gets the lock. -/
inductive LockRun (lom : LOM) : List Act → Prop where
  | first : LockRun lom [Act.tryLock lom true]
  | second :
      LockRun lom [Act.tryLock lom false, Act.sleep Pause.halfSecond, Act.tryLock lom true]

/-- The events after the body: the deferred unlock, and the count of the object
when it was copied and no error is returned. -/
inductive Deferred (lom : LOM) (err : Option GoErr) : List Act → Prop where
  | unlock : Deferred lom err [Act.unlock lom]
  | counted (size : Int) : err = none → Deferred lom err [Act.unlock lom, Act.objsAdd 1 size]

/-- One call of `visitObj` from the history `tr`: its events and the error returned. -/
inductive VisitRun (S : Sys) (xname : String) (lom : LOM) (tr : List Act) :
    List Act → Option GoErr → Prop where
  | busy :
      VisitRun S xname lom tr
        [Act.tryLock lom false, Act.sleep Pause.halfSecond, Act.tryLock lom false] none
  | locked (locks body dfr : List Act) (err : Option GoErr) :
      LockRun lom locks → BodyRun S xname lom (tr ++ locks) body err → Deferred lom err dfr →
      VisitRun S xname lom tr (locks ++ body ++ dfr) err

end res

namespace res

open xact

/-- The lock attempts among the events: object and outcome, in order. -/
def lockAttempts (ev : List Act) : List (LOM × Bool) :=
  ev.filterMap (fun a => match a with
    | Act.tryLock l ok => some (l, ok)
    | _ => none)

/-- The objects unlocked among the events, in order. -/
def unlocks (ev : List Act) : List LOM :=
  ev.filterMap (fun a => match a with
    | Act.unlock l => some l
    | _ => none)

/-- Events by which the body of `visitObj` can be recognised: everything but lock
attempts, the pause after a busy lock, unlocks and counter updates. -/
def bodyAct : Act → Bool
  | Act.tryLock _ _ => false
  | Act.sleep Pause.halfSecond => false
  | Act.unlock _ => false
  | Act.objsAdd _ _ => false
  | Act.hrwMpath _ _ => false
  | _ => true

/-- Events that relocate something: a data copy, a metafile copy, a file removal,
a counter update. -/
def isRelocation : Act → Bool
  | Act.copy _ _ _ => true
  | Act.copyFile _ _ _ => true
  | Act.remove _ _ => true
  | Act.objsAdd _ _ => true
  | _ => false

/-- Events of step 1 (fix EC metafile). -/
def isMetaAct : Act → Bool
  | Act.resolveFQN _ _ => true
  | Act.stat _ _ => true
  | Act.copyFile _ _ _ => true
  | _ => false

/-- Copies of object data (`lom.Copy`, directly or inside `fixHrw`). -/
def isDataCopy : Act → Bool
  | Act.copy _ _ _ => true
  | _ => false

/-- Events of the deferred cleanup. -/
def isDeferred : Act → Bool
  | Act.unlock _ => true
  | Act.objsAdd _ _ => true
  | _ => false

/-- The lock is busy at both attempts. -/
def sysBusy : Sys := { sysQuiet with TryLock := fun _ _ => false }

/-- The lock is busy at the first attempt only; the object needs one replica. -/
def sysBusyOnce : Sys :=
  { sysQuiet with
    TryLock := fun h _ => !h.isEmpty
    ToMpath := fun h _ => if h.length < 5 then (some mpB, false) else (none, false) }

/-- The object must move to its HRW mountpath and has vanished: the copy inside
`fixHrw` fails because the file does not exist; the bucket is not erasure coded. -/
def sysHrwNotExist : Sys :=
  { sysQuiet with
    IsHRW := fun _ _ => false
    ToMpath := fun _ _ => (some mpB, true)
    Copy := fun _ _ _ => some (GoErr.notExist "no such file or directory") }

/-- The object is in place but one replica short and has vanished: the replica copy
fails because the file does not exist. -/
def sysReplicaNotExist : Sys :=
  { sysQuiet with
    ToMpath := fun _ _ => (some mpB, false)
    Copy := fun _ _ _ => some (GoErr.notExist "no such file or directory") }

/-- An erasure-coded bucket, the object not at its HRW mountpath: the metafile is
there when looked up, but copying it fails because it does not exist any more;
the data copies succeed. -/
def sysMetaVanished : Sys :=
  { sysQuiet with
    IsHRW := fun _ _ => false
    ECEnabled := fun _ _ => true
    CopyFile := fun _ _ _ => some (GoErr.notExist "no such file or directory")
    ToMpath := fun h _ => if h.length < 6 then (some mpB, true) else (none, false) }

/-- An erasure-coded bucket, the object not at its HRW mountpath; everything
succeeds: the metafile is copied, the object is copied to its HRW mountpath. -/
def sysECMove : Sys :=
  { sysQuiet with
    IsHRW := fun _ _ => false
    ECEnabled := fun _ _ => true
    ToMpath := fun h _ => if h.length < 6 then (some mpB, true) else (none, false) }

/-- The environment settles after `N` events: from then on no further replica copy
succeeds in the copy loop (the placement oracle asks for none, or the copy fails).
The copy loop of `visitObj` goes on only as long as replica copies succeed. -/
def settlesAfter (S : Sys) (N : Nat) : Prop :=
  ∀ hist l mi, N ≤ hist.length → S.ToMpath hist l = (some mi, false) →
    S.Copy (hist ++ [Act.toMpath l (some mi) false]) l mi ≠ none

/-- A run that ends at the jogger group's finished event, marker removal
returning `rmErr`. -/
def envDone (rmErr : Option GoErr) : RunEnv :=
  { UUID := "r1", nowBegin := 1000, nowEnd := 2000, persistFatalErr := none,
    persistWriteErr := none, availablePaths := 2, hasPostDD := false,
    results := [none, none], ev := WaitEvent.finished, rmErr := rmErr }

end res

namespace xreg

/-- Modelled from the spec: the type `xreg.WPR` and its constants are outside the
sources. A factory answers the registry with one of the three renew policies
(abort the running action, use it, keep it and start a new one); the constants are
numbered from one, so the zero value of the type, which a named result holds when
nothing was assigned to it, is none of them. -/
inductive WPR where
  | zero
  | WprAbort
  | WprUse
  | WprKeepAndStartNew
  deriving DecidableEq, Repr

/-- Modelled from the spec: the interface `xreg.Renewable` is outside the sources;
these are the parts of an entry that `WhenPrevIsRunning` reads: what `%s` prints for
the xaction that `Get()` returns, `Kind()`, and `Str` of the embedded `RenewBase`. -/
structure Renewable where
  Get : String
  Kind : String
  Str : String → String

/-- The message of an error (what `Error()` returns), for the errors built with
`fmt.Errorf` or `errors.New`. -/
def errMsg : Option GoErr → String
  | some (GoErr.other m) => m
  | _ => ""

/-- Whether a policy value lets the registry go on (reuse the running action or
start a new one) rather than fail the renewal. -/
def WPR.isPolicy : WPR → Bool
  | WPR.zero => false
  | _ => true

end xreg

namespace mirror

open xreg

/-- Method `mncFactory.WhenPrevIsRunning(prevEntry)`: the named result `wpr` is
never assigned, the error is built by `fmt.Errorf`; `quote` is what the verb `%q`
prints. -/
def mncFactory.WhenPrevIsRunning (quote : String → String) (p prevEntry : Renewable) :
    WPR × Option GoErr :=
  (WPR.zero,
    some (GoErr.other
      (prevEntry.Get ++ " is currently running, cannot start a new " ++ quote (p.Str p.Kind))))

end mirror

namespace xs

open xreg

/-- Method `eleFactory.WhenPrevIsRunning`. -/
def eleFactory.WhenPrevIsRunning (_prevEntry : Renewable) : WPR × Option GoErr :=
  (WPR.WprUse, none)

/-- Method `llcFactory.WhenPrevIsRunning`. -/
def llcFactory.WhenPrevIsRunning (_prevEntry : Renewable) : WPR × Option GoErr :=
  (WPR.WprUse, none)

/-- A running replica-count job as a registry entry. -/
def entryMNC : Renewable :=
  { Get := "make-n-copies[m1]", Kind := "make-n-copies", Str := fun k => k ++ "[m2]" }

/-- A running election as a registry entry. -/
def entryEle : Renewable :=
  { Get := "election[e1]", Kind := "election", Str := fun k => k ++ "[e2]" }

end xs

namespace res

open xact

/-- The error value `filepath.SkipDir`. -/
def SkipDir : GoErr := GoErr.other "skip this directory"

/-- Function `_mvSlice(ct, buf)`: returns the extended history. -/
def _mvSlice (S : Sys) (tr : List Act) (ct : CT) : List Act :=
  let uname := S.MakeUname ct.Bucket ct.ObjectName
  match S.HrwMpath tr uname with
  | .error e => tr ++ [Act.hrwMpath uname (some e)]
  | .ok destMpath =>
    let tr1 := tr ++ [Act.hrwMpath uname none]
    if destMpath.Path = ct.mpath.Path then tr1
    else
      let destFQN := S.MakePathFQN destMpath ct.Bucket ContentType.ECSliceType ct.ObjectName
      let mv := _moveECMeta S tr1 ct ct.mpath destMpath
      match mv.1.2.2 with
      | some _ => mv.2
      | none =>
        if mv.1.1 = "" then mv.2
        else
          let cerr := S.CopyFile mv.2 ct.FQN destFQN
          let tr2 := mv.2 ++ [Act.copyFile ct.FQN destFQN cerr]
          let tr3 := match cerr with
            | some _ => tr2 ++ [Act.remove mv.1.2.1 (S.Remove tr2 mv.1.2.1)]
            | none => tr2
          let errMeta := S.Remove tr3 mv.1.1
          let tr4 := tr3 ++ [Act.remove mv.1.1 errMeta]
          tr4 ++ [Act.remove ct.FQN (S.Remove tr4 ct.FQN)]

/-- Method `joggerCtx.visitCT(ct, buf)`: the returned error and the extended
history. -/
def visitCT (S : Sys) (tr : List Act) (ct : CT) : Option GoErr × List Act :=
  if !ct.ecEnabled then (some SkipDir, tr)
  else (none, _mvSlice S tr ct)

/-- The constant `timedDuration`, 4 seconds in nanoseconds. -/
def timedDuration : Int := 4 * 1000000000

/-- Method `Res.IsActive(multiplier)`; `now` is what `mono.NanoTime()` returns. The
differences and the product are `int64` operations. -/
def Res.IsActive (r : Res) (now multiplier : Int) : Bool :=
  if r.begin_ = 0 then false
  else if wrapInt64 (now - r.begin_) < wrapInt64 (multiplier * timedDuration) then true
  else decide (r.end_ = 0) || decide (wrapInt64 (now - r.end_) < timedDuration)

/-- The name under which `_mvSlice` asks for the HRW mountpath of a slice. -/
def sliceUname (S : Sys) (ct : CT) : String := S.MakeUname ct.Bucket ct.ObjectName

/-- The path of the metafile of a slice on a mountpath. -/
def sliceMetaFQN (S : Sys) (ct : CT) (mp : Mountpath) : String :=
  S.MakePathFQN mp ct.Bucket ContentType.ECMetaType ct.ObjectName

/-- The path of a slice on a mountpath. -/
def sliceFQN (S : Sys) (ct : CT) (mp : Mountpath) : String :=
  S.MakePathFQN mp ct.Bucket ContentType.ECSliceType ct.ObjectName

/-- The history at the point where `_mvSlice` has found another HRW mountpath and
has looked up the metafile of the slice (`cos.Stat` in `_moveECMeta`). -/
def metaLooked (S : Sys) (tr : List Act) (ct : CT) : List Act :=
  tr ++ [Act.hrwMpath (sliceUname S ct) none,
    Act.stat (sliceMetaFQN S ct ct.mpath)
      (S.Stat (tr ++ [Act.hrwMpath (sliceUname S ct) none]) (sliceMetaFQN S ct ct.mpath))]

/-- The history at the point where `_mvSlice` has found another HRW mountpath
`dest`, has looked up the metafile of the slice and has copied it to `dest`. -/
def metaCopied (S : Sys) (tr : List Act) (ct : CT) (dest : Mountpath) : List Act :=
  tr ++ [Act.hrwMpath (sliceUname S ct) none,
    Act.stat (sliceMetaFQN S ct ct.mpath)
      (S.Stat (tr ++ [Act.hrwMpath (sliceUname S ct) none]) (sliceMetaFQN S ct ct.mpath)),
    Act.copyFile (sliceMetaFQN S ct ct.mpath) (sliceMetaFQN S ct dest) none]

/-- A run that finds no mountpath after the marker was written. -/
def envNoMountpaths : RunEnv :=
  { UUID := "r1", nowBegin := 1000, nowEnd := 2000, persistFatalErr := none,
    persistWriteErr := none, availablePaths := 0, hasPostDD := false,
    results := [], ev := WaitEvent.finished, rmErr := none }

/-- An EC slice stored on the first mountpath, in a bucket with EC enabled. -/
def ctSlice : CT :=
  { FQN := "/mnt/a/bck/%ec/obj", ObjectName := "obj", Bucket := "bck", mpath := mpA,
    ecEnabled := true }

/-- The slice belongs on the second mountpath, its metafile is copied there, and
copying the slice itself fails. -/
def sysSliceCopyFails : Sys :=
  { sysQuiet with
    CopyFile := fun _ src _ =>
      if src = "/mnt/a/bck/%ec/obj" then some (GoErr.other "input/output error") else none }

/-- The slice belongs on the mountpath where it is. -/
def sysSliceInPlace : Sys := { sysQuiet with HrwMpath := fun _ _ => .ok mpA }

/-- The slice belongs on the second mountpath and has no metafile. -/
def sysSliceNoMeta : Sys :=
  { sysQuiet with Stat := fun _ _ => some (GoErr.notExist "no such file or directory") }

end res

/-- A Go run-time panic; the sources here can raise one by indexing a string or a
slice out of range. -/
inductive GoPanic where
  | indexOutOfRange (index length : Nat)
  deriving DecidableEq, Repr

namespace cos

/-! `cmn/cos/archive.go`. The bytes of a Go string are modelled by the characters of
a string; the extensions are ASCII, for which suffixes and substrings by byte and by
character agree. -/

/-- The constant `ExtTar`. -/
def ExtTar : String := ".tar"

/-- The constant `ExtTgz`. -/
def ExtTgz : String := ".tgz"

/-- The constant `ExtTarTgz`. -/
def ExtTarTgz : String := ".tar.gz"

/-- The constant `ExtZip`. -/
def ExtZip : String := ".zip"

/-- The constant `ExtMsgpack`. -/
def ExtMsgpack : String := ".msgpack"

/-- The variable `ArchExtensions`. -/
def ArchExtensions : List String := [ExtTar, ExtTgz, ExtTarTgz, ExtZip, ExtMsgpack]

/-- The error type `ErrUnknownMime`. -/
structure ErrUnknownMime where
  detail : String
  deriving DecidableEq, Repr

/-- Function `NewUnknownMimeError`. -/
def NewUnknownMimeError (d : String) : ErrUnknownMime := { detail := d }

/-- Go `strings.HasSuffix`. -/
def HasSuffix (s suffix : String) : Bool := suffix.data.isSuffixOf s.data

/-- Go `strings.Contains`. -/
def Contains (s substr : String) : Bool := decide (substr.data <:+: s.data)

/-- The slice expression `ext[1:]` on a non-empty string. -/
def from1 (ext : String) : String := ⟨ext.data.drop 1⟩

/-- Function `byMime(mime)`. -/
def byMime (mime : String) : String × Option ErrUnknownMime :=
  if Contains mime (from1 ExtTarTgz) then (ExtTarTgz, none)
  else
    match ArchExtensions.find? (fun ext => Contains mime (from1 ext)) with
    | some ext => (ext, none)
    | none => ("", some (NewUnknownMimeError mime))

/-- Function `Mime(mime, filename)`. -/
def Mime (mime filename : String) : String × Option ErrUnknownMime :=
  if mime ≠ "" then byMime mime
  else
    match ArchExtensions.find? (fun ext => HasSuffix filename ext) with
    | some ext => (ext, none)
    | none => ("", some (NewUnknownMimeError filename))

end cos

namespace archive

/-! `cmn/archive/read.go` -/

/-- The constant `filepath.Separator` (the repository builds for Unix). -/
def Separator : Char := '/'

/-- Function `namesEq(n1, n2)`: `n1[0]` and `n2[0]` are evaluated in this order,
each panics on an empty string. -/
def namesEq (n1 n2 : String) : Except GoPanic Bool :=
  match n1.data with
  | [] => .error (GoPanic.indexOutOfRange 0 0)
  | c1 :: r1 =>
    let m1 := if c1 = Separator then r1 else c1 :: r1
    match n2.data with
    | [] => .error (GoPanic.indexOutOfRange 0 0)
    | c2 :: r2 =>
      let m2 := if c2 = Separator then r2 else c2 :: r2
      .ok (decide (m1 = m2))

/-- What a limited-reader lookup ends with: the entry was found (its size), the
archive holds no such entry, or reading the archive failed. -/
inductive LR where
  | found (size : Int)
  | notFound
  | failed (err : GoErr)
  deriving DecidableEq, Repr

/-- A tar header, as far as `tarLR` reads it. -/
structure Header where
  Name : String
  Size : Int
  deriving DecidableEq, Repr

/-- Function `tarLR(fh, filename, archname)`; `next` is what the successive calls of
`tr.Next()` return before `io.EOF`. -/
def tarLR (filename : String) : List (Except GoErr Header) → Except GoPanic LR
  | [] => .ok LR.notFound
  | .error e :: _ => .ok (LR.failed e)
  | .ok hdr :: rest =>
    if hdr.Name = filename then .ok (LR.found hdr.Size)
    else
      match namesEq hdr.Name filename with
      | .error p => .error p
      | .ok true => .ok (LR.found hdr.Size)
      | .ok false => tarLR filename rest

/-- An entry of `zr.File`, as far as `zipLR` reads it. -/
structure ZipFile where
  Name : String
  IsDir : Bool
  Size : Int
  deriving DecidableEq, Repr

/-- The loop of `zipLR` over `zr.File`. -/
def zipLR.loop (filename : String) : List ZipFile → Except GoPanic LR
  | [] => .ok LR.notFound
  | f :: rest =>
    if f.IsDir then zipLR.loop filename rest
    else if f.Name = filename then .ok (LR.found f.Size)
    else
      match namesEq f.Name filename with
      | .error p => .error p
      | .ok true => .ok (LR.found f.Size)
      | .ok false => zipLR.loop filename rest

/-- Function `zipLR(fh, filename, archname, size)`; `zr` is what `zip.NewReader`
returns. -/
def zipLR (filename : String) (zr : Except GoErr (List ZipFile)) : Except GoPanic LR :=
  match zr with
  | .error e => .ok (LR.failed e)
  | .ok files => zipLR.loop filename files

end archive

namespace authn

/-! `api/authn/config.go` -/

/-- The struct `ServerConf`; `ExpirePeriod` in nanoseconds. -/
structure ServerConf where
  Secret : String
  ExpirePeriod : Int
  deriving DecidableEq, Repr

/-- The struct `ServerConfToUpdate`; a nil pointer is `none`. -/
structure ServerConfToUpdate where
  Secret : Option String
  ExpirePeriod : Option String
  deriving DecidableEq, Repr

/-- The struct `ConfigToUpdate`. -/
structure ConfigToUpdate where
  Server : Option ServerConfToUpdate
  deriving DecidableEq, Repr

/-- The struct `Config`, as far as `ApplyUpdate` reads or writes it (it touches
neither `Log`, `Net` nor `Timeout`). -/
structure Config where
  Server : ServerConf
  deriving DecidableEq, Repr

/-- Method `Config.ApplyUpdate(cu)`: the configuration after the call and the
returned error; `ParseDuration` is `time.ParseDuration`, its error given by its
text. -/
def Config.ApplyUpdate (ParseDuration : String → Except String Int) (c : Config)
    (cu : ConfigToUpdate) : Config × Option GoErr :=
  match cu.Server with
  | none => (c, some (GoErr.other "configuration is empty"))
  | some srv =>
    let r1 : Config × Option GoErr :=
      match srv.Secret with
      | none => (c, none)
      | some v =>
        if v = "" then (c, some (GoErr.other "secret not defined"))
        else ({ c with Server := { c.Server with Secret := v } }, none)
    match r1.2 with
    | some e => (r1.1, some e)
    | none =>
      match srv.ExpirePeriod with
      | none => (r1.1, none)
      | some d =>
        match ParseDuration d with
        | .error msg =>
          (r1.1, some (GoErr.other ("invalid time format " ++ d ++ ", err: " ++ msg)))
        | .ok dur => ({ r1.1 with Server := { r1.1.Server with ExpirePeriod := dur } }, none)

/-- A duration parser that knows "24h" and "1h". -/
def parseSample (s : String) : Except String Int :=
  if s = "24h" then .ok 86400000000000
  else if s = "1h" then .ok 3600000000000
  else .error ("time: invalid duration " ++ s)

/-- A configuration with a secret and a 24 hour expiration. -/
def config0 : Config := { Server := { Secret := "old-secret", ExpirePeriod := 86400000000000 } }

end authn

namespace cli

/-! `cmd/cli/cli/show_hdlr.go`, the verbose loop of `xactList`. -/

/-- Modelled from the spec: `cluster.Snap` is outside the sources; these are the
fields and the method `Running()` that `xactList` reads. -/
structure Snap where
  Kind : String
  Running : Bool
  StartTime : Int
  EndTime : Int
  deriving DecidableEq, Repr

/-- The struct `daemonTemplateXactSnaps`. -/
structure daemonTemplateXactSnaps where
  DaemonID : String
  XactSnaps : List Snap
  deriving DecidableEq, Repr

/-- Go `<` on strings: lexicographic by byte. -/
def strLess (a b : String) : Bool := decide (a.data < b.data)

/-- The comparison function `xactList` passes to `sort.Slice` for the snapshots of
one node. -/
def snapLess (di dj : Snap) : Bool :=
  if di.Kind = dj.Kind then
    if di.Running && dj.Running then decide (di.StartTime > dj.StartTime)
    else if di.Running && !dj.Running then true
    else if !di.Running && dj.Running then false
    else decide (di.EndTime > dj.EndTime)
  else strLess di.Kind dj.Kind

/-- The slice `dts` that `xactList` builds from the query result `xs` (node ID to
snapshots): the snapshots of each node sorted, the nodes sorted by ID. -/
def mkDts (xs : List (String × List Snap)) : List daemonTemplateXactSnaps :=
  (xs.map (fun e => daemonTemplateXactSnaps.mk e.1
    (e.2.insertionSort (fun a b => snapLess a b = true)))).insertionSort
      (fun a b => strLess a.DaemonID b.DaemonID = true)

/-- The verbose loop of `xactList` over `dts`; `first` is `dts[0].XactSnaps`. It
returns the error of a failed print (if any) and what was printed, node by node,
or panics. -/
def verboseLoop.go (Print : Snap → Option GoErr) (first : List Snap) :
    List daemonTemplateXactSnaps → List (String × Snap) →
      Except GoPanic (Option GoErr × List (String × Snap))
  | [], acc => .ok (none, acc)
  | di :: rest, acc =>
    if first.length = 0 then verboseLoop.go Print first rest acc
    else
      match di.XactSnaps with
      | [] => .error (GoPanic.indexOutOfRange 0 0)
      | snap :: _ =>
        match Print snap with
        | some e => .ok (some e, acc)
        | none => verboseLoop.go Print first rest (acc ++ [(di.DaemonID, snap)])

/-- The verbose branch of `xactList`. -/
def verboseLoop (Print : Snap → Option GoErr) (dts : List daemonTemplateXactSnaps) :
    Except GoPanic (Option GoErr × List (String × Snap)) :=
  match dts with
  | [] => .ok (none, [])
  | d0 :: _ => verboseLoop.go Print d0.XactSnaps dts []

/-- A snapshot of a running rebalance. -/
def snapReb : Snap := { Kind := "rebalance", Running := true, StartTime := 100, EndTime := 0 }

end cli

namespace ais

/-! ## Heap lemmas -/

theorem deref_append_lt (r : rmdOwner) (l : List rebMD) (p : Ptr) (h : p < r.heap.length) :
    rmdOwner.deref { r with heap := r.heap ++ l } p = r.deref p := by
  simp [rmdOwner.deref, List.getD_eq_getElem?_getD, List.getElem?_append_left h]

theorem getD_snoc_default (l : List rebMD) (d : rebMD) (src : Nat) :
    (l ++ [d]).getD src d = l.getD src d := by
  rcases Nat.lt_or_ge src l.length with h | h
  · simp [List.getD_eq_getElem?_getD, List.getElem?_append_left h]
  · have h1 : l[src]? = none := List.getElem?_eq_none h
    rcases Nat.eq_or_lt_of_le h with h2 | h2
    · subst h2
      simp [List.getD_eq_getElem?_getD]
    · have h3 : (l ++ [d])[src]? = none := List.getElem?_eq_none (by simp; omega)
      simp [List.getD_eq_getElem?_getD, h1, h3]

theorem set_snoc (l : List rebMD) (d v : rebMD) : (l ++ [d]).set l.length v = l ++ [v] := by
  simp [List.set_append]

theorem clone_eq (r : rmdOwner) (src : Ptr) :
    rebMD.clone r src = ({ r with heap := r.heap ++ [r.deref src] }, r.heap.length) := by
  simp only [rebMD.clone, rmdOwner.alloc, rmdOwner.update, rmdOwner.deref, getD_snoc_default,
    set_snoc]

theorem getD_snoc_length (l : List rebMD) (v d : rebMD) : (l ++ [v]).getD l.length d = v := by
  simp [List.getD_eq_getElem?_getD]

/-- Outcome of `do` in closed form. -/
theorem do_eq (f : Int → String) (r : rmdOwner) (m : rmdModifier) (perr : Option GoErr) :
    rmdOwner.do f r m perr =
      ({ r with
          heap := r.heap ++ [(preOut r m).2]
          rmd := if perr.isNone then r.heap.length else r.rmd
          log := r.log ++ [Event.pre r.heap.length, Event.persist r.heap.length perr.isNone]
                  ++ (if perr.isNone then [Event.put r.heap.length] else []) },
       { m with ctx := { (preOut r m).1 with
                          cur := some r.heap.length, rebID := f (preOut r m).2.Version } },
       r.heap.length, perr) := by
  cases perr <;>
    simp [rmdOwner.do, clone_eq, rmdOwner.update, rmdOwner.deref, rmdOwner.emit, rmdOwner.persist,
      rmdOwner.put, rmdOwner.get, getD_snoc_length, set_snoc, preOut, resetClone,
      rmdOwner.snapshot]

theorem preOut_emit (r : rmdOwner) (m : rmdModifier) (l : List Event) :
    preOut { heap := r.heap, rmd := r.rmd, interrupted := r.interrupted, starting := r.starting,
             log := l } m = preOut r m := rfl

/-- Outcome of `modify` when the durable write fails. -/
theorem modify_fail_eq (f : Int → String) (r : rmdOwner) (m : rmdModifier) (e : GoErr) :
    rmdOwner.modify f r m (some e) =
      ({ r with
          heap := r.heap ++ [(preOut r m).2]
          log := r.log ++ [Event.lock, Event.pre r.heap.length,
                  Event.persist r.heap.length false, Event.unlock] },
       { m with ctx := { (preOut r m).1 with
                          cur := some r.heap.length, rebID := f (preOut r m).2.Version } },
       r.heap.length, some e) := by
  simp [rmdOwner.modify, do_eq, preOut_emit, rmdOwner.emit]

/-- Outcome of `modify` when the durable write succeeds and `final` is nil. -/
theorem modify_ok_nofinal_eq (f : Int → String) (r : rmdOwner) (m : rmdModifier)
    (hfin : m.final = none) :
    rmdOwner.modify f r m none =
      ({ r with
          heap := r.heap ++ [(preOut r m).2]
          rmd := r.heap.length
          log := r.log ++ [Event.lock, Event.pre r.heap.length,
                  Event.persist r.heap.length true, Event.put r.heap.length, Event.unlock] },
       { m with ctx := { (preOut r m).1 with
                          cur := some r.heap.length, rebID := f (preOut r m).2.Version } },
       r.heap.length, none) := by
  simp [rmdOwner.modify, do_eq, preOut_emit, rmdOwner.emit, hfin]

/-- Outcome of `modify` when the durable write succeeds and `final` is set. -/
theorem modify_ok_final_eq (f : Int → String) (r : rmdOwner) (m : rmdModifier) (fin : FinalFn)
    (hfin : m.final = some fin) :
    rmdOwner.modify f r m none =
      ({ r with
          heap := r.heap ++ [(preOut r m).2]
          rmd := r.heap.length
          log := r.log ++ [Event.lock, Event.pre r.heap.length,
                  Event.persist r.heap.length true, Event.put r.heap.length, Event.unlock,
                  Event.final r.heap.length] },
       { m with ctx := fin (r.heap ++ [(preOut r m).2])
                        { (preOut r m).1 with
                            cur := some r.heap.length, rebID := f (preOut r m).2.Version }
                        r.heap.length },
       r.heap.length, none) := by
  simp [rmdOwner.modify, do_eq, preOut_emit, rmdOwner.emit, hfin]

/-- After a successful `modify` the published snapshot is what `pre` left in the clone. -/
theorem modify_ok_snapshot (f : Int → String) (r : rmdOwner) (m : rmdModifier) :
    (rmdOwner.modify f r m none).1.snapshot = (preOut r m).2
      ∧ (rmdOwner.modify f r m none).1.get = r.heap.length
      ∧ (rmdOwner.modify f r m none).2.2.2 = none := by
  cases hfin : m.final with
  | none =>
    rw [modify_ok_nofinal_eq f r m hfin]
    simp [rmdOwner.snapshot, rmdOwner.get, rmdOwner.deref, getD_snoc_length]
  | some fin =>
    rw [modify_ok_final_eq f r m fin hfin]
    simp [rmdOwner.snapshot, rmdOwner.get, rmdOwner.deref, getD_snoc_length]

/-- Objects allocated before a `modify` are not written by it. -/
theorem modify_frame (f : Int → String) (r : rmdOwner) (m : rmdModifier) (perr : Option GoErr)
    (p : Ptr) (hp : p < r.heap.length) :
    (rmdOwner.modify f r m perr).1.deref p = r.deref p := by
  cases perr with
  | some e =>
    rw [modify_fail_eq]
    simp [rmdOwner.deref, List.getD_eq_getElem?_getD, List.getElem?_append_left hp]
  | none =>
    cases hfin : m.final with
    | none =>
      rw [modify_ok_nofinal_eq f r m hfin]
      simp [rmdOwner.deref, List.getD_eq_getElem?_getD, List.getElem?_append_left hp]
    | some fin =>
      rw [modify_ok_final_eq f r m fin hfin]
      simp [rmdOwner.deref, List.getD_eq_getElem?_getD, List.getElem?_append_left hp]

/-- Validity of the published pointer is preserved by `modify`. -/
theorem modify_WF (f : Int → String) (r : rmdOwner) (m : rmdModifier) (perr : Option GoErr)
    (hwf : r.WF) : (rmdOwner.modify f r m perr).1.WF := by
  unfold rmdOwner.WF at *
  cases perr with
  | some e =>
    rw [modify_fail_eq]
    simp only [List.length_append, List.length_singleton]
    exact Nat.lt_succ_of_lt hwf
  | none =>
    cases hfin : m.final with
    | none =>
      rw [modify_ok_nofinal_eq f r m hfin]
      simp
    | some fin =>
      rw [modify_ok_final_eq f r m fin hfin]
      simp

theorem newRMDOwner_WF : newRMDOwner.WF := by decide

/-- A failed `modify` leaves the published pointer and the object behind it alone. -/
theorem modify_fail_snapshot (f : Int → String) (r : rmdOwner) (m : rmdModifier) (e : GoErr)
    (hwf : r.WF) :
    (rmdOwner.modify f r m (some e)).1.get = r.get
      ∧ (rmdOwner.modify f r m (some e)).1.snapshot = r.snapshot := by
  have hfr := modify_frame f r m (some e) r.get hwf
  have hget : (rmdOwner.modify f r m (some e)).1.get = r.get := by
    rw [modify_fail_eq]; rfl
  refine ⟨hget, ?_⟩
  unfold rmdOwner.snapshot
  rw [hget, hfr]

/-- A successful `modify` with `pre = rmdInc` publishes the next version. -/
theorem modify_inc_snapshot_version (f : Int → String) (r : rmdOwner) (m : rmdModifier)
    (hlo : -2 ^ 63 ≤ r.snapshot.Version) (hhi : r.snapshot.Version < 2 ^ 63 - 1)
    (hpre : m.pre = rmdInc) :
    (rmdOwner.modify f r m none).1.snapshot.Version = r.snapshot.Version + 1 := by
  rw [(modify_ok_snapshot f r m).1]
  simp only [preOut, hpre, rmdInc, rebMD.inc, resetClone, wrapInt64]
  omega

/-! ## The modify cycle -/

/-- C1: if persisting the clone fails, `modify` returns that (non-nil) error, `get()`
returns the same pointer as before, and the snapshot behind it has the same
Version, TargetIDs and Resilver: nothing is published, nothing is incremented. -/
theorem modify_persist_failure_keeps_snapshot (f : Int → String) (r : rmdOwner)
    (m : rmdModifier) (e : GoErr) (hwf : r.WF) :
    (rmdOwner.modify f r m (some e)).2.2.2 = some e
      ∧ (rmdOwner.modify f r m (some e)).1.get = r.get
      ∧ (rmdOwner.modify f r m (some e)).1.snapshot = r.snapshot
      ∧ (rmdOwner.modify f r m (some e)).1.snapshot.Version = r.snapshot.Version
      ∧ newEvents r (rmdOwner.modify f r m (some e)).1
          = [Event.lock, Event.pre r.heap.length, Event.persist r.heap.length false,
             Event.unlock] := by
  have hget := (modify_fail_snapshot f r m e hwf).1
  have hsnap := (modify_fail_snapshot f r m e hwf).2
  refine ⟨?_, hget, hsnap, by rw [hsnap], ?_⟩
  · rw [modify_fail_eq]
  · rw [modify_fail_eq]
    simp [newEvents]

theorem modify_persist_failure_keeps_snapshot_witness :
    owner5.WF
      ∧ (rmdOwner.modify rebIDOf owner5 incModifier (some (GoErr.other "disk"))).1.snapshot
          = owner5.snapshot :=
  ⟨by decide,
    (modify_persist_failure_keeps_snapshot rebIDOf owner5 incModifier (GoErr.other "disk")
      (by decide)).2.2.1⟩

/-- C2 as stated fails: with a `pre` that leaves the clone alone, a successful
`modify` publishes a snapshot whose Version equals the previous one. -/
theorem modify_success_without_inc_keeps_version :
    (rmdOwner.modify rebIDOf owner5 keepModifier none).2.2.2 = none
      ∧ owner5.snapshot.Version = 5
      ∧ (rmdOwner.modify rebIDOf owner5 keepModifier none).1.snapshot.Version = 5
      ∧ ¬ ((rmdOwner.modify rebIDOf owner5 keepModifier none).1.snapshot.Version
            > owner5.snapshot.Version) :=
  ⟨rfl, by decide, by decide, by decide⟩

/-- C2 amended: a successful `modify` publishes the Version that `pre` leaves in the
clone, which starts out as the previous Version; with `pre = rmdInc` and a previous
Version below the `int64` maximum it is the previous Version plus one, and with a
`pre` that does not touch Version it is the previous Version. -/
theorem modify_success_version (f : Int → String) (r : rmdOwner) (m : rmdModifier)
    (hlo : -2 ^ 63 ≤ r.snapshot.Version) (hhi : r.snapshot.Version < 2 ^ 63 - 1) :
    (rmdOwner.modify f r m none).1.snapshot.Version = (preOut r m).2.Version
      ∧ (resetClone r).Version = r.snapshot.Version
      ∧ (m.pre = rmdInc →
          (rmdOwner.modify f r m none).1.snapshot.Version = r.snapshot.Version + 1
            ∧ (rmdOwner.modify f r m none).1.snapshot.Version > r.snapshot.Version)
      ∧ ((∀ h c x, (m.pre h c x).2.Version = x.Version) →
          (rmdOwner.modify f r m none).1.snapshot.Version = r.snapshot.Version) := by
  have hs := (modify_ok_snapshot f r m).1
  refine ⟨by rw [hs], rfl, ?_, ?_⟩
  · intro hpre
    have hv := modify_inc_snapshot_version f r m hlo hhi hpre
    exact ⟨hv, by omega⟩
  · intro hkeep
    rw [hs]
    simp only [preOut, hkeep, resetClone]

theorem modify_success_version_witness :
    (-2 ^ 63 ≤ owner5.snapshot.Version ∧ owner5.snapshot.Version < 2 ^ 63 - 1)
      ∧ (rmdOwner.modify rebIDOf owner5 incModifier none).1.snapshot.Version
          = owner5.snapshot.Version + 1 :=
  ⟨by decide,
    ((modify_success_version rebIDOf owner5 incModifier (by decide) (by decide)).2.2.1 rfl).1⟩

/-- Versions published by a run of `modify` calls with `pre = rmdInc`. -/
theorem modifySeq_versions (f : Int → String) (outcomes : List (Option GoErr)) :
    ∀ (r : rmdOwner), r.WF → -2 ^ 63 ≤ r.snapshot.Version →
      r.snapshot.Version + successes outcomes < 2 ^ 63 →
      (modifySeq f r outcomes).2
        = (List.range (successes outcomes)).map (fun (i : Nat) => r.snapshot.Version + 1 + (i : Int)) := by
  induction outcomes with
  | nil => intro r _ _ _; simp [modifySeq, successes]
  | cons perr rest ih =>
    intro r hwf hlo hhi
    have hwf2 := modify_WF f r incModifier perr hwf
    cases perr with
    | some e =>
      have hsnap := (modify_fail_snapshot f r incModifier e hwf).2
      have hs : successes (some e :: rest) = successes rest := by simp [successes]
      rw [hs] at hhi ⊢
      simp only [modifySeq, Option.isNone_some, Bool.false_eq_true, if_false]
      rw [ih _ hwf2 (by rw [hsnap]; exact hlo) (by rw [hsnap]; exact hhi), hsnap]
    | none =>
      have hs : successes (none :: rest) = successes rest + 1 := by simp [successes]
      rw [hs] at hhi ⊢
      push_cast at hhi
      have hv := modify_inc_snapshot_version f r incModifier hlo (by omega) rfl
      simp only [modifySeq, Option.isNone_none, if_true]
      rw [ih _ hwf2 (by rw [hv]; omega) (by rw [hv]; omega), hv, List.range_succ_eq_map]
      simp only [List.map_cons, List.map_map, Nat.cast_zero, add_zero, List.cons.injEq, true_and]
      apply List.map_congr_left
      intro i _
      simp only [Function.comp, Nat.cast_succ]
      ring

/-- C3: from Version 5 two successful `modify` calls with `pre = rmdInc` publish
Versions 6 and 7, and the second call has as `ctx.prev` the pointer published by the
first; in general a run of such calls, whose successful persists number `n`, from
Version `v` with `v + n < 2^63`, publishes exactly `v+1, ..., v+n` without repeats,
and the failed calls in between do not change that sequence. -/
theorem modify_inc_version_sequence (f : Int → String) (r : rmdOwner)
    (outcomes : List (Option GoErr)) (hwf : r.WF) (hlo : -2 ^ 63 ≤ r.snapshot.Version)
    (hhi : r.snapshot.Version + successes outcomes < 2 ^ 63) :
    ((rmdOwner.modify f owner5 incModifier none).1.snapshot.Version = 6
      ∧ (rmdOwner.modify f (rmdOwner.modify f owner5 incModifier none).1
            incModifier none).1.snapshot.Version = 7
      ∧ (rmdOwner.modify f (rmdOwner.modify f owner5 incModifier none).1
            incModifier none).2.1.ctx.prev
          = some (rmdOwner.modify f owner5 incModifier none).1.get
      ∧ (modifySeq f owner5 [none, none]).2 = [6, 7])
    ∧ (modifySeq f r outcomes).2
        = (List.range (successes outcomes)).map (fun (i : Nat) => r.snapshot.Version + 1 + (i : Int))
    ∧ (modifySeq f r outcomes).2.Nodup
    ∧ (modifySeq f r outcomes).2 = (modifySeq f r (outcomes.filter Option.isNone)).2 := by
  have hgen := modifySeq_versions f outcomes r hwf hlo hhi
  have hsucc : successes (outcomes.filter Option.isNone) = successes outcomes := by
    simp [successes]
  have hgen2 := modifySeq_versions f (outcomes.filter Option.isNone) r hwf hlo
    (by rw [hsucc]; exact hhi)
  refine ⟨⟨rfl, rfl, rfl, rfl⟩, hgen, ?_, ?_⟩
  · rw [hgen]
    refine List.Nodup.map ?_ (List.nodup_range _)
    intro a b hab
    simp only at hab
    omega
  · rw [hgen, hgen2, hsucc]

theorem modify_inc_version_sequence_witness :
    (owner5.WF ∧ -2 ^ 63 ≤ owner5.snapshot.Version
        ∧ owner5.snapshot.Version
            + successes [none, some (GoErr.other "disk"), none, none] < 2 ^ 63)
      ∧ (modifySeq rebIDOf owner5 [none, some (GoErr.other "disk"), none, none]).2
          = (List.range (successes [none, some (GoErr.other "disk"), none, none])).map
              (fun (i : Nat) => owner5.snapshot.Version + 1 + (i : Int)) :=
  ⟨by decide,
    (modify_inc_version_sequence rebIDOf owner5 [none, some (GoErr.other "disk"), none, none]
      (by decide) (by decide) (by decide)).2.1⟩

/-- C4: after a successful `modify` the snapshot `get()` returns is the result of
`ctx.pre` applied to a copy of the previous snapshot whose TargetIDs and Resilver
were reset first and whose Version was carried over; what `pre` writes into
TargetIDs and Resilver is published, and with `pre = rmdInc` the published snapshot
has empty TargetIDs and Resilver whatever the previous snapshot held. -/
theorem modify_publishes_pre_of_reset_clone (f : Int → String) (r : rmdOwner)
    (m : rmdModifier) (ids : List String) (tag : String) :
    (rmdOwner.modify f r m none).1.snapshot
        = (m.pre (r.heap ++ [{ Version := r.snapshot.Version, TargetIDs := [], Resilver := "" }])
              { m.ctx with prev := some r.get }
              { Version := r.snapshot.Version, TargetIDs := [], Resilver := "" }).2
      ∧ (rmdOwner.modify f r (fillModifier ids tag) none).1.snapshot.TargetIDs = ids
      ∧ (rmdOwner.modify f r (fillModifier ids tag) none).1.snapshot.Resilver = tag
      ∧ (rmdOwner.modify f r incModifier none).1.snapshot.TargetIDs = []
      ∧ (rmdOwner.modify f r incModifier none).1.snapshot.Resilver = ""
      ∧ (rmdOwner.modify f r incModifier none).1.snapshot.Version
          = wrapInt64 (r.snapshot.Version + 1) := by
  refine ⟨(modify_ok_snapshot f r m).1, ?_, ?_, ?_, ?_, ?_⟩ <;>
    rw [(modify_ok_snapshot f r _).1] <;> rfl

/-- C5: `modify` calls `ctx.final` exactly once if persist succeeded and `final` is
non-nil, and not at all otherwise; the call comes after the `put` and the unlock,
and its argument is the clone that `get()` returns then. -/
theorem modify_final_called_once_iff (f : Int → String) (r : rmdOwner) (m : rmdModifier)
    (perr : Option GoErr) :
    (finalCalls (newEvents r (rmdOwner.modify f r m perr).1)
        = if perr.isNone && m.final.isSome then [(rmdOwner.modify f r m perr).1.get] else [])
      ∧ ((finalCalls (newEvents r (rmdOwner.modify f r m perr).1)).length = 1
          ↔ (perr = none ∧ m.final ≠ none))
      ∧ (perr = none → m.final ≠ none →
          newEvents r (rmdOwner.modify f r m perr).1
            = [Event.lock, Event.pre r.heap.length, Event.persist r.heap.length true,
               Event.put r.heap.length, Event.unlock, Event.final r.heap.length]
          ∧ (rmdOwner.modify f r m perr).1.get = r.heap.length
          ∧ (rmdOwner.modify f r m perr).2.2.1 = r.heap.length)
      ∧ (perr ≠ none → finalCalls (newEvents r (rmdOwner.modify f r m perr).1) = []) := by
  cases perr with
  | some e =>
    rw [modify_fail_eq]
    simp [newEvents, finalCalls]
  | none =>
    cases hfin : m.final with
    | none =>
      rw [modify_ok_nofinal_eq f r m hfin]
      simp [newEvents, finalCalls]
    | some fin =>
      rw [modify_ok_final_eq f r m fin hfin]
      simp [newEvents, finalCalls, rmdOwner.get]

theorem modify_final_called_once_iff_witness :
    ((none : Option GoErr) = none ∧ (fillModifier ["t9"] "tag").final ≠ none)
      ∧ newEvents owner5 (rmdOwner.modify rebIDOf owner5 (fillModifier ["t9"] "tag") none).1
          = [Event.lock, Event.pre 2, Event.persist 2 true, Event.put 2, Event.unlock,
             Event.final 2] :=
  ⟨⟨rfl, by simp [fillModifier]⟩,
    ((modify_final_called_once_iff rebIDOf owner5 (fillModifier ["t9"] "tag") none).2.2.1 rfl
      (by simp [fillModifier])).1⟩

/-- C6: `modify` never writes to the published snapshot: the object `get()` returned
before the call holds the same Version, TargetIDs and Resilver after the call,
whether persist succeeds or fails, and so does every object allocated before it. -/
theorem modify_never_mutates_published (f : Int → String) (r : rmdOwner) (m : rmdModifier)
    (perr : Option GoErr) (hwf : r.WF) :
    (rmdOwner.modify f r m perr).1.deref r.get = r.snapshot
      ∧ ((rmdOwner.modify f r m perr).1.deref r.get).Version = r.snapshot.Version
      ∧ ((rmdOwner.modify f r m perr).1.deref r.get).TargetIDs = r.snapshot.TargetIDs
      ∧ ((rmdOwner.modify f r m perr).1.deref r.get).Resilver = r.snapshot.Resilver
      ∧ ∀ p, p < r.heap.length → (rmdOwner.modify f r m perr).1.deref p = r.deref p := by
  have h := modify_frame f r m perr r.get hwf
  refine ⟨h, ?_, ?_, ?_, fun p hp => modify_frame f r m perr p hp⟩ <;> rw [h] <;> rfl

theorem modify_never_mutates_published_witness :
    owner5.WF
      ∧ (rmdOwner.modify rebIDOf owner5 incModifier none).1.deref owner5.get = owner5.snapshot :=
  ⟨by decide, (modify_never_mutates_published rebIDOf owner5 incModifier none (by decide)).1⟩

/-- C7: a fresh owner holds Version 0, no TargetIDs and an empty Resilver; `load`
publishes the loaded snapshot when reading succeeds, and when reading fails (file
missing or any other error) `get()` returns the same pointer and snapshot as before;
so the pointer changes iff reading succeeded. `load` has no error result. -/
theorem load_replaces_iff_read_ok (r : rmdOwner) (res : Except GoErr rebMD) (hwf : r.WF) :
    (newRMDOwner.snapshot.Version = 0 ∧ newRMDOwner.snapshot.TargetIDs = []
        ∧ newRMDOwner.snapshot.Resilver = "")
      ∧ (∀ v, res = .ok v → (r.load res).snapshot = v ∧ (r.load res).get = r.heap.length)
      ∧ (∀ e, res = .error e → (r.load res).get = r.get ∧ (r.load res).snapshot = r.snapshot)
      ∧ ((r.load res).get ≠ r.get ↔ ∃ v, res = .ok v)
      ∧ (r.load res).WF := by
  unfold rmdOwner.WF at hwf
  refine ⟨⟨rfl, rfl, rfl⟩, ?_, ?_, ?_, ?_⟩
  · intro v hv
    subst hv
    simp [rmdOwner.load, rmdOwner.alloc, rmdOwner.update, rmdOwner.put, rmdOwner.snapshot,
      rmdOwner.get, rmdOwner.deref, set_snoc, getD_snoc_length]
  · intro e he
    subst he
    have hd : (r.heap ++ [rebMD.zero])[r.rmd]? = r.heap[r.rmd]? := List.getElem?_append_left hwf
    by_cases hne : GoErr.IsNotExist (some e) = true <;>
      simp [rmdOwner.load, rmdOwner.alloc, rmdOwner.emit, rmdOwner.snapshot, rmdOwner.get,
        rmdOwner.deref, hne, List.getD_eq_getElem?_getD, hd]
  · cases res with
    | ok v =>
      simp [rmdOwner.load, rmdOwner.alloc, rmdOwner.update, rmdOwner.put, rmdOwner.get]
      exact Nat.ne_of_gt hwf
    | error e =>
      by_cases hne : GoErr.IsNotExist (some e) = true <;>
        simp [rmdOwner.load, rmdOwner.alloc, rmdOwner.emit, rmdOwner.get, hne]
  · unfold rmdOwner.WF
    cases res with
    | ok v =>
      simp [rmdOwner.load, rmdOwner.alloc, rmdOwner.update, rmdOwner.put]
    | error e =>
      by_cases hne : GoErr.IsNotExist (some e) = true <;>
        simp [rmdOwner.load, rmdOwner.alloc, rmdOwner.emit, hne] <;>
        exact Nat.lt_succ_of_lt hwf

theorem load_replaces_iff_read_ok_witness :
    newRMDOwner.WF
      ∧ (newRMDOwner.load (.error (GoErr.notExist "rmd"))).snapshot = newRMDOwner.snapshot :=
  ⟨by decide,
    ((load_replaces_iff_read_ok newRMDOwner (.error (GoErr.notExist "rmd")) (by decide)).2.2.1
      (GoErr.notExist "rmd") rfl).2⟩

end ais

namespace res

open xact

/-! ## Wait loops and the resilver visitor -/

/-- The copy loop returns nil after a failed replica copy, whatever the error is. -/
theorem fixCopies_copy_error_returns_nil (S : Sys) (xname : String) (orig : LOM)
    (mi0 : Mountpath) (isHrw0 : Bool) (mo mn : String) (fuel : Nat) (st : Locals)
    (tr : List Act) (mi : Mountpath) (e : GoErr)
    (hmp : S.ToMpath tr st.lom = (some mi, false))
    (hcp : S.Copy (tr ++ [Act.toMpath st.lom (some mi) false]) st.lom mi = some e) :
    (visitObj.fixCopies S xname orig mi0 isHrw0 mo mn (fuel + 1) st tr).map (fun r => r.1.errHrw)
      = some none := by
  simp only [visitObj.fixCopies, hmp, hcp, Bool.false_eq_true, if_false, Option.map_some',
    visitObj.ret]
  split <;> rfl

/-- C8: on the abort signal with cause `c`, `BckJog.Wait` and `Res.wait` call `Stop`
on the jogger group and return the aborted error built from `c`, whatever `Stop`
returns (any first worker error); `xactMNC.Run`, `xactLLC.Run` and
`Res.RunResilver` pass that error to `Finish`, and the running xaction ends
Aborted with cause `c`. -/
theorem abort_returns_aborted_error_with_cause (r : BckJog) (s : ResState) (c rmErr : Option GoErr)
    (results : List (Option GoErr)) (env : RunEnv)
    (hrun : r.base.state = XState.running)
    (hfatal : env.persistFatalErr = none) (hwrite : env.persistWriteErr = none)
    (hpaths : 1 ≤ env.availablePaths) (hev : env.ev = WaitEvent.abort c) :
    ((r.Wait (WaitEvent.abort c)).2 = NewErrAborted r.base.Name "x-bck-jog" c
        ∧ (r.Wait (WaitEvent.abort c)).1.joggers.stops = r.joggers.stops + 1
        ∧ GoErr.IsErrAborted (r.Wait (WaitEvent.abort c)).2 = true
        ∧ GoErr.abortCause (r.Wait (WaitEvent.abort c)).2 = c)
      ∧ ((Res.wait s (WaitEvent.abort c) rmErr).2 = NewErrAborted s.xres.Name "" c
        ∧ (Res.wait s (WaitEvent.abort c) rmErr).1.jg.stops = s.jg.stops + 1
        ∧ GoErr.IsErrAborted (Res.wait s (WaitEvent.abort c) rmErr).2 = true
        ∧ GoErr.abortCause (Res.wait s (WaitEvent.abort c) rmErr).2 = c)
      ∧ ((mirror.xactMNC.Run r none results (WaitEvent.abort c)).base.finishArgs
            = r.base.finishArgs ++ [NewErrAborted r.base.Name "x-bck-jog" c]
        ∧ (mirror.xactMNC.Run r none results (WaitEvent.abort c)).base.state = XState.aborted c)
      ∧ ((xs.xactLLC.Run r results (WaitEvent.abort c)).base.finishArgs
            = r.base.finishArgs ++ [NewErrAborted r.base.Name "x-bck-jog" c]
        ∧ (xs.xactLLC.Run r results (WaitEvent.abort c)).base.state = XState.aborted c)
      ∧ ((Res.RunResilver s env).xres.finishArgs = [NewErrAborted env.UUID "" c]
        ∧ (Res.RunResilver s env).xres.state = XState.aborted c
        ∧ (Res.RunResilver s env).jg.stops = 1) := by
  refine ⟨⟨rfl, rfl, rfl, rfl⟩, ⟨rfl, rfl, rfl, rfl⟩, ⟨?_, ?_⟩, ⟨?_, ?_⟩, ?_⟩
  · simp [mirror.xactMNC.Run, BckJog.Wait, BckJog.Run, Jgroup.Stop, Base.Finish, NewErrAborted]
  · simp [mirror.xactMNC.Run, BckJog.Wait, BckJog.Run, Jgroup.Stop, Base.Finish, NewErrAborted,
      hrun]
  · simp [xs.xactLLC.Run, BckJog.Wait, BckJog.Run, Jgroup.Stop, Base.Finish, NewErrAborted]
  · simp [xs.xactLLC.Run, BckJog.Wait, BckJog.Run, Jgroup.Stop, Base.Finish, NewErrAborted, hrun]
  · have hp : ¬ env.availablePaths < 1 := by omega
    cases hdd : env.hasPostDD <;>
      simp [Res.RunResilver, hfatal, hwrite, hp, hev, hdd, Res.wait, Jgroup.Stop, Jgroup.Run,
        Jgroup.workersDone, Jgroup.new, Base.Finish, Base.init, Base.Name, NewErrAborted,
        Res._end, Res._begin]

theorem abort_returns_aborted_error_with_cause_witness :
    (bckJog0.base.state = XState.running
        ∧ (envAborted (some (GoErr.other "user")) (some errFlux)).persistFatalErr = none
        ∧ (envAborted (some (GoErr.other "user")) (some errFlux)).persistWriteErr = none
        ∧ 1 ≤ (envAborted (some (GoErr.other "user")) (some errFlux)).availablePaths
        ∧ (envAborted (some (GoErr.other "user")) (some errFlux)).ev
            = WaitEvent.abort (some (GoErr.other "user")))
      ∧ (Res.RunResilver resState0
            (envAborted (some (GoErr.other "user")) (some errFlux))).xres.state
          = XState.aborted (some (GoErr.other "user")) :=
  ⟨by decide,
    (abort_returns_aborted_error_with_cause bckJog0 resState0 (some (GoErr.other "user")) none
      [some errFlux] (envAborted (some (GoErr.other "user")) (some errFlux))
      (by decide) (by decide) (by decide) (by decide) (by decide)).2.2.2.2.2.1⟩

/-- C9 (the code diverges): a worker's `visitObj` returns the fatal error "hrw
mountpaths keep changing", the group records it as its first error and finishes
without an abort request, and `Res.RunResilver` still calls `Finish(nil)`: the
finished branch of `Res.wait` returns only what removing the marker returned. The
sibling `BckJog.Wait` returns the group's error on the same event. -/
theorem resilver_drops_fatal_visit_error :
    (visitObj sysFlux jctx0 8 lomA []).map (fun r => r.1) = some (some errFlux)
      ∧ (Res.RunResilver resState0 (envFinished (some errFlux))).jg.firstErr = some errFlux
      ∧ (Res.RunResilver resState0 (envFinished (some errFlux))).xres.finishArgs = [none]
      ∧ (Res.RunResilver resState0 (envFinished (some errFlux))).xres.state = XState.finishedOk
      ∧ (xs.xactLLC.Run bckJog0 [none, some errFlux] WaitEvent.finished).base.finishArgs
          = [some errFlux]
      ∧ (∀ (s : ResState) (rmErr : Option GoErr),
          (Res.wait s WaitEvent.finished rmErr).2 = rmErr) := by
  refine ⟨by decide, by decide, by decide, by decide, by decide, fun _ _ => rfl⟩

/-- C10 (the code diverges): when the replica copy fails with an out-of-space
error `visitObj` returns nil (the aborted error it builds is dropped); when the
HRW fix-up copy fails with an out-of-space error it returns nil if an EC metafile
copy was rolled back, and otherwise the bare out-of-space error, which is not an
aborted error. -/
theorem visitObj_oos_copy_not_aborted :
    (visitObj sysReplicaOOS jctx0 5 lomA []).map (fun r => r.1) = some none
      ∧ (Act.copy lomA mpB (some (GoErr.oos "no space left on device"))
          ∈ ((visitObj sysReplicaOOS jctx0 5 lomA []).map (fun r => r.2.2)).getD [])
      ∧ (visitObj sysHrwOOSEC jctx0 5 lomA []).map (fun r => r.1) = some none
      ∧ (Act.copy lomA mpB (some (GoErr.oos "no space left on device"))
          ∈ ((visitObj sysHrwOOSEC jctx0 5 lomA []).map (fun r => r.2.2)).getD [])
      ∧ (visitObj sysHrwOOS jctx0 5 lomA []).map (fun r => r.1)
          = some (some (GoErr.oos "no space left on device"))
      ∧ GoErr.IsErrAborted (some (GoErr.oos "no space left on device")) = false := by
  refine ⟨by decide, by decide, by decide, by decide, by decide, rfl⟩

end res

namespace mirror

open xact res

/-! ## Replica-count enforcement -/

theorem count_objs (E : MncSys) (r : xactMNC) (size : Int) (tr : List MncAct) :
    (xactMNC.visitObj.count E r size tr).2.1 = r.ObjsAdd 1 size := by
  by_cases h : ((r.ObjsAdd 1 size).Objs.tmod 100 = 0) <;>
    cases hc : E.CapErr <;> simp [xactMNC.visitObj.count, h, hc]

/-- Outcome of `visitObj` for an object that is counted. -/
theorem visitObj_processed (E : MncSys) (r : xactMNC) (lom : LOM)
    (h : processed E r lom = true) :
    xactMNC.visitObj E r lom
      = xactMNC.visitObj.count E r (opSize E r lom)
          [if E.NumCopies lom > r.copies then MncAct.delCopies lom r.copies
           else MncAct.addCopies lom r.copies] := by
  simp only [processed, Bool.and_eq_true, decide_eq_true_eq, Bool.not_eq_true',
    ne_eq] at h
  obtain ⟨⟨hne, hnx⟩, hoos⟩ := h
  simp only [xactMNC.visitObj, hne, if_false, hnx, Bool.false_eq_true, opSize]
  split
  · rename_i e he
    rw [he] at hoos
    simp only [Bool.not_eq_true'] at hoos
    simp [hoos]
  · rfl

/-- Outcome of `visitObj` for an object that is not counted. -/
theorem visitObj_not_processed (E : MncSys) (r : xactMNC) (lom : LOM)
    (h : processed E r lom = false) :
    (xactMNC.visitObj E r lom).2.1 = r
      ∧ (∀ n size, MncAct.objsAdd n size ∉ (xactMNC.visitObj E r lom).2.2)
      ∧ MncAct.cap ∉ (xactMNC.visitObj E r lom).2.2 := by
  simp only [processed] at h
  unfold xactMNC.visitObj
  by_cases hne : E.NumCopies lom = r.copies
  · simp [hne]
  · by_cases hgt : E.NumCopies lom > r.copies
    · simp only [hgt, if_true] at h ⊢
      cases hop : (E.delCopies lom r.copies).2 with
      | none => simp [hne, hop, GoErr.IsNotExist] at h
      | some e =>
        cases e <;> simp [hne, hop, GoErr.IsNotExist, GoErr.IsErrOOS] at h ⊢
    · simp only [hgt, if_false] at h ⊢
      cases hop : (E.addCopies lom r.copies).2 with
      | none => simp [hne, hop, GoErr.IsNotExist] at h
      | some e =>
        cases e <;> simp [hne, hop, GoErr.IsNotExist, GoErr.IsErrOOS] at h ⊢

/-- Closed form of the counting tail. -/
theorem count_eq (E : MncSys) (r : xactMNC) (size : Int) (tr : List MncAct) :
    xactMNC.visitObj.count E r size tr
      = if (r.ObjsAdd 1 size).Objs.tmod 100 = 0 then
          (match E.CapErr with
            | some c => NewErrAborted (r.ObjsAdd 1 size).Name "visit-obj" (some c)
            | none => none,
           r.ObjsAdd 1 size, tr ++ [MncAct.objsAdd 1 size, MncAct.cap])
        else (none, r.ObjsAdd 1 size, tr ++ [MncAct.objsAdd 1 size]) := by
  by_cases h : ((r.ObjsAdd 1 size).Objs.tmod 100 = 0) <;>
    cases hc : E.CapErr <;> simp [xactMNC.visitObj.count, h, hc]

/-- C18: with `n` copies against the target `N = r.copies`: for `n = N` `visitObj`
returns nil, calls neither `addCopies` nor `delCopies` and leaves the counters;
for `n > N` its only copy operation is `delCopies(lom, N)`; for `n < N` its only
copy operation is `addCopies(lom, N, buf)`. -/
theorem mnc_visitObj_dispatch (E : MncSys) (r : xactMNC) (lom : LOM) :
    (E.NumCopies lom = r.copies → xactMNC.visitObj E r lom = (none, r, []))
      ∧ (E.NumCopies lom > r.copies →
          copyOps (xactMNC.visitObj E r lom).2.2 = [MncAct.delCopies lom r.copies])
      ∧ (E.NumCopies lom < r.copies →
          copyOps (xactMNC.visitObj E r lom).2.2 = [MncAct.addCopies lom r.copies]) := by
  refine ⟨?_, ?_, ?_⟩
  · intro h
    simp [xactMNC.visitObj, h]
  · intro hgt
    have hne : ¬ E.NumCopies lom = r.copies := by omega
    cases hp : processed E r lom with
    | true =>
      rw [visitObj_processed E r lom hp, count_eq]
      split <;> simp [hgt, copyOps]
    | false =>
      simp only [processed] at hp
      unfold xactMNC.visitObj
      simp only [hgt, if_true, hne, if_false] at hp ⊢
      cases hop : (E.delCopies lom r.copies).2 with
      | none => simp [hne, hop, GoErr.IsNotExist] at hp
      | some e => cases e <;> simp [hne, hop, GoErr.IsNotExist, GoErr.IsErrOOS, copyOps] at hp ⊢
  · intro hlt
    have hne : ¬ E.NumCopies lom = r.copies := by omega
    have hgt : ¬ E.NumCopies lom > r.copies := by omega
    cases hp : processed E r lom with
    | true =>
      rw [visitObj_processed E r lom hp, count_eq]
      split <;> simp [hgt, copyOps]
    | false =>
      simp only [processed] at hp
      unfold xactMNC.visitObj
      simp only [hgt, if_false, hne] at hp ⊢
      cases hop : (E.addCopies lom r.copies).2 with
      | none => simp [hne, hop, GoErr.IsNotExist] at hp
      | some e => cases e <;> simp [hne, hop, GoErr.IsNotExist, GoErr.IsErrOOS, copyOps] at hp ⊢

theorem mnc_visitObj_dispatch_witness :
    (mncSys 3 none none).NumCopies lomA > (mnc2 0).copies
      ∧ copyOps (xactMNC.visitObj (mncSys 3 none none) (mnc2 0) lomA).2.2
          = [MncAct.delCopies lomA (mnc2 0).copies] :=
  ⟨by decide, (mnc_visitObj_dispatch (mncSys 3 none none) (mnc2 0) lomA).2.1 (by decide)⟩

/-- Outcome of `visitObj` when the copy operation fails with an out-of-space error. -/
theorem visitObj_oos (E : MncSys) (r : xactMNC) (lom : LOM) (e : GoErr)
    (hne : E.NumCopies lom ≠ r.copies) (hop : opErr E r lom = some e)
    (hoos : GoErr.IsErrOOS e = true) :
    xactMNC.visitObj E r lom
      = (NewErrAborted r.Name "visit-obj" (some e), r,
          [if E.NumCopies lom > r.copies then MncAct.delCopies lom r.copies
           else MncAct.addCopies lom r.copies]) := by
  unfold opErr at hop
  cases e <;> simp [GoErr.IsErrOOS] at hoos
  simp [xactMNC.visitObj, hne, hop, GoErr.IsNotExist, GoErr.IsErrOOS]

/-- C19: when `addCopies` or `delCopies` fails with an out-of-space error,
`visitObj` returns the aborted error wrapping it and leaves the counters alone;
and every non-nil error `visitObj` returns is an aborted error, caused either by
that out-of-space error or by the error of the capacity state. -/
theorem mnc_visitObj_errors_are_aborted (E : MncSys) (r : xactMNC) (lom : LOM) :
    (∀ e, E.NumCopies lom ≠ r.copies → opErr E r lom = some e → GoErr.IsErrOOS e = true →
        (xactMNC.visitObj E r lom).1 = NewErrAborted r.Name "visit-obj" (some e)
          ∧ (xactMNC.visitObj E r lom).2.1 = r
          ∧ (∀ n size, MncAct.objsAdd n size ∉ (xactMNC.visitObj E r lom).2.2))
      ∧ ((xactMNC.visitObj E r lom).1 = none
          ∨ GoErr.IsErrAborted (xactMNC.visitObj E r lom).1 = true)
      ∧ ((xactMNC.visitObj E r lom).1 ≠ none →
          (∃ e, opErr E r lom = some e ∧ GoErr.IsErrOOS e = true
              ∧ (xactMNC.visitObj E r lom).1 = NewErrAborted r.Name "visit-obj" (some e))
          ∨ (∃ c, E.CapErr = some c
              ∧ (xactMNC.visitObj E r lom).1
                  = NewErrAborted (r.ObjsAdd 1 (opSize E r lom)).Name "visit-obj" (some c))) := by
  have key : (xactMNC.visitObj E r lom).1 = none
      ∨ (∃ e, opErr E r lom = some e ∧ GoErr.IsErrOOS e = true
              ∧ (xactMNC.visitObj E r lom).1 = NewErrAborted r.Name "visit-obj" (some e))
      ∨ (∃ c, E.CapErr = some c
              ∧ (xactMNC.visitObj E r lom).1
                  = NewErrAborted (r.ObjsAdd 1 (opSize E r lom)).Name "visit-obj" (some c)) := by
    cases hp : processed E r lom with
    | true =>
      rw [visitObj_processed E r lom hp, count_eq]
      split
      · cases hc : E.CapErr with
        | none => left; rfl
        | some c => right; right; exact ⟨c, rfl, rfl⟩
      · left; rfl
    | false =>
      by_cases hne : E.NumCopies lom = r.copies
      · left; simp [xactMNC.visitObj, hne]
      · cases hop : opErr E r lom with
        | none =>
          simp only [processed] at hp
          unfold opErr at hop
          simp [hne, hop, GoErr.IsNotExist] at hp
        | some e =>
          cases hoos : GoErr.IsErrOOS e with
          | true =>
            right; left
            exact ⟨e, rfl, hoos, by rw [visitObj_oos E r lom e hne hop hoos]⟩
          | false =>
            left
            simp only [processed] at hp
            unfold opErr at hop
            cases e <;>
              simp [hne, hop, GoErr.IsNotExist, GoErr.IsErrOOS, xactMNC.visitObj] at hp hoos ⊢
  refine ⟨?_, ?_, ?_⟩
  · intro e hne hop hoos
    rw [visitObj_oos E r lom e hne hop hoos]
    refine ⟨rfl, rfl, ?_⟩
    intro n size
    split <;> simp
  · rcases key with h | ⟨e, _, _, h⟩ | ⟨c, _, h⟩
    · exact Or.inl h
    · right; rw [h]; rfl
    · right; rw [h]; rfl
  · intro hnn
    rcases key with h | h | h
    · exact absurd h hnn
    · exact Or.inl h
    · exact Or.inr h

theorem mnc_visitObj_errors_are_aborted_witness :
    ((mncSys 1 (some (GoErr.oos "no space left on device")) none).NumCopies lomA
          ≠ (mnc2 0).copies
        ∧ opErr (mncSys 1 (some (GoErr.oos "no space left on device")) none) (mnc2 0) lomA
            = some (GoErr.oos "no space left on device")
        ∧ GoErr.IsErrOOS (GoErr.oos "no space left on device") = true)
      ∧ (xactMNC.visitObj (mncSys 1 (some (GoErr.oos "no space left on device")) none)
            (mnc2 0) lomA).2.1 = mnc2 0 :=
  ⟨by decide,
    ((mnc_visitObj_errors_are_aborted
        (mncSys 1 (some (GoErr.oos "no space left on device")) none) (mnc2 0) lomA).1
      (GoErr.oos "no space left on device") (by decide) (by decide) (by decide)).2.1⟩

/-- C20: for each object it processes `visitObj` adds 1 object and the returned
size to the counters (as `int64`), and leaves them alone otherwise; it consults the
capacity state exactly when the object counter after the increment is a multiple of
100, returns the aborted error there iff the capacity state reports an error, and
returns nil in every other processed case. -/
theorem mnc_visitObj_counts_and_checks (E : MncSys) (r : xactMNC) (lom : LOM) :
    (processed E r lom = true →
        (xactMNC.visitObj E r lom).2.1 = r.ObjsAdd 1 (opSize E r lom)
          ∧ (xactMNC.visitObj E r lom).2.1.Objs = wrapInt64 (r.Objs + 1)
          ∧ (xactMNC.visitObj E r lom).2.1.BckJog.base.bytes
              = wrapInt64 (r.BckJog.base.bytes + opSize E r lom)
          ∧ (-2 ^ 63 ≤ r.Objs → r.Objs + 1 < 2 ^ 63 →
              (xactMNC.visitObj E r lom).2.1.Objs = r.Objs + 1)
          ∧ (xactMNC.visitObj E r lom).2.2.count (MncAct.objsAdd 1 (opSize E r lom)) = 1)
      ∧ (processed E r lom = false →
          (xactMNC.visitObj E r lom).2.1 = r
            ∧ (∀ n size, MncAct.objsAdd n size ∉ (xactMNC.visitObj E r lom).2.2))
      ∧ (MncAct.cap ∈ (xactMNC.visitObj E r lom).2.2
          ↔ (processed E r lom = true ∧ (xactMNC.visitObj E r lom).2.1.Objs.tmod 100 = 0))
      ∧ (MncAct.cap ∈ (xactMNC.visitObj E r lom).2.2 →
          (GoErr.IsErrAborted (xactMNC.visitObj E r lom).1 = true ↔ E.CapErr ≠ none)
            ∧ (E.CapErr = none → (xactMNC.visitObj E r lom).1 = none)
            ∧ (∀ c, E.CapErr = some c →
                (xactMNC.visitObj E r lom).1
                  = NewErrAborted (xactMNC.visitObj E r lom).2.1.Name "visit-obj" (some c)))
      ∧ (processed E r lom = true → MncAct.cap ∉ (xactMNC.visitObj E r lom).2.2 →
          (xactMNC.visitObj E r lom).1 = none) := by
  have hwrap : -2 ^ 63 ≤ r.Objs → r.Objs + 1 < 2 ^ 63 → wrapInt64 (r.Objs + 1) = r.Objs + 1 := by
    intro hlo hhi
    unfold wrapInt64; omega
  by_cases hp : processed E r lom = true
  · have hv := visitObj_processed E r lom hp
    rw [count_eq] at hv
    by_cases h100 : (r.ObjsAdd 1 (opSize E r lom)).Objs.tmod 100 = 0
    · rw [if_pos h100] at hv
      refine ⟨?_, ?_, ?_, ?_, ?_⟩
      · intro _
        rw [hv]
        refine ⟨rfl, rfl, rfl, hwrap, ?_⟩
        by_cases hgt : E.NumCopies lom > r.copies <;> simp [hgt, List.count_cons]
      · intro h; rw [hp] at h; cases h
      · rw [hv]
        simp [hp, h100]
      · intro _
        rw [hv]
        cases hc : E.CapErr with
        | none => simp [GoErr.IsErrAborted]
        | some c => simp [GoErr.IsErrAborted, NewErrAborted]
      · intro _ hcap
        rw [hv] at hcap
        simp at hcap
    · rw [if_neg h100] at hv
      have hnocap : MncAct.cap ∉ (xactMNC.visitObj E r lom).2.2 := by
        rw [hv]
        by_cases hgt : E.NumCopies lom > r.copies <;> simp [hgt]
      refine ⟨?_, ?_, ?_, ?_, ?_⟩
      · intro _
        rw [hv]
        refine ⟨rfl, rfl, rfl, hwrap, ?_⟩
        by_cases hgt : E.NumCopies lom > r.copies <;> simp [hgt, List.count_cons]
      · intro h; rw [hp] at h; cases h
      · constructor
        · intro h; exact absurd h hnocap
        · intro h
          rw [hv] at h
          exact absurd h.2 h100
      · intro h; exact absurd h hnocap
      · intro _ _
        rw [hv]
  · have hp2 : processed E r lom = false := by simpa using hp
    have hn := visitObj_not_processed E r lom hp2
    refine ⟨fun h => absurd h hp, fun _ => ⟨hn.1, hn.2.1⟩, ?_, ?_, fun h => absurd h hp⟩
    · constructor
      · intro h; exact absurd h hn.2.2
      · intro h; exact absurd h.1 hp
    · intro h; exact absurd h hn.2.2

theorem mnc_visitObj_counts_and_checks_witness :
    processed (mncSys 1 none (some (GoErr.other "capacity exceeded"))) (mnc2 99) lomA = true
      ∧ (xactMNC.visitObj (mncSys 1 none (some (GoErr.other "capacity exceeded")))
            (mnc2 99) lomA).2.1.Objs = 100 :=
  ⟨by decide,
    ((mnc_visitObj_counts_and_checks (mncSys 1 none (some (GoErr.other "capacity exceeded")))
        (mnc2 99) lomA).1 (by decide)).2.2.2.1 (by decide) (by decide)⟩

end mirror

namespace res

open xact

/-! ## Every call of `visitObj` has one of the trace shapes -/

theorem fixHrw_run (S : Sys) (tr : List Act) (lom : LOM) (mi : Mountpath) :
    (∃ f hl, fixHrw S tr lom mi
        = ((some hl, none), tr ++ [Act.copy lom mi none, Act.initFQN f none, Act.load hl none]))
      ∨ (∃ h e fx, fixHrw S tr lom mi = ((h, some e), tr ++ fx) ∧ FixFail lom mi fx e) := by
  unfold fixHrw
  cases hc : S.Copy tr lom mi with
  | some e =>
    right
    exact ⟨none, e, _, rfl, FixFail.copy e⟩
  | none =>
    simp only
    generalize S.MakePathFQN mi lom.Bucket ContentType.ObjectType lom.ObjName = fqn
    generalize S.InitFQN (tr ++ [Act.copy lom mi none]) fqn lom.Bucket = init
    obtain ⟨hl, ierr⟩ := init
    cases ierr with
    | some e =>
      right
      exact ⟨some hl, e, [Act.copy lom mi none, Act.initFQN fqn (some e)], by simp,
        FixFail.init fqn e⟩
    | none =>
      simp only
      generalize S.Load (tr ++ [Act.copy lom mi none] ++ [Act.initFQN fqn none]) hl = lerr
      cases lerr with
      | some e =>
        right
        exact ⟨some hl, e, [Act.copy lom mi none, Act.initFQN fqn none, Act.load hl (some e)],
          by simp, FixFail.load fqn hl e⟩
      | none =>
        left
        exact ⟨fqn, hl, by simp⟩

theorem ret_run (S : Sys) (tr : List Act) (mo : String) (c : Bool) :
    ∃ tail, visitObj.ret S tr mo c = ({ errHrw := none, copied := c }, tr ++ tail)
      ∧ RetTail mo tail := by
  unfold visitObj.ret
  by_cases h : mo = ""
  · exact ⟨[], by simp [h], RetTail.nothing h⟩
  · exact ⟨[Act.remove mo (S.Remove tr mo)], by simp [h], RetTail.removed _ h⟩

theorem redo_run (S : Sys) (tr : List Act) (mi : Mountpath) (isHrw : Bool) (mn : String)
    (st : Locals) :
    (∃ ev st2, visitObj.redo S tr mi isHrw mn st = (Sum.inr st2, tr ++ ev)
        ∧ st2.retries = st.retries ∧ RedoRun st.lom mi mn isHrw ev none)
      ∨ (∃ ev r, visitObj.redo S tr mi isHrw mn st = (Sum.inl r, tr ++ ev)
        ∧ RedoRun st.lom mi mn isHrw ev (some r.errHrw)) := by
  unfold visitObj.redo
  cases isHrw with
  | false =>
    left
    exact ⟨[], st, by simp, rfl, RedoRun.skip⟩
  | true =>
    simp only [if_true]
    rcases fixHrw_run S (tr ++ [Act.uncache st.lom]) st.lom mi with
      ⟨f, hl, hfx⟩ | ⟨h, e, fx, hfx, hff⟩
    · left
      rw [hfx]
      exact ⟨[Act.uncache st.lom, Act.copy st.lom mi none, Act.initFQN f none, Act.load hl none],
        { st with lom := hl, hlom := some hl, copied := true }, by simp, rfl, RedoRun.fixed f hl⟩
    · right
      rw [hfx]
      by_cases hmn : mn = ""
      · refine ⟨Act.uncache st.lom :: fx ++ [], { errHrw := some e, copied := st.copied }, ?_,
          RedoRun.failed fx e [] _ hff (Rollback.plain hmn)⟩
        simp [hmn]
      · refine ⟨Act.uncache st.lom :: fx ++ [Act.remove mn (S.Remove (tr ++ [Act.uncache st.lom] ++ fx) mn)],
          { errHrw := S.Remove (tr ++ [Act.uncache st.lom] ++ fx) mn, copied := st.copied }, ?_,
          RedoRun.failed fx e _ _ hff (Rollback.removed _ hmn)⟩
        simp [hmn]

theorem fixCopies_run (S : Sys) (xname : String) (orig : LOM) (mi0 : Mountpath) (isHrw0 : Bool)
    (mo mn : String) :
    ∀ (fuel : Nat) (st : Locals) (tr : List Act) (res : BodyRet × List Act),
      visitObj.fixCopies S xname orig mi0 isHrw0 mo mn fuel st tr = some res →
      ∃ suf, res.2 = tr ++ suf
        ∧ LoopRun xname orig mi0 isHrw0 mo mn st.retries suf res.1.errHrw := by
  intro fuel
  induction fuel with
  | zero => intro st tr res h; simp [visitObj.fixCopies] at h
  | succ n ih =>
    intro st tr res h
    unfold visitObj.fixCopies at h
    simp only at h
    generalize hans : S.ToMpath tr st.lom = ans at h
    obtain ⟨omi, b⟩ := ans
    cases omi with
    | none =>
      simp only at h
      obtain ⟨tail, hret, htail⟩ := ret_run S (tr ++ [Act.toMpath st.lom none b]) mo st.copied
      rw [hret] at h
      cases h
      exact ⟨Act.toMpath st.lom none b :: tail, by simp, LoopRun.done _ _ _ _ htail⟩
    | some mi =>
      cases b with
      | true =>
        simp only [if_true] at h
        by_cases hex : st.retries + 1 > maxRetries
        · simp only [hex, if_true] at h
          cases h
          exact ⟨[Act.toMpath st.lom (some mi) true], rfl,
            LoopRun.exceeded _ _ _ (by omega)⟩
        · simp only [hex, if_false] at h
          rcases redo_run S (tr ++ [Act.toMpath st.lom (some mi) true]
              ++ [Act.sleep Pause.halfCplaneOperation]) mi0 isHrw0 mn
              { lom := orig, hlom := none, copied := false, retries := st.retries + 1 } with
            ⟨ev, st2, hrd, hret, hrun⟩ | ⟨ev, r, hrd, hrun⟩
          · rw [hrd] at h
            simp only at h
            obtain ⟨suf, hsuf, hloop⟩ := ih st2 _ res h
            refine ⟨Act.toMpath st.lom (some mi) true :: Act.sleep Pause.halfCplaneOperation
              :: (ev ++ suf), by simp [hsuf], ?_⟩
            rw [hret] at hloop
            exact LoopRun.redone _ _ _ _ _ _ (by omega) hrun hloop
          · rw [hrd] at h
            simp only at h
            cases h
            exact ⟨Act.toMpath st.lom (some mi) true :: Act.sleep Pause.halfCplaneOperation :: ev,
              by simp, LoopRun.redoFailed _ _ _ _ _ (by omega) hrun⟩
      | false =>
        simp only [Bool.false_eq_true, if_false] at h
        cases hcp : S.Copy (tr ++ [Act.toMpath st.lom (some mi) false]) st.lom mi with
        | none =>
          rw [hcp] at h
          simp only at h
          obtain ⟨suf, hsuf, hloop⟩ := ih _ _ res h
          exact ⟨Act.toMpath st.lom (some mi) false :: Act.copy st.lom mi none :: suf,
            by simp [hsuf], LoopRun.copied _ _ _ _ _ hloop⟩
        | some e =>
          rw [hcp] at h
          simp only at h
          obtain ⟨tail, hret, htail⟩ := ret_run S (tr ++ [Act.toMpath st.lom (some mi) false]
            ++ [Act.copy st.lom mi (some e)]) mo st.copied
          rw [hret] at h
          cases h
          exact ⟨Act.toMpath st.lom (some mi) false :: Act.copy st.lom mi (some e) :: tail,
            by simp, LoopRun.copyFailed _ _ _ _ _ htail⟩

theorem fixECMeta_run (S : Sys) (tr : List Act) (lom : LOM) :
    ∃ ev, (visitObj.fixECMeta S tr lom).2 = tr ++ ev
      ∧ ECRun S lom tr ev (visitObj.fixECMeta S tr lom).1 := by
  unfold visitObj.fixECMeta
  by_cases hc : (!S.IsHRW tr lom && S.ECEnabled tr lom) = true
  · simp only [hc, if_true]
    cases hr : S.ResolveFQN tr lom.HrwFQN with
    | error e =>
      exact ⟨[Act.resolveFQN lom.HrwFQN (some e)], rfl, ECRun.resolveFailed e hc⟩
    | ok mp =>
      simp only [_moveECMeta, NewCTFromLOM]
      generalize hs : S.Stat (tr ++ [Act.resolveFQN lom.HrwFQN none])
        (S.MakePathFQN lom.mpath lom.Bucket ContentType.ECMetaType lom.ObjName) = serr
      by_cases hne : GoErr.IsNotExist serr = true
      · simp only [hne, if_true]
        exact ⟨[Act.resolveFQN lom.HrwFQN none, Act.stat (metaFQN S lom lom.mpath) serr],
          by simp [metaFQN], ECRun.noMeta serr hc hne⟩
      · simp only [hne, Bool.false_eq_true, if_false]
        generalize hcf : S.CopyFile
          (tr ++ [Act.resolveFQN lom.HrwFQN none] ++
            [Act.stat (S.MakePathFQN lom.mpath lom.Bucket ContentType.ECMetaType lom.ObjName) serr])
          (S.MakePathFQN lom.mpath lom.Bucket ContentType.ECMetaType lom.ObjName)
          (S.MakePathFQN mp lom.Bucket ContentType.ECMetaType lom.ObjName) = cerr
        cases cerr with
        | none =>
          exact ⟨[Act.resolveFQN lom.HrwFQN none, Act.stat (metaFQN S lom lom.mpath) serr,
            Act.copyFile (metaFQN S lom lom.mpath) (metaFQN S lom mp) none],
            by simp [metaFQN], ECRun.copied serr mp hc⟩
        | some e =>
          by_cases hv : GoErr.IsNotExist (some e) = true
          · simp only [hv, if_true]
            exact ⟨[Act.resolveFQN lom.HrwFQN none, Act.stat (metaFQN S lom lom.mpath) serr,
              Act.copyFile (metaFQN S lom lom.mpath) (metaFQN S lom mp) (some e)],
              by simp [metaFQN], ECRun.vanished serr mp e hc hv⟩
          · have hv2 : GoErr.IsNotExist (some e) = false := by simpa using hv
            simp only [hv2, Bool.false_eq_true, if_false]
            exact ⟨[Act.resolveFQN lom.HrwFQN none, Act.stat (metaFQN S lom lom.mpath) serr,
              Act.copyFile (metaFQN S lom lom.mpath) (metaFQN S lom mp) (some e)],
              by simp [metaFQN], ECRun.copyFailed serr mp e hc hv2⟩
  · have hc2 : (!S.IsHRW tr lom && S.ECEnabled tr lom) = false := by simpa using hc
    simp only [hc2, Bool.false_eq_true, if_false]
    exact ⟨[], by simp, ECRun.skip hc2⟩

theorem body_run (S : Sys) (xname : String) (fuel : Nat) (orig : LOM) (tr : List Act)
    (r : BodyRet) (size : Int) (tr2 : List Act)
    (h : visitObj.body S xname fuel orig tr = some ((r, size), tr2)) :
    ∃ ev, tr2 = tr ++ ev ∧ BodyRun S xname orig tr ev r.errHrw := by
  unfold visitObj.body at h
  obtain ⟨ev, hev, hec⟩ := fixECMeta_run S tr orig
  generalize visitObj.fixECMeta S tr orig = ec at h hev hec
  obtain ⟨out, tr1⟩ := ec
  simp only at hev hec h
  subst hev
  cases out with
  | none =>
    simp only at h
    cases h
    exact ⟨ev, rfl, BodyRun.ecFailed ev hec⟩
  | some pr =>
    obtain ⟨mo, mn⟩ := pr
    simp only at h
    cases hl : S.Load (tr ++ ev) orig with
    | some e =>
      rw [hl] at h
      simp only at h
      cases h
      exact ⟨ev ++ [Act.load orig (some e)], by simp, BodyRun.loadFailed ev mo mn e hec⟩
    | none =>
      rw [hl] at h
      simp only at h
      generalize hans : S.ToMpath (tr ++ ev ++ [Act.load orig none]) orig = ans at h
      obtain ⟨omi, b⟩ := ans
      cases omi with
      | none =>
        simp only at h
        obtain ⟨tail, hret, htail⟩ := ret_run S
          (tr ++ ev ++ [Act.load orig none] ++ [Act.toMpath orig none b]) mo false
        rw [hret] at h
        simp only at h
        cases h
        exact ⟨ev ++ Act.load orig none :: Act.toMpath orig none b :: tail, by simp,
          BodyRun.inPlace ev mo mn b tail hec htail⟩
      | some mi =>
        simp only at h
        rcases redo_run S (tr ++ ev ++ [Act.load orig none] ++ [Act.toMpath orig (some mi) b]) mi b
            mn { lom := orig, hlom := none, copied := false, retries := 0 } with
          ⟨rd, st2, hrd, hret, hrun⟩ | ⟨rd, r2, hrd, hrun⟩
        · rw [hrd] at h
          simp only at h
          cases hfc : visitObj.fixCopies S xname orig mi b mo mn fuel st2
              (tr ++ ev ++ [Act.load orig none] ++ [Act.toMpath orig (some mi) b] ++ rd) with
          | none => rw [hfc] at h; simp at h
          | some res =>
            rw [hfc] at h
            simp only at h
            obtain ⟨suf, hsuf, hloop⟩ := fixCopies_run S xname orig mi b mo mn fuel st2 _ res hfc
            rw [hret] at hloop
            cases h
            exact ⟨ev ++ Act.load orig none :: Act.toMpath orig (some mi) b :: (rd ++ suf),
              by simp [hsuf], BodyRun.looped ev mo mn mi b rd suf _ hec hrun hloop⟩
        · rw [hrd] at h
          simp only at h
          cases h
          exact ⟨ev ++ Act.load orig none :: Act.toMpath orig (some mi) b :: rd, by simp,
            BodyRun.redoFailed ev mo mn mi b rd _ hec hrun⟩

theorem visitObj_run (S : Sys) (jg : joggerCtx) (fuel : Nat) (lom : LOM) (tr : List Act)
    (err : Option GoErr) (jg2 : joggerCtx) (tr2 : List Act)
    (h : visitObj S jg fuel lom tr = some (err, jg2, tr2)) :
    ∃ ev, tr2 = tr ++ ev ∧ VisitRun S jg.xres.Name lom tr ev err
      ∧ (jg2 = jg ∨ ∃ size, Act.objsAdd 1 size ∈ ev
            ∧ jg2 = { jg with xres := jg.xres.ObjsAdd 1 size }) := by
  have locked : ∀ locks, LockRun lom locks →
      visitObj.locked S jg fuel lom (tr ++ locks) = some (err, jg2, tr2) →
      ∃ ev, tr2 = tr ++ ev ∧ VisitRun S jg.xres.Name lom tr ev err
        ∧ (jg2 = jg ∨ ∃ size, Act.objsAdd 1 size ∈ ev
              ∧ jg2 = { jg with xres := jg.xres.ObjsAdd 1 size }) := by
    intro locks hlocks hl
    unfold visitObj.locked at hl
    cases hb : visitObj.body S jg.xres.Name fuel lom (tr ++ locks) with
    | none => rw [hb] at hl; simp at hl
    | some res =>
      obtain ⟨⟨r, size⟩, tr1⟩ := res
      rw [hb] at hl
      simp only at hl
      obtain ⟨body, hbody, hrun⟩ := body_run S jg.xres.Name fuel lom (tr ++ locks) r size tr1 hb
      subst hbody
      by_cases hc : (r.copied && r.errHrw.isNone) = true
      · simp only [hc, if_true] at hl
        have hnone : r.errHrw = none := by
          simp only [Bool.and_eq_true, Option.isNone_iff_eq_none] at hc
          exact hc.2
        cases hl
        exact ⟨locks ++ body ++ [Act.unlock lom, Act.objsAdd 1 size], by simp,
          VisitRun.locked locks body _ _ hlocks hrun (Deferred.counted size hnone),
          Or.inr ⟨size, by simp, rfl⟩⟩
      · simp only [hc, Bool.false_eq_true, if_false] at hl
        cases hl
        exact ⟨locks ++ body ++ [Act.unlock lom], by simp,
          VisitRun.locked locks body _ _ hlocks hrun Deferred.unlock, Or.inl rfl⟩
  unfold visitObj at h
  simp only at h
  cases h1 : S.TryLock tr lom with
  | true =>
    rw [h1] at h
    simp only [Bool.not_true, Bool.false_eq_true, if_false] at h
    exact locked _ LockRun.first h
  | false =>
    rw [h1] at h
    simp only [Bool.not_false, if_true] at h
    cases h2 : S.TryLock (tr ++ [Act.tryLock lom false] ++ [Act.sleep Pause.halfSecond]) lom with
    | true =>
      rw [h2] at h
      simp only [Bool.not_true, Bool.false_eq_true, if_false] at h
      refine locked _ LockRun.second ?_
      simpa using h
    | false =>
      rw [h2] at h
      simp only [Bool.not_false, if_true] at h
      cases h
      exact ⟨_, by simp, VisitRun.busy, Or.inl rfl⟩

/-! ## Termination -/

/-- The copy loop returns when it has more fuel than the events the environment
may still take to settle plus the jumps back to `redo` that are left. -/
theorem fixCopies_returns (S : Sys) (xname : String) (orig : LOM) (mi0 : Mountpath)
    (isHrw0 : Bool) (mo mn : String) (N : Nat) (hN : settlesAfter S N) :
    ∀ (fuel : Nat) (st : Locals) (tr : List Act),
      (N - tr.length) + (maxRetries + 1 - st.retries) < fuel →
      ∃ res, visitObj.fixCopies S xname orig mi0 isHrw0 mo mn fuel st tr = some res := by
  intro fuel
  induction fuel with
  | zero => intro st tr h; omega
  | succ n ih =>
    intro st tr h
    unfold visitObj.fixCopies
    simp only
    generalize hans : S.ToMpath tr st.lom = ans
    obtain ⟨omi, b⟩ := ans
    cases omi with
    | none => exact ⟨_, rfl⟩
    | some mi =>
      cases b with
      | true =>
        simp only [if_true]
        by_cases hex : st.retries + 1 > maxRetries
        · simp only [hex, if_true]
          exact ⟨_, rfl⟩
        · simp only [hex, if_false]
          rcases redo_run S (tr ++ [Act.toMpath st.lom (some mi) true]
              ++ [Act.sleep Pause.halfCplaneOperation]) mi0 isHrw0 mn
              { lom := orig, hlom := none, copied := false, retries := st.retries + 1 } with
            ⟨ev, st2, hrd, hret, _⟩ | ⟨ev, r, hrd, _⟩
          · rw [hrd]
            simp only
            apply ih
            simp only at hret
            rw [hret]
            simp only [List.length_append, List.length_singleton]
            omega
          · rw [hrd]
            exact ⟨_, rfl⟩
      | false =>
        simp only [Bool.false_eq_true, if_false]
        cases hcp : S.Copy (tr ++ [Act.toMpath st.lom (some mi) false]) st.lom mi with
        | none =>
          have hlen : tr.length < N := by
            by_contra hge
            exact hN tr st.lom mi (by omega) hans hcp
          simp only
          apply ih
          simp only [List.length_append, List.length_singleton]
          omega
        | some e => exact ⟨_, rfl⟩

theorem body_returns (S : Sys) (xname : String) (orig : LOM) (tr : List Act) (N : Nat)
    (hN : settlesAfter S N) :
    ∃ res, visitObj.body S xname (N + maxRetries + 2) orig tr = some res := by
  unfold visitObj.body
  simp only
  generalize visitObj.fixECMeta S tr orig = ec
  obtain ⟨out, tr1⟩ := ec
  cases out with
  | none => exact ⟨_, rfl⟩
  | some pr =>
    obtain ⟨mo, mn⟩ := pr
    simp only
    cases hl : S.Load tr1 orig with
    | some e => exact ⟨_, rfl⟩
    | none =>
      simp only
      generalize S.ToMpath (tr1 ++ [Act.load orig none]) orig = ans
      obtain ⟨omi, b⟩ := ans
      cases omi with
      | none => exact ⟨_, rfl⟩
      | some mi =>
        simp only
        rcases redo_run S (tr1 ++ [Act.load orig none] ++ [Act.toMpath orig (some mi) b]) mi b
            mn { lom := orig, hlom := none, copied := false, retries := 0 } with
          ⟨rd, st2, hrd, hret, _⟩ | ⟨rd, r2, hrd, _⟩
        · rw [hrd]
          simp only
          obtain ⟨res, hres⟩ := fixCopies_returns S xname orig mi b mo mn N hN
            (N + maxRetries + 2) st2
            (tr1 ++ [Act.load orig none] ++ [Act.toMpath orig (some mi) b] ++ rd)
            (by simp only at hret; rw [hret]; omega)
          rw [hres]
          exact ⟨_, rfl⟩
        · rw [hrd]
          exact ⟨_, rfl⟩

/-- With enough fuel `visitObj` returns, in every environment that settles. -/
theorem visitObj_returns (S : Sys) (jg : joggerCtx) (lom : LOM) (tr : List Act) (N : Nat)
    (hN : settlesAfter S N) :
    ∃ r, visitObj S jg (N + maxRetries + 2) lom tr = some r := by
  have locked : ∀ t, ∃ r, visitObj.locked S jg (N + maxRetries + 2) lom t = some r := by
    intro t
    unfold visitObj.locked
    obtain ⟨res, hres⟩ := body_returns S jg.xres.Name lom t N hN
    obtain ⟨⟨r, size⟩, tr1⟩ := res
    rw [hres]
    simp only
    by_cases hc : (r.copied && r.errHrw.isNone) = true
    · simp only [hc, if_true]
      exact ⟨_, rfl⟩
    · simp only [hc, Bool.false_eq_true, if_false]
      exact ⟨_, rfl⟩
  unfold visitObj
  simp only
  cases h1 : S.TryLock tr lom with
  | true =>
    simp only [Bool.not_true, Bool.false_eq_true, if_false]
    exact locked _
  | false =>
    simp only [Bool.not_false, if_true]
    cases h2 : S.TryLock (tr ++ [Act.tryLock lom false] ++ [Act.sleep Pause.halfSecond]) lom with
    | true =>
      simp only [Bool.not_true, Bool.false_eq_true, if_false]
      exact locked _
    | false =>
      simp only [Bool.not_false, if_true]
      exact ⟨_, rfl⟩

theorem sysBusyOnce_settles : settlesAfter sysBusyOnce 5 := by
  intro hist l mi hl h
  have hlt : ¬ hist.length < 5 := by omega
  simp [sysBusyOnce, hlt] at h

theorem sysFlux_settles : settlesAfter sysFlux 0 := by
  intro hist l mi _ h
  simp [sysFlux] at h

theorem sysReplicaNotExist_settles : settlesAfter sysReplicaNotExist 0 := by
  intro hist l mi _ _
  simp [sysReplicaNotExist]

theorem sysECMove_settles : settlesAfter sysECMove 0 := by
  intro hist l mi _ h
  by_cases hl : hist.length < 6 <;> simp [sysECMove, hl] at h

/-! ## Facts about the trace shapes -/

theorem redoRun_acts (P : Act → Prop) (lom : LOM) (mi : Mountpath) (mn : String) (b : Bool)
    (ev : List Act) (r : Option (Option GoErr))
    (hun : P (Act.uncache lom)) (hcp : ∀ e, P (Act.copy lom mi e))
    (hin : ∀ f e, P (Act.initFQN f e)) (hld : ∀ l e, P (Act.load l e))
    (hrm : ∀ e, mn ≠ "" → P (Act.remove mn e))
    (h : RedoRun lom mi mn b ev r) : ∀ a ∈ ev, P a := by
  cases h with
  | skip => simp
  | fixed f hl => simp [hun, hcp, hin, hld]
  | failed fx e rb r hfx hrb =>
    cases hfx <;> cases hrb <;> simp [hun, hcp, hin, hld] <;> (try exact hrm _ ‹_›)

theorem loopRun_acts (P : Act → Prop) (xname : String) (orig : LOM) (mi0 : Mountpath)
    (isHrw0 : Bool) (mo mn : String)
    (htm : ∀ l m b, P (Act.toMpath l m b)) (hsl : P (Act.sleep Pause.halfCplaneOperation))
    (hun : P (Act.uncache orig)) (hcp : ∀ l m e, P (Act.copy l m e))
    (hin : ∀ f e, P (Act.initFQN f e)) (hld : ∀ l e, P (Act.load l e))
    (hrmo : ∀ e, mo ≠ "" → P (Act.remove mo e)) (hrmn : ∀ e, mn ≠ "" → P (Act.remove mn e))
    (retries : Nat) (suf : List Act) (r : Option GoErr)
    (h : LoopRun xname orig mi0 isHrw0 mo mn retries suf r) : ∀ a ∈ suf, P a := by
  induction h with
  | done retries l b tail ht =>
    cases ht with
    | nothing _ => simp [htm]
    | removed e hne => simpa [htm] using hrmo e hne
  | exceeded retries l mi hle => simp [htm]
  | redoFailed retries l mi ev r hlt hrd =>
    have := redoRun_acts P orig mi0 mn isHrw0 ev _ hun (hcp orig mi0) hin hld hrmn hrd
    intro a ha
    simp only [List.mem_cons] at ha
    rcases ha with rfl | rfl | ha
    · exact htm _ _ _
    · exact hsl
    · exact this a ha
  | redone retries l mi ev suf r hlt hrd _ ih =>
    have := redoRun_acts P orig mi0 mn isHrw0 ev _ hun (hcp orig mi0) hin hld hrmn hrd
    intro a ha
    simp only [List.mem_cons, List.mem_append] at ha
    rcases ha with rfl | rfl | ha | ha
    · exact htm _ _ _
    · exact hsl
    · exact this a ha
    · exact ih a ha
  | copied retries l mi suf r _ ih =>
    intro a ha
    simp only [List.mem_cons] at ha
    rcases ha with rfl | rfl | ha
    · exact htm _ _ _
    · exact hcp _ _ _
    · exact ih a ha
  | copyFailed retries l mi e tail ht =>
    cases ht with
    | nothing _ => simp [htm, hcp]
    | removed e2 hne => simpa [htm, hcp] using hrmo e2 hne

theorem ecRun_acts (S : Sys) (lom : LOM) (tr ev : List Act) (out : Option (String × String))
    (h : ECRun S lom tr ev out) : ∀ a ∈ ev, isMetaAct a = true := by
  cases h <;> simp [isMetaAct]

/-- The paths step 1 leaves are EC metafile paths of the object, or empty. -/
theorem ecRun_paths (S : Sys) (lom : LOM) (tr ev : List Act) (mo mn : String)
    (h : ECRun S lom tr ev (some (mo, mn))) :
    (mo = "" ∨ mo = metaFQN S lom lom.mpath) ∧ (mn = "" ∨ ∃ mp, mn = metaFQN S lom mp) := by
  cases h with
  | skip _ => simp
  | noMeta _ _ _ => simp
  | vanished _ _ _ _ _ => simp
  | copied serr mp _ => exact ⟨Or.inr rfl, Or.inr ⟨mp, rfl⟩⟩

/-- Every event of the body satisfies `P`, when `P` holds of every kind of event
the body can produce. -/
theorem bodyRun_acts (P : Act → Prop) (S : Sys) (xname : String) (orig : LOM)
    (tr ev : List Act) (r : Option GoErr)
    (hmeta : ∀ a, isMetaAct a = true → P a)
    (htm : ∀ l m b, P (Act.toMpath l m b)) (hsl : P (Act.sleep Pause.halfCplaneOperation))
    (hun : P (Act.uncache orig)) (hcp : ∀ l m e, P (Act.copy l m e))
    (hin : ∀ f e, P (Act.initFQN f e)) (hld : ∀ l e, P (Act.load l e))
    (hrm : ∀ mp e, P (Act.remove (metaFQN S orig mp) e))
    (h : BodyRun S xname orig tr ev r) : ∀ a ∈ ev, P a := by
  have hrmo : ∀ ec mo mn, ECRun S orig tr ec (some (mo, mn)) → ∀ e, mo ≠ "" → P (Act.remove mo e) := by
    intro ec mo mn hec e hne
    rcases (ecRun_paths S orig tr ec mo mn hec).1 with h | h
    · exact absurd h hne
    · rw [h]; exact hrm _ e
  have hrmn : ∀ ec mo mn, ECRun S orig tr ec (some (mo, mn)) → ∀ e, mn ≠ "" → P (Act.remove mn e) := by
    intro ec mo mn hec e hne
    rcases (ecRun_paths S orig tr ec mo mn hec).2 with h | ⟨mp, h⟩
    · exact absurd h hne
    · rw [h]; exact hrm _ e
  cases h with
  | ecFailed ev hec =>
    intro a ha
    exact hmeta a (ecRun_acts S orig tr ev _ hec a ha)
  | loadFailed ec mo mn e hec =>
    intro a ha
    simp only [List.mem_append, List.mem_singleton] at ha
    rcases ha with ha | rfl
    · exact hmeta a (ecRun_acts S orig tr ec _ hec a ha)
    · exact hld _ _
  | inPlace ec mo mn b tail hec ht =>
    intro a ha
    simp only [List.mem_append, List.mem_cons] at ha
    rcases ha with ha | rfl | rfl | ha
    · exact hmeta a (ecRun_acts S orig tr ec _ hec a ha)
    · exact hld _ _
    · exact htm _ _ _
    · cases ht with
      | nothing _ => simp at ha
      | removed e hne =>
        simp only [List.mem_singleton] at ha
        rw [ha]
        exact hrmo ec mo mn hec e hne
  | redoFailed ec mo mn mi b rd r hec hrd =>
    have := redoRun_acts P orig mi mn b rd _ hun (hcp orig mi) hin hld (hrmn ec mo mn hec) hrd
    intro a ha
    simp only [List.mem_append, List.mem_cons] at ha
    rcases ha with ha | rfl | rfl | ha
    · exact hmeta a (ecRun_acts S orig tr ec _ hec a ha)
    · exact hld _ _
    · exact htm _ _ _
    · exact this a ha
  | looped ec mo mn mi b rd suf r hec hrd hloop =>
    have h1 := redoRun_acts P orig mi mn b rd _ hun (hcp orig mi) hin hld (hrmn ec mo mn hec) hrd
    have h2 := loopRun_acts P xname orig mi b mo mn htm hsl hun hcp hin hld
      (hrmo ec mo mn hec) (hrmn ec mo mn hec) 0 suf r hloop
    intro a ha
    simp only [List.mem_append, List.mem_cons] at ha
    rcases ha with ha | rfl | rfl | ha | ha
    · exact hmeta a (ecRun_acts S orig tr ec _ hec a ha)
    · exact hld _ _
    · exact htm _ _ _
    · exact h1 a ha
    · exact h2 a ha

/-- The events of the body contain no lock attempt, no unlock and no counter update. -/
theorem bodyRun_bodyAct (S : Sys) (xname : String) (orig : LOM) (tr ev : List Act)
    (r : Option GoErr) (h : BodyRun S xname orig tr ev r) : ∀ a ∈ ev, bodyAct a = true := by
  apply bodyRun_acts (fun a => bodyAct a = true) S xname orig tr ev r _ _ _ _ _ _ _ _ h
  · intro a ha
    cases a <;> simp [isMetaAct] at ha <;> rfl
  all_goals (intros; rfl)

/-- C15: `visitObj` tries the lock once, and once more after one pause when the
first attempt found it busy; when both attempts find it busy it returns nil and has
done nothing else (no copy, no metafile move, no counter update, no unlock); when
the lock was taken, the originally visited object is unlocked exactly once, on
whatever path the function returns. With enough fuel `visitObj`
does return, in every environment that settles (`settlesAfter`). -/
theorem visitObj_lock_discipline (S : Sys) (jg : joggerCtx) (lom : LOM) (tr : List Act) :
    (∀ N, settlesAfter S N → ∃ r, visitObj S jg (N + maxRetries + 2) lom tr = some r)
    ∧ ∀ fuel err jg2 tr2, visitObj S jg fuel lom tr = some (err, jg2, tr2) →
    ∃ ev, tr2 = tr ++ ev
      ∧ (lockAttempts ev = [(lom, true)] ∨ lockAttempts ev = [(lom, false), (lom, true)]
          ∨ lockAttempts ev = [(lom, false), (lom, false)])
      ∧ ev.count (Act.sleep Pause.halfSecond) = (lockAttempts ev).length - 1
      ∧ (lockAttempts ev = [(lom, false), (lom, false)] →
          err = none ∧ jg2 = jg
            ∧ ev = [Act.tryLock lom false, Act.sleep Pause.halfSecond, Act.tryLock lom false]
            ∧ (∀ a ∈ ev, isRelocation a = false) ∧ unlocks ev = [])
      ∧ (lockAttempts ev ≠ [(lom, false), (lom, false)] → unlocks ev = [lom]) := by
  refine ⟨fun N hN => visitObj_returns S jg lom tr N hN, ?_⟩
  intro fuel err jg2 tr2 h
  obtain ⟨ev, hev, hrun, hjg⟩ := visitObj_run S jg fuel lom tr err jg2 tr2 h
  refine ⟨ev, hev, ?_⟩
  cases hrun with
  | busy =>
    rcases hjg with hjg | ⟨size, hmem, _⟩
    · simp [lockAttempts, unlocks, isRelocation, hjg, List.count_cons]
    · simp at hmem
  | locked locks body dfr err hlocks hbody hdfr =>
    have hb := bodyRun_bodyAct S _ lom _ body err hbody
    have hbl : lockAttempts body = [] := by
      unfold lockAttempts
      rw [List.filterMap_eq_nil_iff]
      intro a ha
      have := hb a ha
      cases a <;> simp [bodyAct] at this ⊢
    have hbu : unlocks body = [] := by
      unfold unlocks
      rw [List.filterMap_eq_nil_iff]
      intro a ha
      have := hb a ha
      cases a <;> simp [bodyAct] at this ⊢
    have hbs : body.count (Act.sleep Pause.halfSecond) = 0 := by
      rw [List.count_eq_zero]
      intro ha
      have := hb _ ha
      simp [bodyAct] at this
    have happ : ∀ l1 l2 : List Act, lockAttempts (l1 ++ l2) = lockAttempts l1 ++ lockAttempts l2 := by
      intro l1 l2; simp [lockAttempts]
    have happu : ∀ l1 l2 : List Act, unlocks (l1 ++ l2) = unlocks l1 ++ unlocks l2 := by
      intro l1 l2; simp [unlocks]
    have hdl : lockAttempts dfr = [] ∧ unlocks dfr = [lom]
        ∧ dfr.count (Act.sleep Pause.halfSecond) = 0 := by
      cases hdfr <;> simp [lockAttempts, unlocks, List.count_cons]
    have hL : lockAttempts (locks ++ body ++ dfr) = lockAttempts locks := by
      rw [happ, happ, hbl, hdl.1, List.append_nil, List.append_nil]
    have hU : unlocks (locks ++ body ++ dfr) = unlocks locks ++ [lom] := by
      rw [happu, happu, hbu, hdl.2.1, List.append_nil]
    have hS : (locks ++ body ++ dfr).count (Act.sleep Pause.halfSecond)
        = locks.count (Act.sleep Pause.halfSecond) := by
      rw [List.count_append, List.count_append, hbs, hdl.2.2]
      rfl
    rw [hL, hU, hS]
    cases hlocks with
    | first =>
      have e1 : lockAttempts [Act.tryLock lom true] = [(lom, true)] := rfl
      have e2 : unlocks [Act.tryLock lom true] = [] := rfl
      rw [e1, e2]
      refine ⟨Or.inl rfl, by simp [List.count_cons], ?_, fun _ => rfl⟩
      intro hc
      simp at hc
    | second =>
      have e1 : lockAttempts [Act.tryLock lom false, Act.sleep Pause.halfSecond,
          Act.tryLock lom true] = [(lom, false), (lom, true)] := rfl
      have e2 : unlocks [Act.tryLock lom false, Act.sleep Pause.halfSecond,
          Act.tryLock lom true] = [] := rfl
      rw [e1, e2]
      refine ⟨Or.inr (Or.inl rfl), by simp [List.count_cons], ?_, fun _ => rfl⟩
      intro hc
      simp at hc

theorem visitObj_lock_discipline_witness :
    (∃ r, visitObj sysBusyOnce jctx0 (5 + maxRetries + 2) lomA [] = some r)
      ∧ visitObj sysBusyOnce jctx0 5 lomA []
        = some (none, jctx0,
            [Act.tryLock lomA false, Act.sleep Pause.halfSecond, Act.tryLock lomA true,
             Act.load lomA none, Act.toMpath lomA (some mpB) false, Act.toMpath lomA none false,
             Act.unlock lomA])
      ∧ ∃ ev, [Act.tryLock lomA false, Act.sleep Pause.halfSecond, Act.tryLock lomA true,
             Act.load lomA none, Act.toMpath lomA (some mpB) false, Act.toMpath lomA none false,
             Act.unlock lomA] = [] ++ ev
          ∧ (lockAttempts ev ≠ [(lomA, false), (lomA, false)] → unlocks ev = [lomA]) :=
  ⟨(visitObj_lock_discipline sysBusyOnce jctx0 lomA []).1 5 sysBusyOnce_settles, by decide,
    ((visitObj_lock_discipline sysBusyOnce jctx0 lomA []).2 5 none jctx0 _ (by decide)).imp
      (fun _ hx => ⟨hx.1, hx.2.2.2.2⟩)⟩

/-- C16: `RunResilver` persists the marker before anything else, and renews the
xaction and runs the joggers only after the marker was written (when writing it
fails nothing else happens); `Res.wait` removes the marker exactly when it receives
the finished event; a run that ends through the abort branch leaves the marker in
place. For every run of `RunResilver`: its first event is the marker persist; it
removes the marker exactly when the marker was written, there is a mountpath and
the finished event is received; on the early return for want of mountpaths the
written marker stays; and a marker that is gone after the run was either never
there or removed on the finished event. -/
theorem resilver_marker_lifecycle (s : ResState) (env : RunEnv) (ev : WaitEvent)
    (rmErr : Option GoErr) (c : Option GoErr) :
    ((env.persistFatalErr ≠ none ∨ env.persistWriteErr ≠ none) →
        (Res.RunResilver s env).log = s.log ++ [ResEvent.persistMarker false])
      ∧ ((Res.wait s ev rmErr).1.log = s.log ++ [ResEvent.removeMarker rmErr]
          ↔ ev = WaitEvent.finished)
      ∧ (Res.wait s WaitEvent.finished none).1.marker = false
      ∧ ((Res.wait s (WaitEvent.abort c) rmErr).1.marker = s.marker
          ∧ (Res.wait s (WaitEvent.abort c) rmErr).1.log = s.log ++ [ResEvent.jgStop])
      ∧ (env.persistFatalErr = none → env.persistWriteErr = none → 1 ≤ env.availablePaths →
          (∃ rest, (Res.RunResilver s env).log
              = s.log ++ ResEvent.persistMarker true :: ResEvent.renewResilver
                  :: ResEvent.jgRun :: rest)
          ∧ (env.ev = WaitEvent.abort c →
              (Res.RunResilver s env).marker = true
                ∧ ∀ e, ResEvent.removeMarker e ∉ (Res.RunResilver s env).log.drop s.log.length)
          ∧ (env.ev = WaitEvent.finished →
              ResEvent.removeMarker env.rmErr ∈ (Res.RunResilver s env).log.drop s.log.length
                ∧ (env.rmErr = none → (Res.RunResilver s env).marker = false)))
      ∧ (env.persistFatalErr = none → env.persistWriteErr = none → env.availablePaths < 1 →
          (Res.RunResilver s env).log = s.log ++ [ResEvent.persistMarker true]
            ∧ (Res.RunResilver s env).marker = true)
      ∧ (∀ e, ResEvent.removeMarker e ∈ (Res.RunResilver s env).log.drop s.log.length ↔
          (env.persistFatalErr = none ∧ env.persistWriteErr = none ∧ 1 ≤ env.availablePaths
            ∧ env.ev = WaitEvent.finished ∧ e = env.rmErr))
      ∧ (∃ ok rest, (Res.RunResilver s env).log = s.log ++ ResEvent.persistMarker ok :: rest
          ∧ ((ResEvent.renewResilver ∈ rest ∨ ResEvent.jgRun ∈ rest) → ok = true))
      ∧ ((Res.RunResilver s env).marker = false →
          (s.marker = false ∧ (env.persistFatalErr ≠ none ∨ env.persistWriteErr ≠ none))
            ∨ (env.persistFatalErr = none ∧ env.persistWriteErr = none
                ∧ 1 ≤ env.availablePaths ∧ env.ev = WaitEvent.finished ∧ env.rmErr = none)) := by
  refine ⟨?_, ?_, rfl, ⟨rfl, rfl⟩, ?_, ?_, ?_, ?_, ?_⟩
  · intro h
    have : (env.persistFatalErr.isSome || env.persistWriteErr.isSome) = true := by
      rcases h with h | h
      · cases hf : env.persistFatalErr with
        | none => exact absurd hf h
        | some _ => simp
      · cases hw : env.persistWriteErr with
        | none => exact absurd hw h
        | some _ => simp
    simp [Res.RunResilver, this, Res._end, Res._begin]
  · cases ev with
    | abort c2 => simp [Res.wait, Jgroup.Stop]
    | finished => simp [Res.wait]
  · intro hfatal hwrite hpaths
    have hp : ¬ env.availablePaths < 1 := by omega
    refine ⟨?_, ?_, ?_⟩
    · cases hev : env.ev <;> cases hdd : env.hasPostDD <;>
        simp [Res.RunResilver, hfatal, hwrite, hp, hev, hdd, Res.wait, Jgroup.Stop, Res._end,
          Res._begin]
    · intro hev
      cases hdd : env.hasPostDD <;>
        simp [Res.RunResilver, hfatal, hwrite, hp, hev, hdd, Res.wait, Jgroup.Stop, Res._end,
          Res._begin]
    · intro hev
      cases hdd : env.hasPostDD <;> cases hrm : env.rmErr <;>
        simp [Res.RunResilver, hfatal, hwrite, hp, hev, hdd, hrm, Res.wait, Res._end,
          Res._begin]
  · intro hfatal hwrite hpaths
    simp [Res.RunResilver, hfatal, hwrite, hpaths, Res._end, Res._begin]
  · intro e
    cases hfatal : env.persistFatalErr with
    | some x => simp [Res.RunResilver, hfatal, Res._end, Res._begin]
    | none =>
      cases hwrite : env.persistWriteErr with
      | some x => simp [Res.RunResilver, hfatal, hwrite, Res._end, Res._begin]
      | none =>
        by_cases hpaths : env.availablePaths < 1
        · have hp2 : ¬ 1 ≤ env.availablePaths := by omega
          simp [Res.RunResilver, hfatal, hwrite, hpaths, hp2, Res._end, Res._begin]
        · have hp2 : 1 ≤ env.availablePaths := by omega
          cases hev : env.ev <;> cases hdd : env.hasPostDD <;>
            simp [Res.RunResilver, hfatal, hwrite, hpaths, hp2, hev, hdd, Res.wait,
              Jgroup.Stop, Res._end, Res._begin]
  · cases hfatal : env.persistFatalErr with
    | some x =>
      exact ⟨false, [], by simp [Res.RunResilver, hfatal, Res._end, Res._begin], by simp⟩
    | none =>
      cases hwrite : env.persistWriteErr with
      | some x =>
        exact ⟨false, [], by simp [Res.RunResilver, hfatal, hwrite, Res._end, Res._begin],
          by simp⟩
      | none =>
        by_cases hpaths : env.availablePaths < 1
        · exact ⟨true, [], by simp [Res.RunResilver, hfatal, hwrite, hpaths, Res._end,
            Res._begin], by simp⟩
        · refine ⟨true, ((Res.RunResilver s env).log.drop (s.log.length + 1)), ?_,
            fun _ => rfl⟩
          cases hev : env.ev <;> cases hdd : env.hasPostDD <;>
            simp [Res.RunResilver, hfatal, hwrite, hpaths, hev, hdd, Res.wait,
              Jgroup.Stop, Res._end, Res._begin]
  · intro hm
    cases hfatal : env.persistFatalErr with
    | some x =>
      left
      simpa [Res.RunResilver, hfatal, Res._end, Res._begin] using hm
    | none =>
      cases hwrite : env.persistWriteErr with
      | some x =>
        left
        simpa [Res.RunResilver, hfatal, hwrite, Res._end, Res._begin] using hm
      | none =>
        right
        by_cases hpaths : env.availablePaths < 1
        · simp [Res.RunResilver, hfatal, hwrite, hpaths, Res._end, Res._begin] at hm
        · have hp2 : 1 ≤ env.availablePaths := by omega
          cases hev : env.ev with
          | abort c2 =>
            cases hdd : env.hasPostDD <;>
              simp [Res.RunResilver, hfatal, hwrite, hpaths, hev, hdd, Res.wait,
                Jgroup.Stop, Res._end, Res._begin] at hm
          | finished =>
            cases hrm : env.rmErr with
            | none => exact ⟨rfl, rfl, hp2, rfl, rfl⟩
            | some x =>
              cases hdd : env.hasPostDD <;>
                simp [Res.RunResilver, hfatal, hwrite, hpaths, hev, hdd, hrm, Res.wait,
                  Res._end, Res._begin] at hm

theorem resilver_marker_lifecycle_witness :
    ((envAborted (some (GoErr.other "user")) none).persistFatalErr = none
        ∧ (envAborted (some (GoErr.other "user")) none).persistWriteErr = none
        ∧ 1 ≤ (envAborted (some (GoErr.other "user")) none).availablePaths
        ∧ (envAborted (some (GoErr.other "user")) none).ev
            = WaitEvent.abort (some (GoErr.other "user")))
      ∧ (Res.RunResilver resState0 (envAborted (some (GoErr.other "user")) none)).marker = true
      ∧ (envNoMountpaths.persistFatalErr = none ∧ envNoMountpaths.persistWriteErr = none
          ∧ envNoMountpaths.availablePaths < 1)
      ∧ ((Res.RunResilver resState0 envNoMountpaths).log
            = resState0.log ++ [ResEvent.persistMarker true]
          ∧ (Res.RunResilver resState0 envNoMountpaths).marker = true) :=
  ⟨by decide,
    (((resilver_marker_lifecycle resState0 (envAborted (some (GoErr.other "user")) none)
        WaitEvent.finished none (some (GoErr.other "user"))).2.2.2.2.1
        (by decide) (by decide) (by decide)).2.1 rfl).1,
    by decide,
    (resilver_marker_lifecycle resState0 envNoMountpaths WaitEvent.finished none
        none).2.2.2.2.2.1 rfl rfl (by decide)⟩

/-! ## Splitting a history at an event -/

theorem cons_split {a x : Act} {suf pre post : List Act} (h : a :: suf = pre ++ x :: post) :
    (pre = [] ∧ a = x ∧ suf = post) ∨ ∃ pre2, pre = a :: pre2 ∧ suf = pre2 ++ x :: post := by
  cases pre with
  | nil =>
    left
    simp only [List.nil_append, List.cons.injEq] at h
    exact ⟨rfl, h.1, h.2⟩
  | cons p pre2 =>
    right
    simp only [List.cons_append, List.cons.injEq] at h
    exact ⟨pre2, by rw [h.1], h.2⟩

theorem append_split {A B pre post : List Act} {x : Act} (h : A ++ B = pre ++ x :: post) :
    (∃ c, A = pre ++ x :: c ∧ post = c ++ B) ∨ ∃ pre2, pre = A ++ pre2 ∧ B = pre2 ++ x :: post := by
  induction A generalizing pre with
  | nil => right; exact ⟨pre, by simp, by simpa using h⟩
  | cons a A ih =>
    rw [List.cons_append] at h
    rcases cons_split h with ⟨hp, hax, hrest⟩ | ⟨pre2, hp, hrest⟩
    · left
      exact ⟨A, by simp [hp, hax], hrest.symm⟩
    · rcases ih hrest with ⟨c, hA, hpost⟩ | ⟨pre3, hp3, hB⟩
      · left
        exact ⟨c, by simp [hp, hA], hpost⟩
      · right
        exact ⟨pre3, by simp [hp, hp3], hB⟩

theorem split_not_mem {A B pre post : List Act} {x : Act} (hx : x ∉ A)
    (h : A ++ B = pre ++ x :: post) : ∃ pre2, pre = A ++ pre2 ∧ B = pre2 ++ x :: post := by
  rcases append_split h with ⟨c, hA, _⟩ | h2
  · exact absurd (by rw [hA]; simp) hx
  · exact h2

/-! ## The bound on the jumps back to `redo` -/

theorem redoRun_no_jump (lom : LOM) (mi : Mountpath) (mn : String) (b : Bool) (ev : List Act)
    (r : Option (Option GoErr)) (h : RedoRun lom mi mn b ev r) : redoJumps ev = 0 := by
  unfold redoJumps
  rw [List.count_eq_zero]
  intro hm
  have := redoRun_acts (fun a => a ≠ Act.sleep Pause.halfCplaneOperation) lom mi mn b ev r
    (by simp) (by simp) (by simp) (by simp) (by simp) h _ hm
  exact this rfl

theorem redoRun_no_toMpath (lom : LOM) (mi : Mountpath) (mn : String) (b : Bool) (ev : List Act)
    (r : Option (Option GoErr)) (h : RedoRun lom mi mn b ev r) (l : LOM) (m : Option Mountpath)
    (b2 : Bool) : Act.toMpath l m b2 ∉ ev := by
  intro hm
  have := redoRun_acts (fun a => ∀ l m b2, a ≠ Act.toMpath l m b2) lom mi mn b ev r
    (by simp) (by simp) (by simp) (by simp) (by simp) h _ hm
  exact this l m b2 rfl

theorem redoJumps_cons (a : Act) (l : List Act) :
    redoJumps (a :: l)
      = redoJumps l + (if a = Act.sleep Pause.halfCplaneOperation then 1 else 0) := by
  unfold redoJumps
  rw [List.count_cons]
  by_cases h : a = Act.sleep Pause.halfCplaneOperation <;> simp [h]

theorem redoJumps_append (l1 l2 : List Act) :
    redoJumps (l1 ++ l2) = redoJumps l1 + redoJumps l2 := by
  unfold redoJumps
  rw [List.count_append]

theorem loopRun_jumps (xname : String) (orig : LOM) (mi0 : Mountpath) (isHrw0 : Bool)
    (mo mn : String) (retries : Nat) (suf : List Act) (r : Option GoErr)
    (h : LoopRun xname orig mi0 isHrw0 mo mn retries suf r) :
    retries ≤ maxRetries → redoJumps suf + retries ≤ maxRetries := by
  induction h with
  | done retries l b tail ht =>
    intro hle
    cases ht <;> simp [redoJumps_cons, redoJumps] <;> exact hle
  | exceeded retries l mi hge =>
    intro hle
    simp [redoJumps_cons, redoJumps]
    exact hle
  | redoFailed retries l mi ev r hlt hrd =>
    intro _
    have := redoRun_no_jump _ _ _ _ _ _ hrd
    simp only [redoJumps_cons, this]
    simp
    omega
  | redone retries l mi ev suf r hlt hrd _ ih =>
    intro _
    have h0 := redoRun_no_jump _ _ _ _ _ _ hrd
    have := ih (by omega)
    simp only [redoJumps_cons, redoJumps_append, h0]
    simp
    omega
  | copied retries l mi suf r _ ih =>
    intro hle
    have := ih hle
    simp only [redoJumps_cons]
    simp
    exact this
  | copyFailed retries l mi e tail ht =>
    intro hle
    cases ht <;> simp [redoJumps_cons, redoJumps] <;> exact hle

/-- In the copy loop, a detection that follows `maxRetries` jumps ends the loop with
the error, and nothing comes after it. -/
theorem loopRun_fourth (xname : String) (orig : LOM) (mi0 : Mountpath) (isHrw0 : Bool)
    (mo mn : String) (retries : Nat) (suf : List Act) (r : Option GoErr)
    (h : LoopRun xname orig mi0 isHrw0 mo mn retries suf r) :
    ∀ pre l mi post, suf = pre ++ Act.toMpath l (some mi) true :: post →
      redoJumps pre + retries = maxRetries →
      post = [] ∧ r = some (errKeepChanging xname orig mi) := by
  induction h with
  | done retries l b tail ht =>
    intro pre l2 mi post hs _
    rcases cons_split hs with ⟨_, hx, _⟩ | ⟨pre2, _, hrest⟩
    · cases hx
    · cases ht with
      | nothing _ => simp at hrest
      | removed e _ =>
        rcases cons_split hrest with ⟨_, hx, _⟩ | ⟨pre3, _, hrest2⟩
        · cases hx
        · simp at hrest2
  | exceeded retries l mi hge =>
    intro pre l2 mi2 post hs _
    rcases cons_split hs with ⟨_, hx, hp⟩ | ⟨pre2, _, hrest⟩
    · cases hx
      exact ⟨hp.symm, rfl⟩
    · simp at hrest
  | redoFailed retries l mi ev r hlt hrd =>
    intro pre l2 mi2 post hs hj
    rcases cons_split hs with ⟨hp, _, _⟩ | ⟨pre2, hp, hrest⟩
    · rw [hp] at hj
      simp [redoJumps] at hj
      omega
    · rcases cons_split hrest with ⟨_, hx, _⟩ | ⟨pre3, _, hrest2⟩
      · cases hx
      · exact absurd (by rw [hrest2]; simp) (redoRun_no_toMpath _ _ _ _ _ _ hrd l2 (some mi2) true)
  | redone retries l mi ev suf r hlt hrd _ ih =>
    intro pre l2 mi2 post hs hj
    rcases cons_split hs with ⟨hp, _, _⟩ | ⟨pre2, hp, hrest⟩
    · rw [hp] at hj
      simp [redoJumps] at hj
      omega
    · rcases cons_split hrest with ⟨_, hx, _⟩ | ⟨pre3, hp3, hrest2⟩
      · cases hx
      · rcases split_not_mem (redoRun_no_toMpath _ _ _ _ _ _ hrd l2 (some mi2) true) hrest2 with
          ⟨pre4, hp4, hsuf⟩
        apply ih pre4 l2 mi2 post hsuf
        have h0 := redoRun_no_jump _ _ _ _ _ _ hrd
        rw [hp, hp3, hp4] at hj
        simp only [redoJumps_cons, redoJumps_append, h0] at hj
        simp at hj
        omega
  | copied retries l mi suf r _ ih =>
    intro pre l2 mi2 post hs hj
    rcases cons_split hs with ⟨_, hx, _⟩ | ⟨pre2, hp, hrest⟩
    · cases hx
    · rcases cons_split hrest with ⟨_, hx, _⟩ | ⟨pre3, hp3, hrest2⟩
      · cases hx
      · apply ih pre3 l2 mi2 post hrest2
        rw [hp, hp3] at hj
        simp only [redoJumps_cons] at hj
        simp at hj
        exact hj
  | copyFailed retries l mi e tail ht =>
    intro pre l2 mi2 post hs _
    rcases cons_split hs with ⟨_, hx, _⟩ | ⟨pre2, _, hrest⟩
    · cases hx
    · rcases cons_split hrest with ⟨_, hx, _⟩ | ⟨pre3, _, hrest2⟩
      · cases hx
      · cases ht with
        | nothing _ => simp at hrest2
        | removed e2 _ =>
          rcases cons_split hrest2 with ⟨_, hx, _⟩ | ⟨pre4, _, hrest3⟩
          · cases hx
          · simp at hrest3

theorem redoJumps_prefix_le {ev pre post : List Act} {x : Act} (h : ev = pre ++ x :: post) :
    redoJumps pre ≤ redoJumps ev := by
  rw [h, redoJumps_append]
  omega

theorem split_after_quiet {A B pre post : List Act} {x : Act} (hA : redoJumps A = 0)
    (h : A ++ B = pre ++ x :: post) (hj : 0 < redoJumps pre) :
    ∃ pre2, pre = A ++ pre2 ∧ B = pre2 ++ x :: post := by
  rcases append_split h with ⟨c, hA2, _⟩ | h2
  · have := redoJumps_prefix_le hA2
    omega
  · exact h2

theorem ecRun_no_jump (S : Sys) (lom : LOM) (tr ev : List Act) (out : Option (String × String))
    (h : ECRun S lom tr ev out) : redoJumps ev = 0 := by
  cases h <;> simp [redoJumps]

theorem retTail_no_jump (mo : String) (tail : List Act) (h : RetTail mo tail) :
    redoJumps tail = 0 := by
  cases h <;> simp [redoJumps]

theorem maxRetries_pos : 0 < maxRetries := by decide

theorem bodyRun_jumps (S : Sys) (xname : String) (orig : LOM) (tr ev : List Act)
    (r : Option GoErr) (h : BodyRun S xname orig tr ev r) : redoJumps ev ≤ maxRetries := by
  cases h with
  | ecFailed ev hec => rw [ecRun_no_jump S orig tr ev _ hec]; omega
  | loadFailed ec mo mn e hec =>
    rw [redoJumps_append, ecRun_no_jump S orig tr ec _ hec]
    simp [redoJumps]
  | inPlace ec mo mn b tail hec ht =>
    rw [redoJumps_append, ecRun_no_jump S orig tr ec _ hec, redoJumps_cons, redoJumps_cons,
      retTail_no_jump mo tail ht]
    simp
  | redoFailed ec mo mn mi b rd r hec hrd =>
    rw [redoJumps_append, ecRun_no_jump S orig tr ec _ hec, redoJumps_cons, redoJumps_cons,
      redoRun_no_jump _ _ _ _ _ _ hrd]
    simp
  | looped ec mo mn mi b rd suf r hec hrd hloop =>
    have := loopRun_jumps xname orig mi b mo mn 0 suf r hloop (by omega)
    rw [redoJumps_append, ecRun_no_jump S orig tr ec _ hec, redoJumps_cons, redoJumps_cons,
      redoJumps_append, redoRun_no_jump _ _ _ _ _ _ hrd]
    simp
    omega

theorem bodyRun_fourth (S : Sys) (xname : String) (orig : LOM) (tr ev : List Act)
    (r : Option GoErr) (h : BodyRun S xname orig tr ev r) :
    ∀ pre l mi post, ev = pre ++ Act.toMpath l (some mi) true :: post →
      redoJumps pre = maxRetries →
      post = [] ∧ r = some (errKeepChanging xname orig mi) := by
  intro pre l mi post hs hj
  have hpos : 0 < redoJumps pre := by have := maxRetries_pos; omega
  have quiet : ∀ ev2 : List Act, redoJumps ev2 = 0 → ev2 = pre ++ Act.toMpath l (some mi) true :: post
      → False := by
    intro ev2 h0 h2
    have := redoJumps_prefix_le h2
    omega
  cases h with
  | ecFailed ev hec => exact absurd hs (fun h2 => quiet _ (ecRun_no_jump S orig tr ev _ hec) h2)
  | loadFailed ec mo mn e hec =>
    exfalso
    refine quiet _ ?_ hs
    rw [redoJumps_append, ecRun_no_jump S orig tr ec _ hec]
    simp [redoJumps]
  | inPlace ec mo mn b tail hec ht =>
    exfalso
    refine quiet _ ?_ hs
    rw [redoJumps_append, ecRun_no_jump S orig tr ec _ hec, redoJumps_cons, redoJumps_cons,
      retTail_no_jump mo tail ht]
    simp
  | redoFailed ec mo mn mi2 b rd r hec hrd =>
    exfalso
    refine quiet _ ?_ hs
    rw [redoJumps_append, ecRun_no_jump S orig tr ec _ hec, redoJumps_cons, redoJumps_cons,
      redoRun_no_jump _ _ _ _ _ _ hrd]
    simp
  | looped ec mo mn mi2 b rd suf r hec hrd hloop =>
    have hA : redoJumps (ec ++ Act.load orig none :: Act.toMpath orig (some mi2) b :: rd) = 0 := by
      rw [redoJumps_append, ecRun_no_jump S orig tr ec _ hec, redoJumps_cons, redoJumps_cons,
        redoRun_no_jump _ _ _ _ _ _ hrd]
      simp
    have hs2 : (ec ++ Act.load orig none :: Act.toMpath orig (some mi2) b :: rd) ++ suf
        = pre ++ Act.toMpath l (some mi) true :: post := by
      rw [← hs]; simp
    obtain ⟨pre2, hp2, hsuf⟩ := split_after_quiet hA hs2 hpos
    apply loopRun_fourth xname orig mi2 b mo mn 0 suf r hloop pre2 l mi post hsuf
    rw [hp2, redoJumps_append, hA] at hj
    omega

/-- C12: the fix-up is bounded: `visitObj` jumps back to `redo` at most
`maxRetries = 3` times, whatever the placement oracle and the copies answer; a
detection by the copy loop that follows three jumps (the fourth) is followed by
nothing but the deferred unlock, so no further copy is made, and `visitObj` returns
the error "hrw mountpaths keep changing". With enough fuel `visitObj`
does return, in every environment that settles (`settlesAfter`). -/
theorem visitObj_redo_bounded (S : Sys) (jg : joggerCtx) (lom : LOM) (tr : List Act) :
    (∀ N, settlesAfter S N → ∃ r, visitObj S jg (N + maxRetries + 2) lom tr = some r)
    ∧ ∀ fuel err jg2 tr2, visitObj S jg fuel lom tr = some (err, jg2, tr2) →
    ∃ ev, tr2 = tr ++ ev ∧ maxRetries = 3 ∧ redoJumps ev ≤ maxRetries
      ∧ ∀ pre l mi post, ev = pre ++ Act.toMpath l (some mi) true :: post →
          redoJumps pre = maxRetries →
          post = [Act.unlock lom] ∧ err = some (errKeepChanging jg.xres.Name lom mi)
            ∧ err ≠ none := by
  refine ⟨fun N hN => visitObj_returns S jg lom tr N hN, ?_⟩
  intro fuel err jg2 tr2 h
  obtain ⟨ev, hev, hrun, _⟩ := visitObj_run S jg fuel lom tr err jg2 tr2 h
  refine ⟨ev, hev, rfl, ?_, ?_⟩
  · cases hrun with
    | busy => simp [redoJumps]
    | locked locks body dfr err hlocks hbody hdfr =>
      have hb := bodyRun_jumps S _ lom _ body err hbody
      have hl : redoJumps locks = 0 := by cases hlocks <;> simp [redoJumps]
      have hd : redoJumps dfr = 0 := by cases hdfr <;> simp [redoJumps]
      rw [redoJumps_append, redoJumps_append, hl, hd]
      omega
  · intro pre l mi post hs hj
    have hpos : 0 < redoJumps pre := by have := maxRetries_pos; omega
    cases hrun with
    | busy =>
      have := redoJumps_prefix_le hs
      have h0 : redoJumps [Act.tryLock lom false, Act.sleep Pause.halfSecond,
          Act.tryLock lom false] = 0 := by simp [redoJumps]
      omega
    | locked locks body dfr err hlocks hbody hdfr =>
      have hl : redoJumps locks = 0 := by cases hlocks <;> simp [redoJumps]
      have hs2 : locks ++ (body ++ dfr) = pre ++ Act.toMpath l (some mi) true :: post := by
        rw [← hs]; simp
      obtain ⟨pre2, hp2, hbd⟩ := split_after_quiet hl hs2 hpos
      have hj2 : redoJumps pre2 = maxRetries := by
        rw [hp2, redoJumps_append, hl] at hj
        omega
      rcases append_split hbd with ⟨c, hbody2, hpost⟩ | ⟨pre3, _, hdfr2⟩
      · obtain ⟨hc, herr⟩ := bodyRun_fourth S _ lom _ body err hbody pre2 l mi c hbody2 hj2
        subst hc
        subst herr
        cases hdfr with
        | unlock => exact ⟨by simpa using hpost, rfl, by simp⟩
        | counted size hnone => cases hnone
      · exfalso
        cases hdfr with
        | unlock =>
          rcases cons_split hdfr2 with ⟨_, hx, _⟩ | ⟨_, _, hrest⟩
          · cases hx
          · simp at hrest
        | counted size _ =>
          rcases cons_split hdfr2 with ⟨_, hx, _⟩ | ⟨_, _, hrest⟩
          · cases hx
          · rcases cons_split hrest with ⟨_, hx, _⟩ | ⟨_, _, hrest2⟩
            · cases hx
            · simp at hrest2

theorem visitObj_redo_bounded_witness :
    (∃ r, visitObj sysFlux jctx0 (0 + maxRetries + 2) lomA [] = some r)
      ∧ ∃ err jg2 tr2, visitObj sysFlux jctx0 8 lomA [] = some (err, jg2, tr2)
      ∧ ∃ ev, tr2 = [] ++ ev ∧ redoJumps ev ≤ maxRetries :=
  ⟨(visitObj_redo_bounded sysFlux jctx0 lomA []).1 0 sysFlux_settles, _, _, _, rfl,
    ((visitObj_redo_bounded sysFlux jctx0 lomA []).2 8 _ _ _ rfl).imp
      (fun _ hx => ⟨hx.1, hx.2.2.1⟩)⟩

/-! ## Failed copies -/

theorem loopRun_head (xname : String) (orig : LOM) (mi0 : Mountpath) (isHrw0 : Bool)
    (mo mn : String) (retries : Nat) (suf : List Act) (r : Option GoErr)
    (h : LoopRun xname orig mi0 isHrw0 mo mn retries suf r) :
    ∃ l m b rest, suf = Act.toMpath l m b :: rest := by
  cases h with
  | done _ l b tail _ => exact ⟨l, none, b, tail, rfl⟩
  | exceeded _ l mi _ => exact ⟨l, some mi, true, [], rfl⟩
  | redoFailed _ l mi ev _ _ _ => exact ⟨l, some mi, true, _, rfl⟩
  | redone _ l mi ev suf _ _ _ _ => exact ⟨l, some mi, true, _, rfl⟩
  | copied _ l mi suf _ _ => exact ⟨l, some mi, false, _, rfl⟩
  | copyFailed _ l mi e tail _ => exact ⟨l, some mi, false, _, rfl⟩

theorem ecRun_no_toMpath (S : Sys) (lom : LOM) (tr ev : List Act)
    (out : Option (String × String)) (h : ECRun S lom tr ev out) (l : LOM)
    (m : Option Mountpath) (b : Bool) : Act.toMpath l m b ∉ ev := by
  intro hm
  have := ecRun_acts S lom tr ev out h _ hm
  simp [isMetaAct] at this

/-- In the copy loop, a failed replica copy makes `visitObj` return nil. -/
theorem loopRun_replica_fail (xname : String) (orig : LOM) (mi0 : Mountpath) (isHrw0 : Bool)
    (mo mn : String) (retries : Nat) (suf : List Act) (r : Option GoErr)
    (h : LoopRun xname orig mi0 isHrw0 mo mn retries suf r) :
    ∀ pre l mi e post,
      suf = pre ++ Act.toMpath l (some mi) false :: Act.copy l mi (some e) :: post →
      r = none := by
  induction h with
  | done retries l b tail ht => intros; rfl
  | exceeded retries l mi hge =>
    intro pre l2 mi2 e post hs
    rcases cons_split hs with ⟨_, hx, _⟩ | ⟨pre2, _, hrest⟩
    · cases hx
    · simp at hrest
  | redoFailed retries l mi ev r hlt hrd =>
    intro pre l2 mi2 e post hs
    rcases cons_split hs with ⟨_, hx, _⟩ | ⟨pre2, _, hrest⟩
    · cases hx
    · rcases cons_split hrest with ⟨_, hx, _⟩ | ⟨pre3, _, hrest2⟩
      · cases hx
      · exact absurd (by rw [hrest2]; simp) (redoRun_no_toMpath _ _ _ _ _ _ hrd l2 (some mi2) false)
  | redone retries l mi ev suf r hlt hrd _ ih =>
    intro pre l2 mi2 e post hs
    rcases cons_split hs with ⟨_, hx, _⟩ | ⟨pre2, _, hrest⟩
    · cases hx
    · rcases cons_split hrest with ⟨_, hx, _⟩ | ⟨pre3, _, hrest2⟩
      · cases hx
      · rcases split_not_mem (redoRun_no_toMpath _ _ _ _ _ _ hrd l2 (some mi2) false) hrest2 with
          ⟨pre4, _, hsuf⟩
        exact ih pre4 l2 mi2 e post hsuf
  | copied retries l mi suf r _ ih =>
    intro pre l2 mi2 e post hs
    rcases cons_split hs with ⟨_, _, hrest⟩ | ⟨pre2, _, hrest⟩
    · simp at hrest
    · rcases cons_split hrest with ⟨_, hx, _⟩ | ⟨pre3, _, hrest2⟩
      · cases hx
      · exact ih pre3 l2 mi2 e post hrest2
  | copyFailed retries l mi e tail ht => intros; rfl

theorem bodyRun_replica_fail (S : Sys) (xname : String) (orig : LOM) (tr ev : List Act)
    (r : Option GoErr) (h : BodyRun S xname orig tr ev r) :
    ∀ pre l mi e post,
      ev = pre ++ Act.toMpath l (some mi) false :: Act.copy l mi (some e) :: post →
      r = none := by
  intro pre l mi e post hs
  cases h with
  | ecFailed ev hec => rfl
  | loadFailed ec mo mn e2 hec => rfl
  | inPlace ec mo mn b tail hec ht => rfl
  | redoFailed ec mo mn mi2 b rd r hec hrd =>
    exfalso
    obtain ⟨pre2, _, h2⟩ := split_not_mem (ecRun_no_toMpath S orig tr ec _ hec l (some mi) false) hs
    rcases cons_split h2 with ⟨_, hx, _⟩ | ⟨pre3, _, h3⟩
    · cases hx
    · rcases cons_split h3 with ⟨_, hx, hrest⟩ | ⟨pre4, _, h4⟩
      · cases hx
        cases hrd
      · exact absurd (by rw [h4]; simp) (redoRun_no_toMpath _ _ _ _ _ _ hrd l (some mi) false)
  | looped ec mo mn mi2 b rd suf r hec hrd hloop =>
    obtain ⟨pre2, _, h2⟩ := split_not_mem (ecRun_no_toMpath S orig tr ec _ hec l (some mi) false) hs
    rcases cons_split h2 with ⟨_, hx, _⟩ | ⟨pre3, _, h3⟩
    · cases hx
    · rcases cons_split h3 with ⟨_, hx, hrest⟩ | ⟨pre4, _, h4⟩
      · exfalso
        cases hx
        cases hrd
        obtain ⟨l3, m3, b3, rest, hhead⟩ := loopRun_head _ _ _ _ _ _ _ _ _ hloop
        rw [hhead] at hrest
        simp at hrest
      · rcases split_not_mem (redoRun_no_toMpath _ _ _ _ _ _ hrd l (some mi) false) h4 with
          ⟨pre5, _, hsuf⟩
        exact loopRun_replica_fail _ _ _ _ _ _ _ _ _ hloop pre5 l mi e post hsuf

/-- A pass through `redo` without a copied metafile: when the copy inside `fixHrw`
fails, the pass returns that error and nothing follows. -/
theorem redoRun_hrw_fail (lom : LOM) (mi : Mountpath) (b : Bool) (ev : List Act)
    (out : Option (Option GoErr)) (h : RedoRun lom mi "" b ev out) :
    ∀ pre l2 mi2 e post,
      ev = pre ++ Act.uncache l2 :: Act.copy l2 mi2 (some e) :: post →
      out = some (some e) ∧ post = [] := by
  intro pre l2 mi2 e post hs
  cases h with
  | skip => simp at hs
  | fixed f hl =>
    exfalso
    rcases cons_split hs with ⟨_, _, hrest⟩ | ⟨pre2, _, hrest⟩
    · simp at hrest
    · rcases cons_split hrest with ⟨_, hx, _⟩ | ⟨pre3, _, h3⟩
      · cases hx
      · rcases cons_split h3 with ⟨_, hx, _⟩ | ⟨pre4, _, h4⟩
        · cases hx
        · rcases cons_split h4 with ⟨_, hx, _⟩ | ⟨pre5, _, h5⟩
          · cases hx
          · simp at h5
  | failed fx e2 rb r hfx hrb =>
    cases hrb with
    | removed rerr hne => exact absurd rfl hne
    | plain _ =>
      simp only [List.append_nil] at hs
      rcases cons_split hs with ⟨_, _, hrest⟩ | ⟨pre2, _, hrest⟩
      · cases hfx with
        | copy e3 =>
          simp only [List.cons.injEq, Act.copy.injEq, Option.some.injEq] at hrest
          obtain ⟨⟨_, _, he⟩, hp⟩ := hrest
          subst he
          exact ⟨rfl, hp.symm⟩
        | init f e3 => simp at hrest
        | load f hl e3 => simp at hrest
      · exfalso
        cases hfx with
        | copy e3 =>
          rcases cons_split hrest with ⟨_, hx, _⟩ | ⟨pre3, _, h3⟩
          · cases hx
          · simp at h3
        | init f e3 =>
          rcases cons_split hrest with ⟨_, hx, _⟩ | ⟨pre3, _, h3⟩
          · cases hx
          · rcases cons_split h3 with ⟨_, hx, _⟩ | ⟨pre4, _, h4⟩
            · cases hx
            · simp at h4
        | load f hl e3 =>
          rcases cons_split hrest with ⟨_, hx, _⟩ | ⟨pre3, _, h3⟩
          · cases hx
          · rcases cons_split h3 with ⟨_, hx, _⟩ | ⟨pre4, _, h4⟩
            · cases hx
            · rcases cons_split h4 with ⟨_, hx, _⟩ | ⟨pre5, _, h5⟩
              · cases hx
              · simp at h5

theorem retTail_no_uncache (mo : String) (tail : List Act) (h : RetTail mo tail) (l : LOM) :
    Act.uncache l ∉ tail := by
  cases h <;> simp

theorem loopRun_hrw_fail (xname : String) (orig : LOM) (mi0 : Mountpath) (isHrw0 : Bool)
    (mo : String) (retries : Nat) (suf : List Act) (r : Option GoErr)
    (h : LoopRun xname orig mi0 isHrw0 mo "" retries suf r) :
    ∀ pre l mi e post,
      suf = pre ++ Act.uncache l :: Act.copy l mi (some e) :: post →
      r = some e ∧ post = [] := by
  generalize hmn : "" = mn at h
  induction h with
  | done retries l b tail ht =>
    intro pre l2 mi2 e post hs
    rcases cons_split hs with ⟨_, hx, _⟩ | ⟨pre2, _, hrest⟩
    · cases hx
    · exact absurd (by rw [hrest]; simp) (retTail_no_uncache mo tail ht l2)
  | exceeded retries l mi hge =>
    intro pre l2 mi2 e post hs
    rcases cons_split hs with ⟨_, hx, _⟩ | ⟨pre2, _, hrest⟩
    · cases hx
    · simp at hrest
  | redoFailed retries l mi ev r hlt hrd =>
    intro pre l2 mi2 e post hs
    subst hmn
    rcases cons_split hs with ⟨_, hx, _⟩ | ⟨pre2, _, hrest⟩
    · cases hx
    · rcases cons_split hrest with ⟨_, hx, _⟩ | ⟨pre3, _, hrest2⟩
      · cases hx
      · obtain ⟨hout, hpost⟩ := redoRun_hrw_fail _ _ _ _ _ hrd pre3 l2 mi2 e post hrest2
        simp only [Option.some.injEq] at hout
        exact ⟨hout, hpost⟩
  | redone retries l mi ev suf r hlt hrd _ ih =>
    intro pre l2 mi2 e post hs
    subst hmn
    rcases cons_split hs with ⟨_, hx, _⟩ | ⟨pre2, _, hrest⟩
    · cases hx
    · rcases cons_split hrest with ⟨_, hx, _⟩ | ⟨pre3, _, hrest2⟩
      · cases hx
      · rcases append_split hrest2 with ⟨c, hev, hpost⟩ | ⟨pre4, _, hsuf⟩
        · exfalso
          cases c with
          | nil =>
            cases hrd with
            | skip => simp at hev
            | fixed f hl =>
              rcases cons_split hev with ⟨_, _, hr⟩ | ⟨p2, _, hr⟩
              · simp at hr
              · rcases cons_split hr with ⟨_, hx, _⟩ | ⟨p3, _, hr3⟩
                · cases hx
                · rcases cons_split hr3 with ⟨_, hx, _⟩ | ⟨p4, _, hr4⟩
                  · cases hx
                  · rcases cons_split hr4 with ⟨_, hx, _⟩ | ⟨p5, _, hr5⟩
                    · cases hx
                    · simp at hr5
          | cons y c2 =>
            have hev2 : ev = pre3 ++ Act.uncache l2 :: Act.copy l2 mi2 (some e) :: c2 := by
              rw [hev]
              simp only [List.cons_append] at hpost
              simp only [List.cons.injEq] at hpost
              rw [hpost.1]
            have := (redoRun_hrw_fail _ _ _ _ _ hrd pre3 l2 mi2 e c2 hev2).1
            cases this
        · exact ih pre4 l2 mi2 e post hsuf
  | copied retries l mi suf r _ ih =>
    intro pre l2 mi2 e post hs
    rcases cons_split hs with ⟨_, hx, _⟩ | ⟨pre2, _, hrest⟩
    · cases hx
    · rcases cons_split hrest with ⟨_, hx, _⟩ | ⟨pre3, _, hrest2⟩
      · cases hx
      · exact ih pre3 l2 mi2 e post hrest2
  | copyFailed retries l mi e tail ht =>
    intro pre l2 mi2 e2 post hs
    rcases cons_split hs with ⟨_, hx, _⟩ | ⟨pre2, _, hrest⟩
    · cases hx
    · rcases cons_split hrest with ⟨_, hx, _⟩ | ⟨pre3, _, hrest2⟩
      · cases hx
      · exact absurd (by rw [hrest2]; simp) (retTail_no_uncache mo tail ht l2)

theorem ecRun_no_new_meta (S : Sys) (lom : LOM) (tr ev : List Act) (mo mn : String)
    (h : ECRun S lom tr ev (some (mo, mn))) (hno : ∀ src dst, Act.copyFile src dst none ∉ ev) :
    mn = "" := by
  cases h with
  | skip _ => rfl
  | noMeta _ _ _ => rfl
  | vanished _ _ _ _ _ => rfl
  | copied serr mp _ => exact absurd (by simp) (hno (metaFQN S lom lom.mpath) (metaFQN S lom mp))

theorem ecRun_no_uncache (S : Sys) (lom : LOM) (tr ev : List Act)
    (out : Option (String × String)) (h : ECRun S lom tr ev out) (l : LOM) :
    Act.uncache l ∉ ev := by
  intro hm
  have := ecRun_acts S lom tr ev out h _ hm
  simp [isMetaAct] at this

theorem bodyRun_hrw_fail (S : Sys) (xname : String) (orig : LOM) (tr ev : List Act)
    (r : Option GoErr) (h : BodyRun S xname orig tr ev r)
    (hno : ∀ src dst, Act.copyFile src dst none ∉ ev) :
    ∀ pre l mi e post,
      ev = pre ++ Act.uncache l :: Act.copy l mi (some e) :: post →
      r = some e ∧ post = [] := by
  intro pre l mi e post hs
  cases h with
  | ecFailed ev hec =>
    exact absurd (by rw [hs]; simp) (ecRun_no_uncache S orig tr ev _ hec l)
  | loadFailed ec mo mn e2 hec =>
    exfalso
    obtain ⟨pre2, _, h2⟩ := split_not_mem (ecRun_no_uncache S orig tr ec _ hec l) hs
    rcases cons_split h2 with ⟨_, hx, _⟩ | ⟨pre3, _, h3⟩
    · cases hx
    · simp at h3
  | inPlace ec mo mn b tail hec ht =>
    exfalso
    obtain ⟨pre2, _, h2⟩ := split_not_mem (ecRun_no_uncache S orig tr ec _ hec l) hs
    rcases cons_split h2 with ⟨_, hx, _⟩ | ⟨pre3, _, h3⟩
    · cases hx
    · rcases cons_split h3 with ⟨_, hx, _⟩ | ⟨pre4, _, h4⟩
      · cases hx
      · exact absurd (by rw [h4]; simp) (retTail_no_uncache mo tail ht l)
  | redoFailed ec mo mn mi2 b rd r hec hrd =>
    have hmn : mn = "" := ecRun_no_new_meta S orig tr ec mo mn hec
      (fun src dst hm => hno src dst (by simp [hm]))
    subst hmn
    obtain ⟨pre2, _, h2⟩ := split_not_mem (ecRun_no_uncache S orig tr ec _ hec l) hs
    rcases cons_split h2 with ⟨_, hx, _⟩ | ⟨pre3, _, h3⟩
    · cases hx
    · rcases cons_split h3 with ⟨_, hx, _⟩ | ⟨pre4, _, h4⟩
      · cases hx
      · obtain ⟨hout, hpost⟩ := redoRun_hrw_fail _ _ _ _ _ hrd pre4 l mi e post h4
        simp only [Option.some.injEq] at hout
        exact ⟨hout, hpost⟩
  | looped ec mo mn mi2 b rd suf r hec hrd hloop =>
    have hmn : mn = "" := ecRun_no_new_meta S orig tr ec mo mn hec
      (fun src dst hm => hno src dst (by simp [hm]))
    subst hmn
    obtain ⟨pre2, _, h2⟩ := split_not_mem (ecRun_no_uncache S orig tr ec _ hec l) hs
    rcases cons_split h2 with ⟨_, hx, _⟩ | ⟨pre3, _, h3⟩
    · cases hx
    · rcases cons_split h3 with ⟨_, hx, _⟩ | ⟨pre4, _, h4⟩
      · cases hx
      · rcases append_split h4 with ⟨c, hrd2, hpost⟩ | ⟨pre5, _, hsuf⟩
        · exfalso
          cases c with
          | nil =>
            cases hrd with
            | skip => simp at hrd2
            | fixed f hl =>
              rcases cons_split hrd2 with ⟨_, _, hr⟩ | ⟨p2, _, hr⟩
              · simp at hr
              · rcases cons_split hr with ⟨_, hx, _⟩ | ⟨p3, _, hr3⟩
                · cases hx
                · rcases cons_split hr3 with ⟨_, hx, _⟩ | ⟨p4, _, hr4⟩
                  · cases hx
                  · rcases cons_split hr4 with ⟨_, hx, _⟩ | ⟨p5, _, hr5⟩
                    · cases hx
                    · simp at hr5
          | cons y c2 =>
            have hrd3 : rd = pre4 ++ Act.uncache l :: Act.copy l mi (some e) :: c2 := by
              rw [hrd2]
              simp only [List.cons_append, List.cons.injEq] at hpost
              rw [hpost.1]
            have := (redoRun_hrw_fail _ _ _ _ _ hrd pre4 l mi e c2 hrd3).1
            cases this
        · exact loopRun_hrw_fail _ _ _ _ _ _ _ _ hloop pre5 l mi e post hsuf

/-- C11 as stated fails: the object must move to its HRW mountpath, the copy inside
`fixHrw` fails because the file does not exist, and `visitObj` returns that error,
not nil. -/
theorem visitObj_hrw_not_exist_returns_error :
    (visitObj sysHrwNotExist jctx0 5 lomA []).map (fun r => r.1)
        = some (some (GoErr.notExist "no such file or directory"))
      ∧ GoErr.IsNotExist (some (GoErr.notExist "no such file or directory")) = true
      ∧ (Act.copy lomA mpB (some (GoErr.notExist "no such file or directory"))
          ∈ ((visitObj sysHrwNotExist jctx0 5 lomA []).map (fun r => r.2.2)).getD [])
      ∧ (visitObj sysHrwNotExist jctx0 5 lomA []).map (fun r => r.1) ≠ some none := by
  decide

/-- C11 amended: when a replica copy (the `lom.Copy` that follows a `ToMpath`
answer in the copy loop) fails, in particular because the file does not exist,
`visitObj` returns nil; when the copy inside `fixHrw` fails, in particular because
the file does not exist, and no EC metafile was copied, `visitObj` returns that
error and does nothing more than the deferred unlock. With enough fuel `visitObj`
does return, in every environment that settles (`settlesAfter`). -/
theorem visitObj_missing_file (S : Sys) (jg : joggerCtx) (lom : LOM) (tr : List Act) :
    (∀ N, settlesAfter S N → ∃ r, visitObj S jg (N + maxRetries + 2) lom tr = some r)
    ∧ ∀ fuel err jg2 tr2, visitObj S jg fuel lom tr = some (err, jg2, tr2) →
    ∃ ev, tr2 = tr ++ ev
      ∧ (∀ pre l mi e post,
          ev = pre ++ Act.toMpath l (some mi) false :: Act.copy l mi (some e) :: post →
          err = none)
      ∧ (∀ pre l mi e post,
          ev = pre ++ Act.uncache l :: Act.copy l mi (some e) :: post →
          (∀ src dst, Act.copyFile src dst none ∉ ev) →
          err = some e ∧ post = [Act.unlock lom]) := by
  refine ⟨fun N hN => visitObj_returns S jg lom tr N hN, ?_⟩
  intro fuel err jg2 tr2 h
  obtain ⟨ev, hev, hrun, _⟩ := visitObj_run S jg fuel lom tr err jg2 tr2 h
  refine ⟨ev, hev, ?_, ?_⟩
  · intro pre l mi e post hs
    cases hrun with
    | busy => rfl
    | locked locks body dfr err hlocks hbody hdfr =>
      have hnl : Act.toMpath l (some mi) false ∉ locks := by cases hlocks <;> simp
      have hs2 : locks ++ (body ++ dfr)
          = pre ++ Act.toMpath l (some mi) false :: Act.copy l mi (some e) :: post := by
        rw [← hs]; simp
      obtain ⟨pre2, _, hbd⟩ := split_not_mem hnl hs2
      rcases append_split hbd with ⟨c, hbody2, hpost⟩ | ⟨pre3, _, hdfr2⟩
      · cases c with
        | nil =>
          exfalso
          have hb := bodyRun_bodyAct S _ lom _ body err hbody
          cases hdfr with
          | unlock => simp at hpost
          | counted size _ => simp at hpost
        | cons y c2 =>
          simp only [List.cons_append, List.cons.injEq] at hpost
          have hbody3 : body
              = pre2 ++ Act.toMpath l (some mi) false :: Act.copy l mi (some e) :: c2 := by
            rw [hbody2, hpost.1]
          exact bodyRun_replica_fail S _ lom _ body err hbody pre2 l mi e c2 hbody3
      · exfalso
        have : Act.toMpath l (some mi) false ∈ dfr := by rw [hdfr2]; simp
        cases hdfr <;> simp at this
  · intro pre l mi e post hs hno
    cases hrun with
    | busy =>
      exfalso
      have : Act.uncache l ∈ [Act.tryLock lom false, Act.sleep Pause.halfSecond,
          Act.tryLock lom false] := by rw [hs]; simp
      simp at this
    | locked locks body dfr err hlocks hbody hdfr =>
      have hnl : Act.uncache l ∉ locks := by cases hlocks <;> simp
      have hs2 : locks ++ (body ++ dfr)
          = pre ++ Act.uncache l :: Act.copy l mi (some e) :: post := by
        rw [← hs]; simp
      obtain ⟨pre2, _, hbd⟩ := split_not_mem hnl hs2
      have hno2 : ∀ src dst, Act.copyFile src dst none ∉ body := by
        intro src dst hm
        exact hno src dst (by simp [hm])
      rcases append_split hbd with ⟨c, hbody2, hpost⟩ | ⟨pre3, _, hdfr2⟩
      · cases c with
        | nil =>
          exfalso
          cases hdfr with
          | unlock => simp at hpost
          | counted size _ => simp at hpost
        | cons y c2 =>
          simp only [List.cons_append, List.cons.injEq] at hpost
          have hbody3 : body = pre2 ++ Act.uncache l :: Act.copy l mi (some e) :: c2 := by
            rw [hbody2, hpost.1]
          obtain ⟨herr, hc2⟩ := bodyRun_hrw_fail S _ lom _ body err hbody hno2 pre2 l mi e c2
            hbody3
          subst hc2
          subst herr
          cases hdfr with
          | unlock => exact ⟨rfl, by simpa using hpost.2⟩
          | counted size hnone => cases hnone
      · exfalso
        have : Act.uncache l ∈ dfr := by rw [hdfr2]; simp
        cases hdfr <;> simp at this

theorem visitObj_missing_file_witness :
    (∃ r, visitObj sysReplicaNotExist jctx0 (0 + maxRetries + 2) lomA [] = some r)
      ∧ ∃ err jg2 tr2, visitObj sysReplicaNotExist jctx0 5 lomA [] = some (err, jg2, tr2)
      ∧ ∃ ev, tr2 = [] ++ ev
          ∧ (∀ pre l mi e post,
              ev = pre ++ Act.toMpath l (some mi) false :: Act.copy l mi (some e) :: post →
              err = none) :=
  ⟨(visitObj_missing_file sysReplicaNotExist jctx0 lomA []).1 0 sysReplicaNotExist_settles, _, _, _, rfl,
    ((visitObj_missing_file sysReplicaNotExist jctx0 lomA []).2 5 _ _ _ rfl).imp
      (fun _ hx => ⟨hx.1, hx.2.1⟩)⟩

/-! ## Metafile before data -/

theorem cons_split_ne {a x : Act} {suf pre post : List Act} (hne : a ≠ x)
    (h : a :: suf = pre ++ x :: post) : ∃ pre2, pre = a :: pre2 ∧ suf = pre2 ++ x :: post := by
  rcases cons_split h with ⟨_, hx, _⟩ | h2
  · exact absurd hx hne
  · exact h2

theorem split_mem {ev pre post : List Act} {x : Act} (h : ev = pre ++ x :: post) : x ∈ ev := by
  rw [h]; simp

theorem split_left {A B pre post : List Act} {x : Act} (hx : x ∉ B)
    (h : A ++ B = pre ++ x :: post) : ∃ c, A = pre ++ x :: c ∧ post = c ++ B := by
  rcases append_split h with h1 | ⟨pre2, _, hB⟩
  · exact h1
  · exact absurd (split_mem hB) hx

/-- The body is step 1 followed by the rest; the rest holds no event of step 1, and
removes nothing but the two metafile paths step 1 left. -/
theorem bodyRun_split (S : Sys) (xname : String) (orig : LOM) (tr ev : List Act)
    (r : Option GoErr) (h : BodyRun S xname orig tr ev r) :
    ∃ ec rest out, ev = ec ++ rest ∧ ECRun S orig tr ec out ∧ (out = none → rest = []) ∧
      (∀ a ∈ rest, isMetaAct a = false) ∧
      (∀ p e, Act.remove p e ∈ rest →
        ∃ mo mn, out = some (mo, mn) ∧ p ≠ "" ∧ (p = mo ∨ p = mn)) := by
  have key : ∀ (mo mn : String) (rest : List Act),
      (∀ a ∈ rest, isMetaAct a = false ∧
        ∀ p e, a = Act.remove p e → p ≠ "" ∧ (p = mo ∨ p = mn)) →
      (∀ a ∈ rest, isMetaAct a = false) ∧
      (∀ p e, Act.remove p e ∈ rest →
        ∃ mo2 mn2, some (mo, mn) = some (mo2, mn2) ∧ p ≠ "" ∧ (p = mo2 ∨ p = mn2)) := by
    intro mo mn rest hP
    refine ⟨fun a ha => (hP a ha).1, ?_⟩
    intro p e hm
    exact ⟨mo, mn, rfl, (hP _ hm).2 p e rfl⟩
  cases h with
  | ecFailed ev hec =>
    exact ⟨ev, [], none, by simp, hec, fun _ => rfl, by simp, by simp⟩
  | loadFailed ec mo mn e hec =>
    refine ⟨ec, [Act.load orig (some e)], some (mo, mn), rfl, hec, ?_, ?_⟩
    · intro hx; cases hx
    · apply key
      intro a ha
      simp only [List.mem_singleton] at ha
      subst ha
      exact ⟨rfl, by intro p e2 hx; cases hx⟩
  | inPlace ec mo mn b tail hec ht =>
    refine ⟨ec, Act.load orig none :: Act.toMpath orig none b :: tail, some (mo, mn), rfl, hec,
      ?_, ?_⟩
    · intro hx; cases hx
    · apply key
      intro a ha
      simp only [List.mem_cons] at ha
      rcases ha with rfl | rfl | ha
      · exact ⟨rfl, by intro p e2 hx; cases hx⟩
      · exact ⟨rfl, by intro p e2 hx; cases hx⟩
      · cases ht with
        | nothing _ => simp at ha
        | removed e hne =>
          simp only [List.mem_singleton] at ha
          subst ha
          refine ⟨rfl, ?_⟩
          intro p e2 hx
          cases hx
          exact ⟨hne, Or.inl rfl⟩
  | redoFailed ec mo mn mi b rd r hec hrd =>
    refine ⟨ec, Act.load orig none :: Act.toMpath orig (some mi) b :: rd, some (mo, mn), rfl, hec,
      ?_, ?_⟩
    · intro hx; cases hx
    · apply key
      have h1 := redoRun_acts (fun a => isMetaAct a = false ∧
          ∀ p e, a = Act.remove p e → p ≠ "" ∧ (p = mo ∨ p = mn)) orig mi mn b rd _
        ⟨rfl, by intro p e2 hx; cases hx⟩ (fun _ => ⟨rfl, by intro p e2 hx; cases hx⟩)
        (fun _ _ => ⟨rfl, by intro p e2 hx; cases hx⟩)
        (fun _ _ => ⟨rfl, by intro p e2 hx; cases hx⟩)
        (fun _ hne => ⟨rfl, by intro p e2 hx; cases hx; exact ⟨hne, Or.inr rfl⟩⟩) hrd
      intro a ha
      simp only [List.mem_cons] at ha
      rcases ha with rfl | rfl | ha
      · exact ⟨rfl, by intro p e2 hx; cases hx⟩
      · exact ⟨rfl, by intro p e2 hx; cases hx⟩
      · exact h1 a ha
  | looped ec mo mn mi b rd suf r hec hrd hloop =>
    refine ⟨ec, Act.load orig none :: Act.toMpath orig (some mi) b :: (rd ++ suf),
      some (mo, mn), rfl, hec, ?_, ?_⟩
    · intro hx; cases hx
    · apply key
      have h1 := redoRun_acts (fun a => isMetaAct a = false ∧
          ∀ p e, a = Act.remove p e → p ≠ "" ∧ (p = mo ∨ p = mn)) orig mi mn b rd _
        ⟨rfl, by intro p e2 hx; cases hx⟩ (fun _ => ⟨rfl, by intro p e2 hx; cases hx⟩)
        (fun _ _ => ⟨rfl, by intro p e2 hx; cases hx⟩)
        (fun _ _ => ⟨rfl, by intro p e2 hx; cases hx⟩)
        (fun _ hne => ⟨rfl, by intro p e2 hx; cases hx; exact ⟨hne, Or.inr rfl⟩⟩) hrd
      have h2 := loopRun_acts (fun a => isMetaAct a = false ∧
          ∀ p e, a = Act.remove p e → p ≠ "" ∧ (p = mo ∨ p = mn)) xname orig mi b mo mn
        (fun _ _ _ => ⟨rfl, by intro p e2 hx; cases hx⟩)
        ⟨rfl, by intro p e2 hx; cases hx⟩
        ⟨rfl, by intro p e2 hx; cases hx⟩
        (fun _ _ _ => ⟨rfl, by intro p e2 hx; cases hx⟩)
        (fun _ _ => ⟨rfl, by intro p e2 hx; cases hx⟩)
        (fun _ _ => ⟨rfl, by intro p e2 hx; cases hx⟩)
        (fun _ hne => ⟨rfl, by intro p e2 hx; cases hx; exact ⟨hne, Or.inl rfl⟩⟩)
        (fun _ hne => ⟨rfl, by intro p e2 hx; cases hx; exact ⟨hne, Or.inr rfl⟩⟩)
        0 suf r hloop
      intro a ha
      simp only [List.mem_cons, List.mem_append] at ha
      rcases ha with rfl | rfl | ha | ha
      · exact ⟨rfl, by intro p e2 hx; cases hx⟩
      · exact ⟨rfl, by intro p e2 hx; cases hx⟩
      · exact h1 a ha
      · exact h2 a ha

theorem redoRun_none_no_remove (lom : LOM) (mi : Mountpath) (mn : String) (b : Bool)
    (ev : List Act) (h : RedoRun lom mi mn b ev none) (p : String) (e : Option GoErr) :
    Act.remove p e ∉ ev := by
  cases h <;> simp

theorem redoRun_remove_last (lom : LOM) (mi : Mountpath) (mn : String) (b : Bool)
    (ev : List Act) (out : Option (Option GoErr)) (h : RedoRun lom mi mn b ev out) :
    ∀ pre p e post, ev = pre ++ Act.remove p e :: post → post = [] := by
  intro pre p e post hs
  cases h with
  | skip => simp at hs
  | fixed f hl => exact absurd (split_mem hs) (by simp)
  | failed fx e2 rb r hfx hrb =>
    have hnfx : Act.remove p e ∉ fx := by cases hfx <;> simp
    obtain ⟨pre2, _, h2⟩ := cons_split_ne (by simp) hs
    obtain ⟨pre3, _, h3⟩ := split_not_mem hnfx h2
    cases hrb with
    | plain _ => simp at h3
    | removed rerr hne =>
      rcases cons_split h3 with ⟨_, _, hp⟩ | ⟨pre4, _, h4⟩
      · exact hp.symm
      · simp at h4

theorem retTail_remove_last (mo : String) (tail : List Act) (h : RetTail mo tail) :
    ∀ pre p e post, tail = pre ++ Act.remove p e :: post → post = [] := by
  intro pre p e post hs
  cases h with
  | nothing _ => simp at hs
  | removed e2 hne =>
    rcases cons_split hs with ⟨_, _, hp⟩ | ⟨pre4, _, h4⟩
    · exact hp.symm
    · simp at h4

theorem loopRun_remove_last (xname : String) (orig : LOM) (mi0 : Mountpath) (isHrw0 : Bool)
    (mo mn : String) (retries : Nat) (suf : List Act) (r : Option GoErr)
    (h : LoopRun xname orig mi0 isHrw0 mo mn retries suf r) :
    ∀ pre p e post, suf = pre ++ Act.remove p e :: post → post = [] := by
  induction h with
  | done retries l b tail ht =>
    intro pre p e post hs
    obtain ⟨pre2, _, h2⟩ := cons_split_ne (by simp) hs
    exact retTail_remove_last mo tail ht pre2 p e post h2
  | exceeded retries l mi hge =>
    intro pre p e post hs
    exact absurd (split_mem hs) (by simp)
  | redoFailed retries l mi ev r hlt hrd =>
    intro pre p e post hs
    obtain ⟨pre2, _, h2⟩ := cons_split_ne (by simp) hs
    obtain ⟨pre3, _, h3⟩ := cons_split_ne (by simp) h2
    exact redoRun_remove_last _ _ _ _ _ _ hrd pre3 p e post h3
  | redone retries l mi ev suf r hlt hrd _ ih =>
    intro pre p e post hs
    obtain ⟨pre2, _, h2⟩ := cons_split_ne (by simp) hs
    obtain ⟨pre3, _, h3⟩ := cons_split_ne (by simp) h2
    obtain ⟨pre4, _, h4⟩ := split_not_mem (redoRun_none_no_remove _ _ _ _ _ hrd p e) h3
    exact ih pre4 p e post h4
  | copied retries l mi suf r _ ih =>
    intro pre p e post hs
    obtain ⟨pre2, _, h2⟩ := cons_split_ne (by simp) hs
    obtain ⟨pre3, _, h3⟩ := cons_split_ne (by simp) h2
    exact ih pre3 p e post h3
  | copyFailed retries l mi e2 tail ht =>
    intro pre p e post hs
    obtain ⟨pre2, _, h2⟩ := cons_split_ne (by simp) hs
    obtain ⟨pre3, _, h3⟩ := cons_split_ne (by simp) h2
    exact retTail_remove_last mo tail ht pre3 p e post h3

theorem ecRun_no_remove (S : Sys) (lom : LOM) (tr ev : List Act)
    (out : Option (String × String)) (h : ECRun S lom tr ev out) (p : String)
    (e : Option GoErr) : Act.remove p e ∉ ev := by
  intro hm
  have := ecRun_acts S lom tr ev out h _ hm
  simp [isMetaAct] at this

/-- A removal is the last event of the body. -/
theorem bodyRun_remove_last (S : Sys) (xname : String) (orig : LOM) (tr ev : List Act)
    (r : Option GoErr) (h : BodyRun S xname orig tr ev r) :
    ∀ pre p e post, ev = pre ++ Act.remove p e :: post → post = [] := by
  intro pre p e post hs
  cases h with
  | ecFailed ev hec => exact absurd (split_mem hs) (ecRun_no_remove S orig tr ev _ hec p e)
  | loadFailed ec mo mn e2 hec =>
    obtain ⟨pre2, _, h2⟩ := split_not_mem (ecRun_no_remove S orig tr ec _ hec p e) hs
    exact absurd (split_mem h2) (by simp)
  | inPlace ec mo mn b tail hec ht =>
    obtain ⟨pre2, _, h2⟩ := split_not_mem (ecRun_no_remove S orig tr ec _ hec p e) hs
    obtain ⟨pre3, _, h3⟩ := cons_split_ne (by simp) h2
    obtain ⟨pre4, _, h4⟩ := cons_split_ne (by simp) h3
    exact retTail_remove_last mo tail ht pre4 p e post h4
  | redoFailed ec mo mn mi b rd r hec hrd =>
    obtain ⟨pre2, _, h2⟩ := split_not_mem (ecRun_no_remove S orig tr ec _ hec p e) hs
    obtain ⟨pre3, _, h3⟩ := cons_split_ne (by simp) h2
    obtain ⟨pre4, _, h4⟩ := cons_split_ne (by simp) h3
    exact redoRun_remove_last _ _ _ _ _ _ hrd pre4 p e post h4
  | looped ec mo mn mi b rd suf r hec hrd hloop =>
    obtain ⟨pre2, _, h2⟩ := split_not_mem (ecRun_no_remove S orig tr ec _ hec p e) hs
    obtain ⟨pre3, _, h3⟩ := cons_split_ne (by simp) h2
    obtain ⟨pre4, _, h4⟩ := cons_split_ne (by simp) h3
    obtain ⟨pre5, _, h5⟩ := split_not_mem (redoRun_none_no_remove _ _ _ _ _ hrd p e) h4
    exact loopRun_remove_last _ _ _ _ _ _ _ _ _ hloop pre5 p e post h5

theorem ecRun_failed (S : Sys) (lom : LOM) (tr ev : List Act)
    (out : Option (String × String)) (h : ECRun S lom tr ev out) :
    (∀ f e, Act.resolveFQN f (some e) ∈ ev → out = none) ∧
    (∀ s d e, Act.copyFile s d (some e) ∈ ev → GoErr.IsNotExist (some e) = false →
      out = none) := by
  cases h with
  | skip _ => simp
  | resolveFailed e _ => simp
  | noMeta serr _ _ => simp
  | vanished serr mp e _ hne =>
    refine ⟨by simp, ?_⟩
    intro s d e2 hm hnot
    simp only [List.mem_cons, List.mem_singleton, Act.copyFile.injEq, Option.some.injEq,
      reduceCtorEq, false_or, List.not_mem_nil, or_false] at hm
    rw [hm.2.2, hne] at hnot
    cases hnot
  | copyFailed serr mp e _ _ => simp
  | copied serr mp _ => simp

/-- C13 as stated fails: in an erasure-coded bucket, for an object not at its HRW
location, copying the metafile fails (the metafile has gone meanwhile), and the
object data is copied all the same, with no metafile at the new mountpath. -/
theorem visitObj_meta_copy_fails_data_copied :
    (!sysMetaVanished.IsHRW [Act.tryLock lomA true] lomA
        && sysMetaVanished.ECEnabled [Act.tryLock lomA true] lomA) = true
      ∧ ((visitObj sysMetaVanished jctx0 5 lomA []).map
            (fun r => (r.2.2.filter isMetaAct, r.2.2.filter isDataCopy)))
          = some ([Act.resolveFQN "/mnt/a/bck/obj" none,
                   Act.stat "/mnt/a/bck/%mt/obj" none,
                   Act.copyFile "/mnt/a/bck/%mt/obj" "/mnt/b/bck/%mt/obj"
                     (some (GoErr.notExist "no such file or directory"))],
                  [Act.copy lomA mpB none]) := by
  decide

/-- C13 amended: in every execution of `visitObj`, no event of the metafile step
(resolve, stat, metafile copy) comes after a copy of object data; if resolving the
HRW path fails, or copying the metafile fails with an error other than
file-does-not-exist, no object data is copied at all; a metafile removal is followed
by nothing but the deferred unlock and count; and for an object that is not at its
HRW location in an erasure-coded bucket, every copy of object data comes after the
HRW path was resolved and the metafile was looked up and found absent, or copied,
or found gone while copying. With enough fuel `visitObj`
does return, in every environment that settles (`settlesAfter`). -/
theorem visitObj_ec_meta_before_data (S : Sys) (jg : joggerCtx) (lom : LOM)
    (tr : List Act) :
    (∀ N, settlesAfter S N → ∃ r, visitObj S jg (N + maxRetries + 2) lom tr = some r)
    ∧ ∀ fuel err jg2 tr2, visitObj S jg fuel lom tr = some (err, jg2, tr2) →
    ∃ ev, tr2 = tr ++ ev
      ∧ (∀ pre l mi e post, ev = pre ++ Act.copy l mi e :: post →
          ∀ a ∈ post, isMetaAct a = false)
      ∧ (∀ f e, Act.resolveFQN f (some e) ∈ ev → ∀ a ∈ ev, isDataCopy a = false)
      ∧ (∀ s d e, Act.copyFile s d (some e) ∈ ev → GoErr.IsNotExist (some e) = false →
          ∀ a ∈ ev, isDataCopy a = false)
      ∧ (∀ pre p e post, ev = pre ++ Act.remove p e :: post →
          ∀ a ∈ post, isDeferred a = true)
      ∧ ((∀ hist, S.IsHRW hist lom = false) → (∀ hist, S.ECEnabled hist lom = true) →
          ∀ pre l mi e post, ev = pre ++ Act.copy l mi e :: post →
            Act.resolveFQN lom.HrwFQN none ∈ pre
            ∧ ∃ serr, Act.stat (metaFQN S lom lom.mpath) serr ∈ pre
              ∧ (GoErr.IsNotExist serr = true
                ∨ ∃ mp cerr,
                    Act.copyFile (metaFQN S lom lom.mpath) (metaFQN S lom mp) cerr ∈ pre
                    ∧ (cerr = none ∨ GoErr.IsNotExist cerr = true))) := by
  refine ⟨fun N hN => visitObj_returns S jg lom tr N hN, ?_⟩
  intro fuel err jg2 tr2 h
  obtain ⟨ev, hev, hrun, _⟩ := visitObj_run S jg fuel lom tr err jg2 tr2 h
  refine ⟨ev, hev, ?_⟩
  cases hrun with
  | busy =>
    refine ⟨?_, ?_, ?_, ?_, ?_⟩
    · intro pre l mi e post hs
      exact absurd (split_mem hs) (by simp)
    · intro f e hm
      simp at hm
    · intro s d e hm
      simp at hm
    · intro pre p e post hs
      exact absurd (split_mem hs) (by simp)
    · intro _ _ pre l mi e post hs
      exact absurd (split_mem hs) (by simp)
  | locked locks body dfr err hlocks hbody hdfr =>
    obtain ⟨ec, rest, out, hbd, hec, hout, hnm, _⟩ := bodyRun_split S _ lom _ body err hbody
    have hlm : ∀ a ∈ locks, isMetaAct a = false ∧ isDataCopy a = false := by
      cases hlocks <;> simp [isMetaAct, isDataCopy]
    have hdm : ∀ a ∈ dfr,
        isMetaAct a = false ∧ isDataCopy a = false ∧ isDeferred a = true := by
      cases hdfr <;> simp [isMetaAct, isDataCopy, isDeferred]
    have hem : ∀ a ∈ ec, isMetaAct a = true := ecRun_acts S lom _ ec out hec
    have hed : ∀ a ∈ ec, isDataCopy a = false := by
      intro a ha
      have := hem a ha
      cases a <;> simp [isMetaAct] at this <;> rfl
    subst hbd
    have hcopy : ∀ pre l mi e post,
        locks ++ (ec ++ rest) ++ dfr = pre ++ Act.copy l mi e :: post →
        ∃ pre2, pre = (locks ++ ec) ++ pre2 ∧ rest ++ dfr = pre2 ++ Act.copy l mi e :: post := by
      intro pre l mi e post hs
      have hn : Act.copy l mi e ∉ locks ++ ec := by
        intro hm
        rcases List.mem_append.1 hm with hm | hm
        · have := (hlm _ hm).2
          simp [isDataCopy] at this
        · have := hed _ hm
          simp [isDataCopy] at this
      exact split_not_mem hn (by rw [← hs]; simp)
    have hnone : out = none → ∀ a ∈ locks ++ (ec ++ rest) ++ dfr, isDataCopy a = false := by
      intro ho a ha
      rw [hout ho] at ha
      simp only [List.append_nil, List.mem_append] at ha
      rcases ha with (ha | ha) | ha
      · exact (hlm a ha).2
      · exact hed a ha
      · exact (hdm a ha).2.1
    have hmeta : ∀ a, isMetaAct a = true → a ∈ locks ++ (ec ++ rest) ++ dfr → a ∈ ec := by
      intro a hma ha
      simp only [List.mem_append] at ha
      rcases ha with (ha | ha | ha) | ha
      · rw [(hlm a ha).1] at hma; cases hma
      · exact ha
      · rw [hnm a ha] at hma; cases hma
      · rw [(hdm a ha).1] at hma; cases hma
    refine ⟨?_, ?_, ?_, ?_, ?_⟩
    · intro pre l mi e post hs
      obtain ⟨pre2, _, h2⟩ := hcopy pre l mi e post hs
      intro a ha
      have hin : a ∈ rest ++ dfr := by rw [h2]; simp [ha]
      rcases List.mem_append.1 hin with hm | hm
      · exact hnm a hm
      · exact (hdm a hm).1
    · intro f e hm
      exact hnone ((ecRun_failed S lom _ ec out hec).1 f e (hmeta _ rfl hm))
    · intro s d e hm hnot
      exact hnone ((ecRun_failed S lom _ ec out hec).2 s d e (hmeta _ rfl hm) hnot)
    · intro pre p e post hs
      have hnl : Act.remove p e ∉ locks := by cases hlocks <;> simp
      have hnd : Act.remove p e ∉ dfr := by cases hdfr <;> simp
      have hs2 : locks ++ ((ec ++ rest) ++ dfr) = pre ++ Act.remove p e :: post := by
        rw [← hs]; simp
      obtain ⟨pre2, _, h2⟩ := split_not_mem hnl hs2
      obtain ⟨c, h3, hpost⟩ := split_left hnd h2
      have hc := bodyRun_remove_last S _ lom _ _ err hbody pre2 p e c h3
      subst hc
      intro a ha
      rw [hpost] at ha
      exact (hdm a (by simpa using ha)).2.2
    · intro hh he pre l mi e post hs
      obtain ⟨pre2, hpre, h2⟩ := hcopy pre l mi e post hs
      have hsub : ∀ a ∈ ec, a ∈ pre := by
        intro a ha
        rw [hpre]
        simp [ha]
      have hsome : out ≠ none := by
        intro ho
        have := hnone ho (Act.copy l mi e) (by rw [hs]; simp)
        simp [isDataCopy] at this
      cases hec with
      | skip hc => simp [hh, he] at hc
      | resolveFailed e2 _ => exact absurd rfl hsome
      | noMeta serr _ hne =>
        exact ⟨hsub _ (by simp), serr, hsub _ (by simp), Or.inl hne⟩
      | vanished serr mp e2 _ hne =>
        exact ⟨hsub _ (by simp), serr, hsub _ (by simp),
          Or.inr ⟨mp, some e2, hsub _ (by simp), Or.inr hne⟩⟩
      | copyFailed serr mp e2 _ _ => exact absurd rfl hsome
      | copied serr mp _ =>
        exact ⟨hsub _ (by simp), serr, hsub _ (by simp),
          Or.inr ⟨mp, none, hsub _ (by simp), Or.inl rfl⟩⟩

theorem visitObj_ec_meta_before_data_witness :
    (∃ r, visitObj sysECMove jctx0 (0 + maxRetries + 2) lomA [] = some r)
      ∧ ∃ err jg2 tr2, visitObj sysECMove jctx0 5 lomA [] = some (err, jg2, tr2)
      ∧ ∃ ev, tr2 = [] ++ ev
          ∧ (∀ pre l mi e post, ev = pre ++ Act.copy l mi e :: post →
              ∀ a ∈ post, isMetaAct a = false) :=
  ⟨(visitObj_ec_meta_before_data sysECMove jctx0 lomA []).1 0 sysECMove_settles, _, _, _, rfl,
    ((visitObj_ec_meta_before_data sysECMove jctx0 lomA []).2 5 _ _ _ rfl).imp
      (fun _ hx => ⟨hx.1, hx.2.1⟩)⟩

/-! ## What is removed, what is copied -/

theorem redoRun_copy_target (lom : LOM) (mi : Mountpath) (mn : String) (b : Bool)
    (ev : List Act) (out : Option (Option GoErr)) (h : RedoRun lom mi mn b ev out) :
    ∀ l m e, Act.copy l m e ∈ ev → m = mi := by
  intro l m e hm
  have := redoRun_acts (fun a => ∀ l m e, a = Act.copy l m e → m = mi) lom mi mn b ev out
    (by intro l m e hx; cases hx) (by intro e2 l m e hx; cases hx; rfl)
    (by intro f e2 l m e hx; cases hx) (by intro l2 e2 l m e hx; cases hx)
    (by intro e2 _ l m e hx; cases hx) h _ hm
  exact this l m e rfl

theorem retTail_no_copy (mo : String) (tail : List Act) (h : RetTail mo tail) (l : LOM)
    (m : Mountpath) (e : Option GoErr) : Act.copy l m e ∉ tail := by
  cases h <;> simp

theorem retTail_no_toMpath (mo : String) (tail : List Act) (h : RetTail mo tail) (l : LOM)
    (m : Option Mountpath) (b : Bool) : Act.toMpath l m b ∉ tail := by
  cases h <;> simp

theorem ecRun_no_copy (S : Sys) (lom : LOM) (tr ev : List Act)
    (out : Option (String × String)) (h : ECRun S lom tr ev out) (l : LOM) (m : Mountpath)
    (e : Option GoErr) : Act.copy l m e ∉ ev := by
  intro hm
  have := ecRun_acts S lom tr ev out h _ hm
  simp [isMetaAct] at this

/-- In the copy loop, object data is copied to the mountpath of the first answer of
the placement oracle, or to one it returned earlier in the loop. -/
theorem loopRun_copy_target (xname : String) (orig : LOM) (mi0 : Mountpath) (isHrw0 : Bool)
    (mo mn : String) (retries : Nat) (suf : List Act) (r : Option GoErr)
    (h : LoopRun xname orig mi0 isHrw0 mo mn retries suf r) :
    ∀ pre l mi e post, suf = pre ++ Act.copy l mi e :: post →
      mi = mi0 ∨ ∃ l2 b, Act.toMpath l2 (some mi) b ∈ pre := by
  induction h with
  | done retries l b tail ht =>
    intro pre l2 mi2 e post hs
    obtain ⟨pre2, _, h2⟩ := cons_split_ne (by simp) hs
    exact absurd (split_mem h2) (retTail_no_copy mo tail ht l2 mi2 e)
  | exceeded retries l mi hge =>
    intro pre l2 mi2 e post hs
    exact absurd (split_mem hs) (by simp)
  | redoFailed retries l mi ev r hlt hrd =>
    intro pre l2 mi2 e post hs
    obtain ⟨pre2, _, h2⟩ := cons_split_ne (by simp) hs
    obtain ⟨pre3, _, h3⟩ := cons_split_ne (by simp) h2
    exact Or.inl (redoRun_copy_target _ _ _ _ _ _ hrd l2 mi2 e (split_mem h3))
  | redone retries l mi ev suf r hlt hrd _ ih =>
    intro pre l2 mi2 e post hs
    obtain ⟨pre2, hp2, h2⟩ := cons_split_ne (by simp) hs
    obtain ⟨pre3, hp3, h3⟩ := cons_split_ne (by simp) h2
    rcases append_split h3 with ⟨c, hev, _⟩ | ⟨pre4, hp4, h4⟩
    · exact Or.inl (redoRun_copy_target _ _ _ _ _ _ hrd l2 mi2 e (split_mem hev))
    · rcases ih pre4 l2 mi2 e post h4 with h5 | ⟨l3, b3, h5⟩
      · exact Or.inl h5
      · exact Or.inr ⟨l3, b3, by rw [hp2, hp3, hp4]; simp [h5]⟩
  | copied retries l mi suf r _ ih =>
    intro pre l2 mi2 e post hs
    obtain ⟨pre2, hp2, h2⟩ := cons_split_ne (by simp) hs
    rcases cons_split h2 with ⟨hp3, hx, _⟩ | ⟨pre3, hp3, h3⟩
    · injection hx with _ hm _
      exact Or.inr ⟨l, false, by rw [hp2, hp3, ← hm]; simp⟩
    · rcases ih pre3 l2 mi2 e post h3 with h5 | ⟨l3, b3, h5⟩
      · exact Or.inl h5
      · exact Or.inr ⟨l3, b3, by rw [hp2, hp3]; simp [h5]⟩
  | copyFailed retries l mi e2 tail ht =>
    intro pre l2 mi2 e post hs
    obtain ⟨pre2, hp2, h2⟩ := cons_split_ne (by simp) hs
    rcases cons_split h2 with ⟨hp3, hx, _⟩ | ⟨pre3, hp3, h3⟩
    · injection hx with _ hm _
      exact Or.inr ⟨l, false, by rw [hp2, hp3, ← hm]; simp⟩
    · exact absurd (split_mem h3) (retTail_no_copy mo tail ht l2 mi2 e)

theorem bodyRun_copy_target (S : Sys) (xname : String) (orig : LOM) (tr ev : List Act)
    (r : Option GoErr) (h : BodyRun S xname orig tr ev r) :
    ∀ pre l mi e post, ev = pre ++ Act.copy l mi e :: post →
      ∃ l2 b, Act.toMpath l2 (some mi) b ∈ pre := by
  intro pre l mi e post hs
  cases h with
  | ecFailed ev hec => exact absurd (split_mem hs) (ecRun_no_copy S orig tr ev _ hec l mi e)
  | loadFailed ec mo mn e2 hec =>
    obtain ⟨pre2, _, h2⟩ := split_not_mem (ecRun_no_copy S orig tr ec _ hec l mi e) hs
    exact absurd (split_mem h2) (by simp)
  | inPlace ec mo mn b tail hec ht =>
    obtain ⟨pre2, _, h2⟩ := split_not_mem (ecRun_no_copy S orig tr ec _ hec l mi e) hs
    obtain ⟨pre3, _, h3⟩ := cons_split_ne (by simp) h2
    obtain ⟨pre4, _, h4⟩ := cons_split_ne (by simp) h3
    exact absurd (split_mem h4) (retTail_no_copy mo tail ht l mi e)
  | redoFailed ec mo mn mi2 b rd r hec hrd =>
    obtain ⟨pre2, hp2, h2⟩ := split_not_mem (ecRun_no_copy S orig tr ec _ hec l mi e) hs
    obtain ⟨pre3, hp3, h3⟩ := cons_split_ne (by simp) h2
    obtain ⟨pre4, hp4, h4⟩ := cons_split_ne (by simp) h3
    have hm := redoRun_copy_target _ _ _ _ _ _ hrd l mi e (split_mem h4)
    exact ⟨orig, b, by rw [hp2, hp3, hp4, hm]; simp⟩
  | looped ec mo mn mi2 b rd suf r hec hrd hloop =>
    obtain ⟨pre2, hp2, h2⟩ := split_not_mem (ecRun_no_copy S orig tr ec _ hec l mi e) hs
    obtain ⟨pre3, hp3, h3⟩ := cons_split_ne (by simp) h2
    obtain ⟨pre4, hp4, h4⟩ := cons_split_ne (by simp) h3
    rcases append_split h4 with ⟨c, hrd2, _⟩ | ⟨pre5, hp5, h5⟩
    · have hm := redoRun_copy_target _ _ _ _ _ _ hrd l mi e (split_mem hrd2)
      exact ⟨orig, b, by rw [hp2, hp3, hp4, hm]; simp⟩
    · rcases loopRun_copy_target _ _ _ _ _ _ _ _ _ hloop pre5 l mi e post h5 with
        hm | ⟨l3, b3, h6⟩
      · exact ⟨orig, b, by rw [hp2, hp3, hp4, hm]; simp⟩
      · exact ⟨l3, b3, by rw [hp2, hp3, hp4, hp5]; simp [h6]⟩

/-- In the copy loop, nothing is copied after the placement oracle answered nil. -/
theorem loopRun_after_nil (xname : String) (orig : LOM) (mi0 : Mountpath) (isHrw0 : Bool)
    (mo mn : String) (retries : Nat) (suf : List Act) (r : Option GoErr)
    (h : LoopRun xname orig mi0 isHrw0 mo mn retries suf r) :
    ∀ pre l b post, suf = pre ++ Act.toMpath l none b :: post →
      ∀ a ∈ post, isDataCopy a = false := by
  induction h with
  | done retries l b tail ht =>
    intro pre l2 b2 post hs
    rcases cons_split hs with ⟨_, _, hp⟩ | ⟨pre2, _, h2⟩
    · rw [← hp]
      cases ht <;> simp [isDataCopy]
    · exact absurd (split_mem h2) (retTail_no_toMpath mo tail ht l2 none b2)
  | exceeded retries l mi hge =>
    intro pre l2 b2 post hs
    exact absurd (split_mem hs) (by simp)
  | redoFailed retries l mi ev r hlt hrd =>
    intro pre l2 b2 post hs
    obtain ⟨pre2, _, h2⟩ := cons_split_ne (by simp) hs
    obtain ⟨pre3, _, h3⟩ := cons_split_ne (by simp) h2
    exact absurd (split_mem h3) (redoRun_no_toMpath _ _ _ _ _ _ hrd l2 none b2)
  | redone retries l mi ev suf r hlt hrd _ ih =>
    intro pre l2 b2 post hs
    obtain ⟨pre2, _, h2⟩ := cons_split_ne (by simp) hs
    obtain ⟨pre3, _, h3⟩ := cons_split_ne (by simp) h2
    obtain ⟨pre4, _, h4⟩ := split_not_mem (redoRun_no_toMpath _ _ _ _ _ _ hrd l2 none b2) h3
    exact ih pre4 l2 b2 post h4
  | copied retries l mi suf r _ ih =>
    intro pre l2 b2 post hs
    obtain ⟨pre2, _, h2⟩ := cons_split_ne (by simp) hs
    obtain ⟨pre3, _, h3⟩ := cons_split_ne (by simp) h2
    exact ih pre3 l2 b2 post h3
  | copyFailed retries l mi e2 tail ht =>
    intro pre l2 b2 post hs
    obtain ⟨pre2, _, h2⟩ := cons_split_ne (by simp) hs
    obtain ⟨pre3, _, h3⟩ := cons_split_ne (by simp) h2
    exact absurd (split_mem h3) (retTail_no_toMpath mo tail ht l2 none b2)

theorem bodyRun_after_nil (S : Sys) (xname : String) (orig : LOM) (tr ev : List Act)
    (r : Option GoErr) (h : BodyRun S xname orig tr ev r) :
    ∀ pre l b post, ev = pre ++ Act.toMpath l none b :: post →
      ∀ a ∈ post, isDataCopy a = false := by
  intro pre l b post hs
  cases h with
  | ecFailed ev hec =>
    exact absurd (split_mem hs) (ecRun_no_toMpath S orig tr ev _ hec l none b)
  | loadFailed ec mo mn e2 hec =>
    obtain ⟨pre2, _, h2⟩ := split_not_mem (ecRun_no_toMpath S orig tr ec _ hec l none b) hs
    exact absurd (split_mem h2) (by simp)
  | inPlace ec mo mn b2 tail hec ht =>
    obtain ⟨pre2, _, h2⟩ := split_not_mem (ecRun_no_toMpath S orig tr ec _ hec l none b) hs
    obtain ⟨pre3, _, h3⟩ := cons_split_ne (by simp) h2
    rcases cons_split h3 with ⟨_, _, hp⟩ | ⟨pre4, _, h4⟩
    · rw [← hp]
      cases ht <;> simp [isDataCopy]
    · exact absurd (split_mem h4) (retTail_no_toMpath mo tail ht l none b)
  | redoFailed ec mo mn mi2 b2 rd r hec hrd =>
    obtain ⟨pre2, _, h2⟩ := split_not_mem (ecRun_no_toMpath S orig tr ec _ hec l none b) hs
    obtain ⟨pre3, _, h3⟩ := cons_split_ne (by simp) h2
    obtain ⟨pre4, _, h4⟩ := cons_split_ne (by simp) h3
    exact absurd (split_mem h4) (redoRun_no_toMpath _ _ _ _ _ _ hrd l none b)
  | looped ec mo mn mi2 b2 rd suf r hec hrd hloop =>
    obtain ⟨pre2, _, h2⟩ := split_not_mem (ecRun_no_toMpath S orig tr ec _ hec l none b) hs
    obtain ⟨pre3, _, h3⟩ := cons_split_ne (by simp) h2
    obtain ⟨pre4, _, h4⟩ := cons_split_ne (by simp) h3
    obtain ⟨pre5, _, h5⟩ := split_not_mem (redoRun_no_toMpath _ _ _ _ _ _ hrd l none b) h4
    exact loopRun_after_nil _ _ _ _ _ _ _ _ _ hloop pre5 l b post h5

/-- C17: in every execution of `visitObj`, every file removed is an EC metafile of
the visited object, namely the source or the destination of a metafile copy that
succeeded earlier in the same visit; object data is copied only to a mountpath that
the placement oracle (`ToMpath`) returned earlier in the visit; and once the oracle
answers that there is nothing to do (nil), no object data is copied. With enough fuel `visitObj`
does return, in every environment that settles (`settlesAfter`). -/
theorem visitObj_never_deletes_replicas (S : Sys) (jg : joggerCtx) (lom : LOM)
    (tr : List Act) :
    (∀ N, settlesAfter S N → ∃ r, visitObj S jg (N + maxRetries + 2) lom tr = some r)
    ∧ ∀ fuel err jg2 tr2, visitObj S jg fuel lom tr = some (err, jg2, tr2) →
    ∃ ev, tr2 = tr ++ ev
      ∧ (∀ pre p e post, ev = pre ++ Act.remove p e :: post →
          ∃ mp, Act.copyFile (metaFQN S lom lom.mpath) (metaFQN S lom mp) none ∈ pre
            ∧ (p = metaFQN S lom lom.mpath ∨ p = metaFQN S lom mp))
      ∧ (∀ pre l mi e post, ev = pre ++ Act.copy l mi e :: post →
          ∃ l2 b, Act.toMpath l2 (some mi) b ∈ pre)
      ∧ (∀ pre l b post, ev = pre ++ Act.toMpath l none b :: post →
          ∀ a ∈ post, isDataCopy a = false) := by
  refine ⟨fun N hN => visitObj_returns S jg lom tr N hN, ?_⟩
  intro fuel err jg2 tr2 h
  obtain ⟨ev, hev, hrun, _⟩ := visitObj_run S jg fuel lom tr err jg2 tr2 h
  refine ⟨ev, hev, ?_⟩
  cases hrun with
  | busy =>
    refine ⟨?_, ?_, ?_⟩
    · intro pre p e post hs
      exact absurd (split_mem hs) (by simp)
    · intro pre l mi e post hs
      exact absurd (split_mem hs) (by simp)
    · intro pre l b post hs
      exact absurd (split_mem hs) (by simp)
  | locked locks body dfr err hlocks hbody hdfr =>
    have hdd : ∀ a ∈ dfr, isDataCopy a = false := by
      cases hdfr <;> simp [isDataCopy]
    refine ⟨?_, ?_, ?_⟩
    · intro pre p e post hs
      obtain ⟨ec, rest, out, hbd, hec, _, _, hrm⟩ := bodyRun_split S _ lom _ body err hbody
      subst hbd
      have hn : Act.remove p e ∉ locks ++ ec := by
        intro hm
        rcases List.mem_append.1 hm with hm | hm
        · cases hlocks <;> simp at hm
        · exact ecRun_no_remove S lom _ ec out hec p e hm
      have hnd : Act.remove p e ∉ dfr := by cases hdfr <;> simp
      have hs2 : (locks ++ ec) ++ (rest ++ dfr) = pre ++ Act.remove p e :: post := by
        rw [← hs]; simp
      obtain ⟨pre2, hpre, h2⟩ := split_not_mem hn hs2
      obtain ⟨c, h3, _⟩ := split_left hnd h2
      obtain ⟨mo, mn, ho, hne, hp⟩ := hrm p e (split_mem h3)
      have hsub : ∀ a ∈ ec, a ∈ pre := by
        intro a ha
        rw [hpre]
        simp [ha]
      subst ho
      cases hec with
      | skip _ => rcases hp with hp | hp <;> exact absurd hp hne
      | noMeta serr _ _ => rcases hp with hp | hp <;> exact absurd hp hne
      | vanished serr mp e2 _ _ => rcases hp with hp | hp <;> exact absurd hp hne
      | copied serr mp _ => exact ⟨mp, hsub _ (by simp), hp⟩
    · intro pre l mi e post hs
      have hnl : Act.copy l mi e ∉ locks := by cases hlocks <;> simp
      have hnd : Act.copy l mi e ∉ dfr := by cases hdfr <;> simp
      have hs2 : locks ++ (body ++ dfr) = pre ++ Act.copy l mi e :: post := by
        rw [← hs]; simp
      obtain ⟨pre2, hpre, h2⟩ := split_not_mem hnl hs2
      obtain ⟨c, h3, _⟩ := split_left hnd h2
      obtain ⟨l2, b, hm⟩ := bodyRun_copy_target S _ lom _ body err hbody pre2 l mi e c h3
      exact ⟨l2, b, by rw [hpre]; simp [hm]⟩
    · intro pre l b post hs
      have hnl : Act.toMpath l none b ∉ locks := by cases hlocks <;> simp
      have hnd : Act.toMpath l none b ∉ dfr := by cases hdfr <;> simp
      have hs2 : locks ++ (body ++ dfr) = pre ++ Act.toMpath l none b :: post := by
        rw [← hs]; simp
      obtain ⟨pre2, _, h2⟩ := split_not_mem hnl hs2
      obtain ⟨c, h3, hpost⟩ := split_left hnd h2
      have hc := bodyRun_after_nil S _ lom _ body err hbody pre2 l b c h3
      intro a ha
      rw [hpost] at ha
      rcases List.mem_append.1 ha with ha | ha
      · exact hc a ha
      · exact hdd a ha

theorem visitObj_never_deletes_replicas_witness :
    (∃ r, visitObj sysECMove jctx0 (0 + maxRetries + 2) lomA [] = some r)
      ∧ ∃ err jg2 tr2, visitObj sysECMove jctx0 5 lomA [] = some (err, jg2, tr2)
      ∧ ∃ ev, tr2 = [] ++ ev
          ∧ (∀ pre p e post, ev = pre ++ Act.remove p e :: post →
              ∃ mp, Act.copyFile (metaFQN sysECMove lomA lomA.mpath)
                  (metaFQN sysECMove lomA mp) none ∈ pre
                ∧ (p = metaFQN sysECMove lomA lomA.mpath ∨ p = metaFQN sysECMove lomA mp)) :=
  ⟨(visitObj_never_deletes_replicas sysECMove jctx0 lomA []).1 0 sysECMove_settles, _, _, _, rfl,
    ((visitObj_never_deletes_replicas sysECMove jctx0 lomA []).2 5 _ _ _ rfl).imp
      (fun _ hx => ⟨hx.1, hx.2.1⟩)⟩

end res

namespace xreg

/-! ## Renew policies of the factories -/

/-- C21: whatever the previous entry is, `mncFactory.WhenPrevIsRunning` returns a
non-nil error whose message starts with the name of the running xaction, and as
policy the unassigned zero value, which is none of the renew policies; the
`WhenPrevIsRunning` of `eleFactory` and `llcFactory` return `(WprUse, nil)`. None of
the three answers depends on the previous entry beyond the name in the message. -/
theorem whenPrevIsRunning_policies (quote : String → String) (p prev prev2 : Renewable) :
    (mirror.mncFactory.WhenPrevIsRunning quote p prev).2 ≠ none
      ∧ errMsg (mirror.mncFactory.WhenPrevIsRunning quote p prev).2
          = prev.Get ++ (" is currently running, cannot start a new " ++ quote (p.Str p.Kind))
      ∧ (mirror.mncFactory.WhenPrevIsRunning quote p prev).1 = WPR.zero
      ∧ (mirror.mncFactory.WhenPrevIsRunning quote p prev).1.isPolicy = false
      ∧ (mirror.mncFactory.WhenPrevIsRunning quote p prev).1
          = (mirror.mncFactory.WhenPrevIsRunning quote p prev2).1
      ∧ xs.eleFactory.WhenPrevIsRunning prev = (WPR.WprUse, none)
      ∧ xs.llcFactory.WhenPrevIsRunning prev = (WPR.WprUse, none)
      ∧ xs.eleFactory.WhenPrevIsRunning prev = xs.eleFactory.WhenPrevIsRunning prev2
      ∧ xs.llcFactory.WhenPrevIsRunning prev = xs.llcFactory.WhenPrevIsRunning prev2
      ∧ WPR.WprUse.isPolicy = true := by
  refine ⟨?_, ?_, rfl, rfl, rfl, rfl, rfl, rfl, rfl, rfl⟩
  · simp [mirror.mncFactory.WhenPrevIsRunning]
  · simp [mirror.mncFactory.WhenPrevIsRunning, errMsg, String.append_assoc]

end xreg

namespace res

open xact

/-! ## EC slices -/

theorem moveECMeta_extends (S : Sys) (tr : List Act) (ct : CT) (a b : Mountpath) :
    ∃ ev, (_moveECMeta S tr ct a b).2 = tr ++ ev := by
  unfold _moveECMeta
  simp only
  split
  · exact ⟨_, rfl⟩
  · split
    · exact ⟨_, by rw [List.append_assoc]⟩
    · exact ⟨_, by rw [List.append_assoc]⟩

/-- The first thing `_mvSlice` does is to look up the HRW mountpath of the slice. -/
theorem mvSlice_starts (S : Sys) (tr : List Act) (ct : CT) :
    ∃ e ev, _mvSlice S tr ct
      = tr ++ Act.hrwMpath (S.MakeUname ct.Bucket ct.ObjectName) e :: ev := by
  unfold _mvSlice
  simp only
  cases hh : S.HrwMpath tr (S.MakeUname ct.Bucket ct.ObjectName) with
  | error e => exact ⟨some e, [], rfl⟩
  | ok dest =>
    simp only
    by_cases hp : dest.Path = ct.mpath.Path
    · simp only [hp, if_true]
      exact ⟨none, [], rfl⟩
    · simp only [hp, if_false]
      obtain ⟨ev, hev⟩ := moveECMeta_extends S
        (tr ++ [Act.hrwMpath (S.MakeUname ct.Bucket ct.ObjectName) none]) ct ct.mpath dest
      generalize _moveECMeta S
        (tr ++ [Act.hrwMpath (S.MakeUname ct.Bucket ct.ObjectName) none]) ct ct.mpath dest
        = mv at hev
      obtain ⟨⟨src, dst, merr⟩, tr1⟩ := mv
      simp only at hev
      subst hev
      cases merr with
      | some e => exact ⟨none, ev, by simp⟩
      | none =>
        simp only
        by_cases hs : src = ""
        · simp only [hs, if_true]
          exact ⟨none, ev, by simp⟩
        · simp only [hs, if_false]
          refine ⟨none, ?_⟩
          generalize S.CopyFile
            (tr ++ [Act.hrwMpath (S.MakeUname ct.Bucket ct.ObjectName) none] ++ ev) ct.FQN
            (S.MakePathFQN dest ct.Bucket ContentType.ECSliceType ct.ObjectName) = cerr
          cases cerr with
          | none =>
            simp only [List.append_assoc, List.cons_append, List.nil_append]
            exact ⟨_, rfl⟩
          | some e =>
            simp only [List.append_assoc, List.cons_append, List.nil_append]
            exact ⟨_, rfl⟩

/-- C23: the slice belongs on another mountpath and its metafile was copied there;
when copying the slice fails, `_mvSlice` removes the copied metafile and then goes
on to remove the source metafile and the source slice as well. When the copy
succeeds it removes the two source files; for a slice in place or without a
metafile it copies and removes nothing. -/
theorem mvSlice_copy_failure_removes_both_sides :
    _mvSlice sysSliceCopyFails [] ctSlice
        = [Act.hrwMpath "bck/obj" none,
           Act.stat "/mnt/a/bck/%mt/obj" none,
           Act.copyFile "/mnt/a/bck/%mt/obj" "/mnt/b/bck/%mt/obj" none,
           Act.copyFile "/mnt/a/bck/%ec/obj" "/mnt/b/bck/%ec/obj"
             (some (GoErr.other "input/output error")),
           Act.remove "/mnt/b/bck/%mt/obj" none,
           Act.remove "/mnt/a/bck/%mt/obj" none,
           Act.remove "/mnt/a/bck/%ec/obj" none]
      ∧ _mvSlice sysQuiet [] ctSlice
        = [Act.hrwMpath "bck/obj" none,
           Act.stat "/mnt/a/bck/%mt/obj" none,
           Act.copyFile "/mnt/a/bck/%mt/obj" "/mnt/b/bck/%mt/obj" none,
           Act.copyFile "/mnt/a/bck/%ec/obj" "/mnt/b/bck/%ec/obj" none,
           Act.remove "/mnt/a/bck/%mt/obj" none,
           Act.remove "/mnt/a/bck/%ec/obj" none]
      ∧ _mvSlice sysSliceInPlace [] ctSlice = [Act.hrwMpath "bck/obj" none]
      ∧ _mvSlice sysSliceNoMeta [] ctSlice
        = [Act.hrwMpath "bck/obj" none,
           Act.stat "/mnt/a/bck/%mt/obj" (some (GoErr.notExist "no such file or directory"))] := by
  refine ⟨by decide, by decide, by decide, by decide⟩

/-- C24: `visitCT` returns `filepath.SkipDir` exactly when EC is disabled for the
bucket of the slice, and then does nothing; when EC is enabled it runs `_mvSlice`
and returns nil whatever happens in there. It returns no other error. What the
attempt to move the slice does, with EC enabled: it asks for the HRW mountpath of
the slice and stops there when the lookup fails or the slice is already on that
mountpath; otherwise it looks up the metafile of the slice and stops when there is
none; otherwise it copies the metafile to the HRW mountpath and stops when that
fails; otherwise (the metafile path being nonempty) it copies the slice to the HRW
mountpath, and after a successful copy removes the source metafile and the source
slice, in this order, and nothing else. -/
theorem visitCT_skips_iff_ec_disabled (S : Sys) (tr : List Act) (ct : CT) :
    ((visitCT S tr ct).1 = some SkipDir ↔ ct.ecEnabled = false)
      ∧ (ct.ecEnabled = false → (visitCT S tr ct).2 = tr)
      ∧ (ct.ecEnabled = true → visitCT S tr ct = (none, _mvSlice S tr ct))
      ∧ (ct.ecEnabled = true → ∃ e ev, (visitCT S tr ct).2
            = tr ++ Act.hrwMpath (S.MakeUname ct.Bucket ct.ObjectName) e :: ev)
      ∧ ((visitCT S tr ct).1 = none ∨ (visitCT S tr ct).1 = some SkipDir)
      ∧ (ct.ecEnabled = true → ∀ e, S.HrwMpath tr (sliceUname S ct) = .error e →
          visitCT S tr ct = (none, tr ++ [Act.hrwMpath (sliceUname S ct) (some e)]))
      ∧ (ct.ecEnabled = true → ∀ dest, S.HrwMpath tr (sliceUname S ct) = .ok dest →
          dest.Path = ct.mpath.Path →
          visitCT S tr ct = (none, tr ++ [Act.hrwMpath (sliceUname S ct) none]))
      ∧ (ct.ecEnabled = true → ∀ dest, S.HrwMpath tr (sliceUname S ct) = .ok dest →
          dest.Path ≠ ct.mpath.Path →
          GoErr.IsNotExist (S.Stat (tr ++ [Act.hrwMpath (sliceUname S ct) none])
            (sliceMetaFQN S ct ct.mpath)) = true →
          visitCT S tr ct = (none, metaLooked S tr ct))
      ∧ (ct.ecEnabled = true → ∀ dest, S.HrwMpath tr (sliceUname S ct) = .ok dest →
          dest.Path ≠ ct.mpath.Path →
          GoErr.IsNotExist (S.Stat (tr ++ [Act.hrwMpath (sliceUname S ct) none])
            (sliceMetaFQN S ct ct.mpath)) = false →
          ∀ e, S.CopyFile (metaLooked S tr ct) (sliceMetaFQN S ct ct.mpath)
            (sliceMetaFQN S ct dest) = some e →
          visitCT S tr ct = (none, metaLooked S tr ct
            ++ [Act.copyFile (sliceMetaFQN S ct ct.mpath) (sliceMetaFQN S ct dest) (some e)]))
      ∧ (ct.ecEnabled = true → ∀ dest, S.HrwMpath tr (sliceUname S ct) = .ok dest →
          dest.Path ≠ ct.mpath.Path →
          GoErr.IsNotExist (S.Stat (tr ++ [Act.hrwMpath (sliceUname S ct) none])
            (sliceMetaFQN S ct ct.mpath)) = false →
          S.CopyFile (metaLooked S tr ct) (sliceMetaFQN S ct ct.mpath)
            (sliceMetaFQN S ct dest) = none →
          sliceMetaFQN S ct ct.mpath ≠ "" →
          (∃ rest, (visitCT S tr ct).2 = metaCopied S tr ct dest
              ++ Act.copyFile ct.FQN (sliceFQN S ct dest)
                  (S.CopyFile (metaCopied S tr ct dest) ct.FQN (sliceFQN S ct dest)) :: rest)
            ∧ (S.CopyFile (metaCopied S tr ct dest) ct.FQN (sliceFQN S ct dest) = none →
                ∃ e1 e2, visitCT S tr ct = (none, metaCopied S tr ct dest
                  ++ [Act.copyFile ct.FQN (sliceFQN S ct dest) none,
                      Act.remove (sliceMetaFQN S ct ct.mpath) e1,
                      Act.remove ct.FQN e2]))) := by
  cases hec : ct.ecEnabled with
  | false => simp [visitCT, hec]
  | true =>
    have hv : visitCT S tr ct = (none, _mvSlice S tr ct) := by simp [visitCT, hec]
    refine ⟨by simp [hv], by simp, fun _ => hv, fun _ => ?_, Or.inl (by rw [hv]),
      fun _ => ?_, fun _ => ?_, fun _ => ?_, fun _ => ?_, fun _ => ?_⟩
    · rw [hv]
      exact mvSlice_starts S tr ct
    · intro e he
      rw [hv]
      simp only [sliceUname] at he
      simp [_mvSlice, he, sliceUname]
    · intro dest hd hp
      rw [hv]
      simp only [sliceUname] at hd
      simp [_mvSlice, hd, hp, sliceUname]
    · intro dest hd hp hst
      rw [hv]
      simp only [sliceUname, sliceMetaFQN] at hd hst
      simp [_mvSlice, _moveECMeta, hd, hp, hst, sliceUname, sliceMetaFQN, metaLooked]
    · intro dest hd hp hst e hc
      rw [hv]
      simp only [sliceUname, sliceMetaFQN, metaLooked] at hd hst hc
      simp [_mvSlice, _moveECMeta, hd, hp, hst, hc, sliceUname, sliceMetaFQN, metaLooked]
      split <;> rfl
    · intro dest hd hp hst hc hne
      rw [hv]
      simp only [sliceUname, sliceMetaFQN, metaLooked] at hd hst hc hne
      have hmv : _moveECMeta S (tr ++ [Act.hrwMpath (S.MakeUname ct.Bucket ct.ObjectName) none])
          ct ct.mpath dest
          = ((S.MakePathFQN ct.mpath ct.Bucket ContentType.ECMetaType ct.ObjectName,
              S.MakePathFQN dest ct.Bucket ContentType.ECMetaType ct.ObjectName, none),
             metaCopied S tr ct dest) := by
        simp [_moveECMeta, hst, hc, metaCopied, sliceUname, sliceMetaFQN]
      unfold _mvSlice
      simp only [hd, hp, hmv, if_false, hne, sliceFQN, sliceMetaFQN]
      generalize S.CopyFile (metaCopied S tr ct dest) ct.FQN
        (S.MakePathFQN dest ct.Bucket ContentType.ECSliceType ct.ObjectName) = cerr
      cases cerr with
      | none =>
        simp only [List.append_assoc, List.cons_append, List.nil_append]
        exact ⟨⟨_, rfl⟩, fun _ => ⟨_, _, rfl⟩⟩
      | some e =>
        simp only [List.append_assoc, List.cons_append, List.nil_append]
        exact ⟨⟨_, rfl⟩, fun h => by cases h⟩

theorem visitCT_skips_iff_ec_disabled_witness :
    (ctSlice.ecEnabled = true
        ∧ sysQuiet.HrwMpath [] (sliceUname sysQuiet ctSlice) = .ok mpB
        ∧ mpB.Path ≠ ctSlice.mpath.Path
        ∧ sliceMetaFQN sysQuiet ctSlice ctSlice.mpath ≠ "")
      ∧ (∃ e1 e2, visitCT sysQuiet [] ctSlice
          = (none, [Act.hrwMpath "bck/obj" none,
                    Act.stat "/mnt/a/bck/%mt/obj" none,
                    Act.copyFile "/mnt/a/bck/%mt/obj" "/mnt/b/bck/%mt/obj" none,
                    Act.copyFile "/mnt/a/bck/%ec/obj" "/mnt/b/bck/%ec/obj" none,
                    Act.remove "/mnt/a/bck/%mt/obj" e1,
                    Act.remove "/mnt/a/bck/%ec/obj" e2]))
      ∧ visitCT sysSliceInPlace [] ctSlice = (none, [Act.hrwMpath "bck/obj" none])
      ∧ visitCT sysQuiet [] { ctSlice with ecEnabled := false } = (some SkipDir, []) :=
  ⟨⟨rfl, rfl, by decide, by decide⟩,
    ((visitCT_skips_iff_ec_disabled sysQuiet [] ctSlice).2.2.2.2.2.2.2.2.2 rfl mpB rfl
      (by decide) rfl rfl (by decide)).2 rfl,
    (visitCT_skips_iff_ec_disabled sysSliceInPlace [] ctSlice).2.2.2.2.2.2.1 rfl mpA rfl rfl,
    by decide⟩

/-! ## `Res.IsActive` -/

theorem wrapInt64_of_range (x : Int) (hlo : -2 ^ 63 ≤ x) (hhi : x < 2 ^ 63) :
    wrapInt64 x = x := by
  unfold wrapInt64
  omega

/-- C26: `IsActive(m)` is false exactly when `begin` is 0, or `now - begin` is not
below `m * 4s`, `end` is not 0 and `now - end` is not below 4s, the differences and
the product being `int64` values; where none of them overflows these are the plain
differences and the plain product. With `begin` set and `end` 0 (after `_begin`,
before `_end`) it is true for every multiplier, and with `begin` 0 it is false for
every multiplier. -/
theorem isActive_false_iff (r : Res) (now m : Int) :
    (r.IsActive now m = false ↔
        r.begin_ = 0
          ∨ (wrapInt64 (m * timedDuration) ≤ wrapInt64 (now - r.begin_) ∧ r.end_ ≠ 0
              ∧ timedDuration ≤ wrapInt64 (now - r.end_)))
      ∧ (-2 ^ 63 ≤ now - r.begin_ → now - r.begin_ < 2 ^ 63 →
         -2 ^ 63 ≤ m * timedDuration → m * timedDuration < 2 ^ 63 →
         -2 ^ 63 ≤ now - r.end_ → now - r.end_ < 2 ^ 63 →
          (r.IsActive now m = false ↔
            r.begin_ = 0
              ∨ (m * (4 * 1000000000) ≤ now - r.begin_ ∧ r.end_ ≠ 0
                  ∧ 4 * 1000000000 ≤ now - r.end_)))
      ∧ (r.begin_ ≠ 0 → r.end_ = 0 → r.IsActive now m = true)
      ∧ (r.begin_ = 0 → r.IsActive now m = false)
      ∧ (∀ t, t ≠ 0 → (r._begin t).IsActive now m = true) := by
  have h1 : r.IsActive now m = false ↔
      r.begin_ = 0
        ∨ (wrapInt64 (m * timedDuration) ≤ wrapInt64 (now - r.begin_) ∧ r.end_ ≠ 0
            ∧ timedDuration ≤ wrapInt64 (now - r.end_)) := by
    unfold Res.IsActive
    by_cases hb : r.begin_ = 0
    · simp [hb]
    · by_cases hlt : wrapInt64 (now - r.begin_) < wrapInt64 (m * timedDuration)
      · simp only [hb, if_false, hlt, if_true, false_or]
        constructor
        · intro h; cases h
        · intro h; omega
      · simp only [hb, if_false, hlt, false_or, Bool.or_eq_false_iff, decide_eq_false_iff_not]
        constructor
        · intro h; exact ⟨by omega, h.1, by omega⟩
        · intro h; exact ⟨h.2.1, by omega⟩
  refine ⟨h1, ?_, ?_, ?_, ?_⟩
  · intro a1 a2 b1 b2 c1 c2
    rw [h1, wrapInt64_of_range _ a1 a2, wrapInt64_of_range _ b1 b2, wrapInt64_of_range _ c1 c2]
    rfl
  · intro hb he
    by_contra hc
    have hf : r.IsActive now m = false := by simpa using hc
    rcases h1.1 hf with h | h
    · exact hb h
    · exact h.2.1 he
  · intro hb
    exact h1.2 (Or.inl hb)
  · intro t ht
    unfold Res.IsActive Res._begin
    by_cases hlt : wrapInt64 (now - t) < wrapInt64 (m * timedDuration) <;> simp [ht, hlt]

theorem isActive_false_iff_witness :
    ((-2 : Int) ^ 63 ≤ 10000000000 - 1000 ∧ (10000000000 : Int) - 1000 < 2 ^ 63
        ∧ (-2 : Int) ^ 63 ≤ 2 * timedDuration ∧ 2 * timedDuration < 2 ^ 63
        ∧ (-2 : Int) ^ 63 ≤ 10000000000 - 2000 ∧ (10000000000 : Int) - 2000 < 2 ^ 63)
      ∧ (Res.IsActive { begin_ := 1000, end_ := 2000 } 10000000000 2 = false ↔
          (1000 : Int) = 0
            ∨ ((2 : Int) * (4 * 1000000000) ≤ 10000000000 - 1000 ∧ (2000 : Int) ≠ 0
                ∧ (4 : Int) * 1000000000 ≤ 10000000000 - 2000)) :=
  ⟨by decide,
    (isActive_false_iff { begin_ := 1000, end_ := 2000 } 10000000000 2).2.1
      (by decide) (by decide) (by decide) (by decide) (by decide) (by decide)⟩

end res

namespace mirror

open xact res

/-! ## Failures of the copy operation that are neither not-exist nor out-of-space -/

/-- C27 as stated fails: `addCopies` fails with an input/output error on the object
that brings the counter to 100 while the capacity state reports an error; the
object is counted, and `visitObj` returns a non-nil (aborted) error, not nil. -/
theorem mnc_visitObj_other_failure_at_checkpoint :
    GoErr.IsNotExist (some (GoErr.other "input/output error")) = false
      ∧ GoErr.IsErrOOS (GoErr.other "input/output error") = false
      ∧ (xactMNC.visitObj
            (mncSys 1 (some (GoErr.other "input/output error"))
              (some (GoErr.other "capacity exceeded")))
            (mnc2 99) lomA).1
          = NewErrAborted (mnc2 99).Name "visit-obj" (some (GoErr.other "capacity exceeded"))
      ∧ (xactMNC.visitObj
            (mncSys 1 (some (GoErr.other "input/output error"))
              (some (GoErr.other "capacity exceeded")))
            (mnc2 99) lomA).1 ≠ none
      ∧ (xactMNC.visitObj
            (mncSys 1 (some (GoErr.other "input/output error"))
              (some (GoErr.other "capacity exceeded")))
            (mnc2 99) lomA).2.1.Objs = 100 := by
  refine ⟨rfl, rfl, by decide, by decide, by decide⟩

/-- C27 amended: when `addCopies` or `delCopies` fails with an error that is neither
not-exist nor out-of-space, `visitObj` counts the object (`ObjsAdd(1, size)`) and
does not return that error: it returns nil, unless the counter after the increment
is a multiple of 100 and the capacity state reports an error, in which case it
returns the aborted error that wraps the capacity error. When the operation fails
with not-exist, `visitObj` returns nil and counts nothing. -/
theorem mnc_visitObj_swallows_other_failures (E : MncSys) (r : xactMNC) (lom : LOM) :
    (∀ e, E.NumCopies lom ≠ r.copies → opErr E r lom = some e →
        GoErr.IsNotExist (some e) = false → GoErr.IsErrOOS e = false →
        (xactMNC.visitObj E r lom).2.1 = r.ObjsAdd 1 (opSize E r lom)
          ∧ MncAct.objsAdd 1 (opSize E r lom) ∈ (xactMNC.visitObj E r lom).2.2
          ∧ (((r.ObjsAdd 1 (opSize E r lom)).Objs.tmod 100 ≠ 0 ∨ E.CapErr = none) →
              (xactMNC.visitObj E r lom).1 = none)
          ∧ (∀ c, (r.ObjsAdd 1 (opSize E r lom)).Objs.tmod 100 = 0 → E.CapErr = some c →
              (xactMNC.visitObj E r lom).1
                = NewErrAborted (r.ObjsAdd 1 (opSize E r lom)).Name "visit-obj" (some c)))
      ∧ (∀ e, E.NumCopies lom ≠ r.copies → opErr E r lom = some e →
          GoErr.IsNotExist (some e) = true →
          (xactMNC.visitObj E r lom).1 = none
            ∧ (xactMNC.visitObj E r lom).2.1 = r
            ∧ (∀ n size, MncAct.objsAdd n size ∉ (xactMNC.visitObj E r lom).2.2)) := by
  constructor
  · intro e hne hop hnx hoos
    have hp : processed E r lom = true := by
      unfold opErr at hop
      simp only [processed, hop, hnx, hoos]
      simp [hne]
    have hv := visitObj_processed E r lom hp
    rw [count_eq] at hv
    by_cases h100 : (r.ObjsAdd 1 (opSize E r lom)).Objs.tmod 100 = 0
    · rw [if_pos h100] at hv
      refine ⟨by rw [hv], by rw [hv]; simp, ?_, ?_⟩
      · intro hor
        rcases hor with hor | hor
        · exact absurd h100 hor
        · rw [hv, hor]
      · intro c _ hc
        rw [hv, hc]
    · rw [if_neg h100] at hv
      refine ⟨by rw [hv], by rw [hv]; simp, fun _ => by rw [hv], ?_⟩
      intro c hc
      exact absurd hc h100
  · intro e hne hop hnx
    have hp : processed E r lom = false := by
      unfold opErr at hop
      simp only [processed, hop, hnx]
      simp
    obtain ⟨h1, h2, _⟩ := visitObj_not_processed E r lom hp
    refine ⟨?_, h1, h2⟩
    unfold opErr at hop
    simp [xactMNC.visitObj, hne, hop, hnx]

theorem mnc_visitObj_swallows_other_failures_witness :
    ((mncSys 1 (some (GoErr.other "input/output error")) none).NumCopies lomA ≠ (mnc2 0).copies
        ∧ opErr (mncSys 1 (some (GoErr.other "input/output error")) none) (mnc2 0) lomA
            = some (GoErr.other "input/output error"))
      ∧ (xactMNC.visitObj (mncSys 1 (some (GoErr.other "input/output error")) none)
            (mnc2 0) lomA).2.1
          = (mnc2 0).ObjsAdd 1
              (opSize (mncSys 1 (some (GoErr.other "input/output error")) none) (mnc2 0) lomA) :=
  ⟨⟨by decide, rfl⟩,
    ((mnc_visitObj_swallows_other_failures
        (mncSys 1 (some (GoErr.other "input/output error")) none) (mnc2 0) lomA).1
      (GoErr.other "input/output error") (by decide) rfl rfl rfl).1⟩

end mirror

namespace cos

/-! ## `Mime` -/

theorem Mime_of_mime (mime filename : String) (h : mime ≠ "") :
    Mime mime filename = byMime mime := by
  simp [Mime, h]

theorem hasSuffix_append_self (b ext : String) : HasSuffix (b ++ ext) ext = true := by
  simp [HasSuffix]

/-- A suffix of `b ++ x` is a suffix of `x` or has `x` as a suffix. -/
theorem hasSuffix_append (b x e : String) (h : HasSuffix (b ++ x) e = true) :
    e.data <:+ x.data ∨ x.data <:+ e.data := by
  simp only [HasSuffix, String.data_append, List.isSuffixOf_iff_suffix] at h
  exact List.suffix_or_suffix_of_suffix h (List.suffix_append _ _)

theorem hasSuffix_append_false (b x e : String) (h1 : ¬ e.data <:+ x.data)
    (h2 : ¬ x.data <:+ e.data) : HasSuffix (b ++ x) e = false := by
  cases h : HasSuffix (b ++ x) e with
  | false => rfl
  | true =>
    rcases hasSuffix_append b x e h with h3 | h3
    · exact absurd h3 h1
    · exact absurd h3 h2

theorem byMime_supported (mime : String) (h : (byMime mime).2 = none) :
    (byMime mime).1 ∈ ArchExtensions := by
  unfold byMime at h ⊢
  by_cases hc : Contains mime (from1 ExtTarTgz) = true
  · simp only [hc, if_true]
    decide
  · simp only [hc, Bool.false_eq_true, if_false] at h ⊢
    cases hf : ArchExtensions.find? (fun ext => Contains mime (from1 ext)) with
    | none => rw [hf] at h; simp at h
    | some ext =>
      simp only
      exact List.mem_of_find?_eq_some hf

/-- C25: for every supported extension `ext`, every filename `f` and every string
`b`: `Mime(ext, f) = ext`, `Mime(ext[1:], f) = ext` and `Mime("", b + ext) = ext`;
a result without an error is a supported extension; with an empty mime the error
is returned exactly when no supported extension is a suffix of the filename, and
it is the `ErrUnknownMime` of the filename. -/
theorem mime_maps_to_supported_extension (f b mime : String) :
    (∀ ext ∈ ArchExtensions,
        Mime ext f = (ext, none) ∧ Mime (from1 ext) f = (ext, none)
          ∧ Mime "" (b ++ ext) = (ext, none))
      ∧ ((Mime mime f).2 = none → (Mime mime f).1 ∈ ArchExtensions)
      ∧ ((Mime "" f).2 ≠ none ↔ ∀ ext ∈ ArchExtensions, HasSuffix f ext = false)
      ∧ ((Mime "" f).2 ≠ none → (Mime "" f).2 = some (NewUnknownMimeError f)) := by
  refine ⟨?_, ?_, ?_, ?_⟩
  · intro ext hext
    simp only [ArchExtensions, List.mem_cons, List.mem_singleton, List.not_mem_nil,
      or_false] at hext
    rcases hext with rfl | rfl | rfl | rfl | rfl
    · refine ⟨?_, ?_, ?_⟩
      · rw [Mime_of_mime _ _ (by decide)]; decide
      · rw [Mime_of_mime _ _ (by decide)]; decide
      · simp [Mime, ArchExtensions, hasSuffix_append_self]
    · refine ⟨?_, ?_, ?_⟩
      · rw [Mime_of_mime _ _ (by decide)]; decide
      · rw [Mime_of_mime _ _ (by decide)]; decide
      · have h1 := hasSuffix_append_false b ExtTgz ExtTar (by decide) (by decide)
        simp [Mime, ArchExtensions, hasSuffix_append_self, h1]
    · refine ⟨?_, ?_, ?_⟩
      · rw [Mime_of_mime _ _ (by decide)]; decide
      · rw [Mime_of_mime _ _ (by decide)]; decide
      · have h1 := hasSuffix_append_false b ExtTarTgz ExtTar (by decide) (by decide)
        have h2 := hasSuffix_append_false b ExtTarTgz ExtTgz (by decide) (by decide)
        simp [Mime, ArchExtensions, hasSuffix_append_self, h1, h2]
    · refine ⟨?_, ?_, ?_⟩
      · rw [Mime_of_mime _ _ (by decide)]; decide
      · rw [Mime_of_mime _ _ (by decide)]; decide
      · have h1 := hasSuffix_append_false b ExtZip ExtTar (by decide) (by decide)
        have h2 := hasSuffix_append_false b ExtZip ExtTgz (by decide) (by decide)
        have h3 := hasSuffix_append_false b ExtZip ExtTarTgz (by decide) (by decide)
        simp [Mime, ArchExtensions, hasSuffix_append_self, h1, h2, h3]
    · refine ⟨?_, ?_, ?_⟩
      · rw [Mime_of_mime _ _ (by decide)]; decide
      · rw [Mime_of_mime _ _ (by decide)]; decide
      · have h1 := hasSuffix_append_false b ExtMsgpack ExtTar (by decide) (by decide)
        have h2 := hasSuffix_append_false b ExtMsgpack ExtTgz (by decide) (by decide)
        have h3 := hasSuffix_append_false b ExtMsgpack ExtTarTgz (by decide) (by decide)
        have h4 := hasSuffix_append_false b ExtMsgpack ExtZip (by decide) (by decide)
        simp [Mime, ArchExtensions, hasSuffix_append_self, h1, h2, h3, h4]
  · intro h
    by_cases hm : mime = ""
    · subst hm
      simp only [Mime, ne_eq, not_true_eq_false, if_false] at h ⊢
      cases hf : ArchExtensions.find? (fun ext => HasSuffix f ext) with
      | none => rw [hf] at h; simp at h
      | some ext =>
        simp only
        exact List.mem_of_find?_eq_some hf
    · rw [Mime_of_mime _ _ hm] at h ⊢
      exact byMime_supported mime h
  · simp only [Mime, ne_eq, not_true_eq_false, if_false]
    cases hf : ArchExtensions.find? (fun ext => HasSuffix f ext) with
    | none =>
      simp only [List.find?_eq_none, Bool.not_eq_true] at hf
      simp only [reduceCtorEq, not_false_eq_true, true_iff]
      exact hf
    | some ext =>
      simp only [not_true_eq_false, false_iff, not_forall]
      exact ⟨ext, List.mem_of_find?_eq_some hf, by
        have := List.find?_some hf
        simp [this]⟩
  · simp only [Mime, ne_eq, not_true_eq_false, if_false]
    cases hf : ArchExtensions.find? (fun ext => HasSuffix f ext) with
    | none => intro _; rfl
    | some ext => intro h; simp at h

theorem mime_maps_to_supported_extension_witness :
    (Mime "" "shard-0001.tar.gz").2 = none
      ∧ (Mime "" "shard-0001.tar.gz").1 ∈ ArchExtensions
      ∧ Mime "" "shard-0001.tar.gz" = (".tar.gz", none) :=
  ⟨by decide,
    (mime_maps_to_supported_extension "shard-0001.tar.gz" "" "").2.1 (by decide),
    by decide⟩

end cos

namespace archive

/-! ## `namesEq` -/

/-- C28: `namesEq` indexes `n1[0]`, then `n2[0]`, without looking at the lengths:
it panics whenever one of the two names is empty, and so do `tarLR` and `zipLR` on
an entry with an empty name, or on an empty requested filename, unless the two
names are equal; on non-empty names `namesEq` works. -/
theorem namesEq_panics_on_empty_name :
    (∀ n2, namesEq "" n2 = .error (GoPanic.indexOutOfRange 0 0))
      ∧ namesEq "a" "" = .error (GoPanic.indexOutOfRange 0 0)
      ∧ tarLR "a" [.ok { Name := "", Size := 3 }] = .error (GoPanic.indexOutOfRange 0 0)
      ∧ tarLR "" [.ok { Name := "a", Size := 3 }] = .error (GoPanic.indexOutOfRange 0 0)
      ∧ zipLR "a" (.ok [{ Name := "", IsDir := false, Size := 3 }])
          = .error (GoPanic.indexOutOfRange 0 0)
      ∧ zipLR "" (.ok [{ Name := "a", IsDir := false, Size := 3 }])
          = .error (GoPanic.indexOutOfRange 0 0)
      ∧ namesEq "/a" "a" = .ok true
      ∧ namesEq "a" "b" = .ok false
      ∧ tarLR "a" [.ok { Name := "/a", Size := 3 }] = .ok (LR.found 3) := by
  refine ⟨fun _ => rfl, rfl, rfl, rfl, rfl, rfl, rfl, rfl, rfl⟩

end archive

namespace authn

/-! ## `Config.ApplyUpdate` -/

/-- C29: an update with a valid new secret and an expiration string that does not
parse: `ApplyUpdate` returns the error after it has stored the new secret. So it is
for every such update, whatever the configuration and the parser. -/
theorem applyUpdate_error_keeps_new_secret :
    Config.ApplyUpdate parseSample config0
        { Server := some { Secret := some "new-secret", ExpirePeriod := some "soon" } }
        = ({ Server := { Secret := "new-secret", ExpirePeriod := 86400000000000 } },
            some (GoErr.other "invalid time format soon, err: time: invalid duration soon"))
      ∧ config0.Server.Secret = "old-secret"
      ∧ (∀ (ParseDuration : String → Except String Int) (c : Config) (s d msg : String),
          s ≠ "" → ParseDuration d = .error msg →
          (Config.ApplyUpdate ParseDuration c
              { Server := some { Secret := some s, ExpirePeriod := some d } }).2 ≠ none
            ∧ (Config.ApplyUpdate ParseDuration c
                { Server := some { Secret := some s, ExpirePeriod := some d } }).1.Server.Secret
                = s) := by
  refine ⟨by decide, rfl, ?_⟩
  intro pd c s d msg hs hpd
  simp [Config.ApplyUpdate, hs, hpd]

end authn

namespace cli

/-! ## The verbose loop of `xactList` -/

/-- C30: the guard of the verbose loop tests `dts[0].XactSnaps`, not the list of the
node at hand. With snapshots on the first node (by ID) and none on the second, the
loop indexes the empty list of the second node and panics; with none on the first
node every node is skipped, also one that has snapshots. -/
theorem xactList_verbose_indexes_empty_list :
    mkDts [("t2", []), ("t1", [snapReb])]
        = [{ DaemonID := "t1", XactSnaps := [snapReb] }, { DaemonID := "t2", XactSnaps := [] }]
      ∧ verboseLoop (fun _ => none) (mkDts [("t2", []), ("t1", [snapReb])])
          = .error (GoPanic.indexOutOfRange 0 0)
      ∧ verboseLoop (fun _ => none) (mkDts [("t1", []), ("t2", [snapReb])]) = .ok (none, [])
      ∧ verboseLoop (fun _ => none) (mkDts [("t1", [snapReb]), ("t2", [snapReb])])
          = .ok (none, [("t1", snapReb), ("t2", snapReb)]) := by
  refine ⟨by decide, rfl, rfl, rfl⟩

end cli

namespace res

open xact

/-! ## A second visit after a completed one -/

end res
